import Mathlib

/-!
# Verification of the diff-match-patch-es library

A shallow embedding of the algorithmic core of the `diff-match-patch-es`
library (an ESM/TypeScript rewrite of Google's diff-match-patch) together
with proofs and refutations of the specification claims about it.

Modelling conventions, used throughout:

* JavaScript strings are sequences of UTF-16 code units; they are modelled
  as `List Nat` (named `JStr`).  All offsets and lengths count code units,
  matching the library's wire formats.
* JavaScript numbers are IEEE doubles.  Wherever the source only performs
  integer arithmetic on values far below 2^53 we model them as `Int`/`Nat`
  (exact); wherever genuine fractions appear (match scores, thresholds,
  timeouts) we use `ℚ`.  Every comparison the claims depend on is either
  exactly representable in both models or is noted at its definition.
* `while` loops of the source become fuel-indexed recursive functions.
  Each such function documents its out-of-fuel value; wrappers supply
  enough fuel for every actual run of the source loop.  The recursive
  diff itself is indexed by a fuel parameter which plays the role of the
  source's wall-clock deadline: fuel 0 means the deadline has passed and
  yields the source's trivial-diff fallback.
* Fallible code (`throw new Error(...)`) is modelled with `Except String`.
-/

set_option maxHeartbeats 1600000

namespace DMP

/-- A JavaScript string: a finite sequence of UTF-16 code units. -/
abbrev JStr := List Nat

/-! ## Primitive JavaScript string operations -/

/-- Clamp an index into the range `[0, n]`, as JS string methods do. -/
def clampIdx (n : Nat) (i : Int) : Nat :=
  (max 0 (min i (n : Int))).toNat

/-- `s.substring(a, b)`: clamps both arguments into `[0, s.length]` and
swaps them when `a > b`. -/
def jsSubstring (s : JStr) (a b : Int) : JStr :=
  let a' := clampIdx s.length a
  let b' := clampIdx s.length b
  if a' ≤ b' then (s.drop a').take (b' - a') else (s.drop b').take (a' - b')

/-- `s.substring(a)` (one-argument form). -/
def jsSubstringFrom (s : JStr) (a : Int) : JStr :=
  jsSubstring s a (s.length : Int)

/-- `s.charAt(i)`: the one-unit string at `i`, or the empty string when
`i` is out of range. -/
def jsCharAt (s : JStr) (i : Int) : JStr :=
  if 0 ≤ i then (s.drop i.toNat).take 1 else []

/-- Does `sub` occur in `s` starting exactly at offset `i`? -/
def matchesAt (s sub : JStr) (i : Nat) : Bool :=
  (s.drop i).take sub.length == sub

/-- Scan upward from `i` for `k + 1` candidate offsets, returning the first
occurrence of `sub` or `-1`. -/
def indexOfFrom (s sub : JStr) : Nat → Nat → Int
  | _, 0 => -1
  | i, k + 1 => if matchesAt s sub i then (i : Int) else indexOfFrom s sub (i + 1) k

/-- `s.indexOf(sub, from)`: first occurrence of `sub` at an offset
`≥ clamp(from)`, or `-1`. -/
def jsIndexOf (s sub : JStr) (frm : Int) : Int :=
  let start := clampIdx s.length frm
  indexOfFrom s sub start (s.length + 1 - start)

/-- Scan downward from `i` for the last occurrence of `sub`, or `-1`. -/
def lastIndexOfFrom (s sub : JStr) : Nat → Int
  | 0 => if matchesAt s sub 0 then 0 else -1
  | i + 1 => if matchesAt s sub (i + 1) then ((i : Int) + 1) else lastIndexOfFrom s sub i

/-- `s.lastIndexOf(sub, from)`: last occurrence of `sub` starting at an
offset `≤ clamp(from)`, or `-1`. -/
def jsLastIndexOf (s sub : JStr) (frm : Int) : Int :=
  lastIndexOfFrom s sub (clampIdx s.length frm)

/-- `s.split(c)` for a one-character separator: no merging of adjacent
separators, and the empty string splits to `[""]`. -/
def jsSplit (c : Nat) : JStr → List JStr
  | [] => [[]]
  | u :: rest =>
    if u = c then [] :: jsSplit c rest
    else
      match jsSplit c rest with
      | [] => [[u]]
      | t :: ts => (u :: t) :: ts

/-! ## The diff data model -/

/-- The three edit operations.  In the source they are the integers
`DIFF_DELETE = -1`, `DIFF_INSERT = 1`, `DIFF_EQUAL = 0`. -/
inductive DiffOp where
  | delete
  | insert
  | equal
deriving DecidableEq, Repr

/-- One diff tuple `[op, text]` (`createDiff` in the source). -/
abbrev Diff := DiffOp × JStr

/-- `createDiff`. -/
def createDiff (op : DiffOp) (text : JStr) : Diff := (op, text)

/-- `diffText1`: concatenation of the payloads of all non-INSERT entries
(the source text of the script). -/
def diffText1 : List Diff → JStr
  | [] => []
  | (op, t) :: rest => if op = DiffOp.insert then diffText1 rest else t ++ diffText1 rest

/-- `diffText2`: concatenation of the payloads of all non-DELETE entries
(the destination text of the script). -/
def diffText2 : List Diff → JStr
  | [] => []
  | (op, t) :: rest => if op = DiffOp.delete then diffText2 rest else t ++ diffText2 rest

/-- `diffLevenshtein`: for each run of DELETE/INSERT entries add the
maximum of the inserted and deleted unit counts, resetting at EQUAL. -/
def diffLevenshteinLoop : List Diff → Nat → Nat → Nat
  | [], insertions, deletions => max insertions deletions
  | (op, t) :: rest, insertions, deletions =>
    match op with
    | DiffOp.insert => diffLevenshteinLoop rest (insertions + t.length) deletions
    | DiffOp.delete => diffLevenshteinLoop rest insertions (deletions + t.length)
    | DiffOp.equal => max insertions deletions + diffLevenshteinLoop rest 0 0

/-- `diffLevenshtein`. -/
def diffLevenshtein (diffs : List Diff) : Nat :=
  diffLevenshteinLoop diffs 0 0

/-! ## Options -/

/-- The seven resolved tunables (`ResolvedOptions`).  Fractional-valued
options are rationals; `patchMargin` and `matchMaxBits` are only ever used
as unit counts and are naturals. -/
structure DMPOptions where
  diffTimeout : ℚ
  diffEditCost : ℚ
  matchThreshold : ℚ
  matchDistance : ℚ
  patchDeleteThreshold : ℚ
  patchMargin : Nat
  matchMaxBits : Nat
deriving DecidableEq, Repr

/-- `defaultOptions`. -/
def defaultOptions : DMPOptions :=
  { diffTimeout := 1
    diffEditCost := 4
    matchThreshold := 1 / 2
    matchDistance := 1000
    patchDeleteThreshold := 1 / 2
    patchMargin := 4
    matchMaxBits := 32 }

/-! ## Common prefix, suffix, overlap (`diffCommonPrefix` etc.) -/

/-- The exponentially-narrowing binary-search loop of `diffCommonPrefix`.
State: `pointermin`, `pointermid`, `pointermax`, `pointerstart`.  Out of
fuel it returns `pointermin` (the already-verified lower bound); the
wrapper supplies more fuel than the source loop, which shrinks
`pointermax - pointermin` on every iteration after the first, can use. -/
def commonPrefixLoop (t1 t2 : JStr) :
    Nat → Nat → Nat → Nat → Nat → Nat
  | 0, pointermin, _, _, _ => pointermin
  | fuel + 1, pointermin, pointermid, pointermax, pointerstart =>
    if pointermin < pointermid then
      if jsSubstring t1 (pointerstart : Int) (pointermid : Int)
          = jsSubstring t2 (pointerstart : Int) (pointermid : Int) then
        commonPrefixLoop t1 t2 fuel pointermid
          ((pointermax - pointermid) / 2 + pointermid) pointermax pointermid
      else
        commonPrefixLoop t1 t2 fuel pointermin
          ((pointermid - pointermin) / 2 + pointermin) pointermid pointerstart
    else pointermid

/-- `diffCommonPrefix`: length of the longest common prefix. -/
def diffCommonPrefixLen (t1 t2 : JStr) : Nat :=
  if t1 = [] ∨ t2 = [] ∨ jsCharAt t1 0 ≠ jsCharAt t2 0 then 0
  else
    let pmax := min t1.length t2.length
    commonPrefixLoop t1 t2 (pmax + 3) 0 pmax pmax 0

/-- The binary-search loop of `diffCommonSuffix`, with `pointerend` in
place of `pointerstart`. -/
def commonSuffixLoop (t1 t2 : JStr) :
    Nat → Nat → Nat → Nat → Nat → Nat
  | 0, pointermin, _, _, _ => pointermin
  | fuel + 1, pointermin, pointermid, pointermax, pointerend =>
    if pointermin < pointermid then
      if jsSubstring t1 ((t1.length : Int) - (pointermid : Int)) ((t1.length : Int) - (pointerend : Int))
          = jsSubstring t2 ((t2.length : Int) - (pointermid : Int)) ((t2.length : Int) - (pointerend : Int)) then
        commonSuffixLoop t1 t2 fuel pointermid
          ((pointermax - pointermid) / 2 + pointermid) pointermax pointermid
      else
        commonSuffixLoop t1 t2 fuel pointermin
          ((pointermid - pointermin) / 2 + pointermin) pointermid pointerend
    else pointermid

/-- `diffCommonSuffix`: length of the longest common suffix. -/
def diffCommonSuffixLen (t1 t2 : JStr) : Nat :=
  if t1 = [] ∨ t2 = [] ∨
      jsCharAt t1 ((t1.length : Int) - 1) ≠ jsCharAt t2 ((t2.length : Int) - 1) then 0
  else
    let pmax := min t1.length t2.length
    commonSuffixLoop t1 t2 (pmax + 3) 0 pmax pmax 0

/-- The scanning loop of `diffCommonOverlap` on the already-truncated
strings (both of length `tlen`).  State: `best`, `length`.  Out of fuel it
returns `best` (only valid overlaps are ever stored there); `length` grows
on every iteration so the wrapper's fuel suffices. -/
def commonOverlapLoop (t1 t2 : JStr) (tlen : Nat) :
    Nat → Nat → Nat → Nat
  | 0, best, _ => best
  | fuel + 1, best, length =>
    let pat := jsSubstringFrom t1 ((tlen : Int) - (length : Int))
    let found := jsIndexOf t2 pat 0
    if found = -1 then best
    else
      let length' := length + found.toNat
      if found = 0 ∨ jsSubstringFrom t1 ((tlen : Int) - (length' : Int)) = jsSubstring t2 0 (length' : Int) then
        commonOverlapLoop t1 t2 tlen fuel length' (length' + 1)
      else
        commonOverlapLoop t1 t2 tlen fuel best length'

/-- `diffCommonOverlap`: length of the longest suffix of `t1` that is a
prefix of `t2`. -/
def diffCommonOverlap (t1 t2 : JStr) : Nat :=
  let text1_length := t1.length
  let text2_length := t2.length
  if text1_length = 0 ∨ text2_length = 0 then 0
  else
    let t1' := if text1_length > text2_length then
        jsSubstringFrom t1 ((text1_length : Int) - (text2_length : Int)) else t1
    let t2' := if text1_length < text2_length then
        jsSubstring t2 0 (text1_length : Int) else t2
    let text_length := min text1_length text2_length
    if t1' = t2' then text_length
    else commonOverlapLoop t1' t2' text_length (text_length + 2) 0 1

/-! ## Half match (`diffHalfMatch`) -/

/-- The five strings a half match produces: the two outer pieces of each
text and the common middle.  In `diffHalfMatchI` the `1` side is the
longer text and the `2` side the shorter. -/
structure HalfMatchData where
  a1 : JStr
  b1 : JStr
  a2 : JStr
  b2 : JStr
  common : JStr
deriving DecidableEq, Repr

/-- The body of the seed-scanning loop of `diffHalfMatchI` once a fresh
occurrence `j'` of the seed has been found: keep the better of the stored
best and the candidate grown around `(i, j')` by the given common prefix
and suffix lengths. -/
def halfMatchIUpdate (longtext shorttext : JStr) (i : Nat) (j' : Int)
    (prefixLength suffixLength : Nat) (best : HalfMatchData) : HalfMatchData :=
  if best.common.length < suffixLength + prefixLength then
    { common := jsSubstring shorttext (j' - (suffixLength : Int)) j'
        ++ jsSubstring shorttext j' (j' + (prefixLength : Int))
      a1 := jsSubstring longtext 0 ((i : Int) - (suffixLength : Int))
      b1 := jsSubstringFrom longtext ((i : Int) + (prefixLength : Int))
      a2 := jsSubstring shorttext 0 (j' - (suffixLength : Int))
      b2 := jsSubstringFrom shorttext (j' + (prefixLength : Int)) }
  else best

/-- The seed-scanning loop of `diffHalfMatchI`.  `j` strictly increases
every iteration, so the wrapper's fuel suffices; out of fuel the current
best is returned. -/
def halfMatchILoop (longtext shorttext seed : JStr) (i : Nat) :
    Nat → Int → HalfMatchData → HalfMatchData
  | 0, _, best => best
  | fuel + 1, j, best =>
    if jsIndexOf shorttext seed (j + 1) = -1 then best
    else
      halfMatchILoop longtext shorttext seed i fuel (jsIndexOf shorttext seed (j + 1))
        (halfMatchIUpdate longtext shorttext i (jsIndexOf shorttext seed (j + 1))
          (diffCommonPrefixLen (jsSubstringFrom longtext (i : Int))
            (jsSubstringFrom shorttext (jsIndexOf shorttext seed (j + 1))))
          (diffCommonSuffixLen (jsSubstring longtext 0 (i : Int))
            (jsSubstring shorttext 0 (jsIndexOf shorttext seed (j + 1))))
          best)

/-- The final test of `diffHalfMatchI`: the grown common part must be at
least half of the longer text. -/
def halfMatchICheck (longtext : JStr) (best : HalfMatchData) : Option HalfMatchData :=
  if best.common.length * 2 ≥ longtext.length then some best else none

/-- `diffHalfMatchI`: does a substring of `shorttext` exist within
`longtext` such that the substring (grown around the quarter-length seed
at `i`) is at least half the length of `longtext`? -/
def diffHalfMatchI (longtext shorttext : JStr) (i : Nat) : Option HalfMatchData :=
  halfMatchICheck longtext
    (halfMatchILoop longtext shorttext
      (jsSubstring longtext (i : Int) ((i : Int) + ((longtext.length / 4 : Nat) : Int))) i
      (shorttext.length + 2) (-1)
      { common := [], a1 := [], b1 := [], a2 := [], b2 := [] })

/-- The four-way selection between the two seed candidates of
`diffHalfMatch` (both matched: keep the longer common part). -/
def diffHalfMatchPick : Option HalfMatchData → Option HalfMatchData → Option HalfMatchData
  | none, none => none
  | some h1, none => some h1
  | none, some h2 => some h2
  | some h1, some h2 => some (if h1.common.length > h2.common.length then h1 else h2)

/-- The final reorientation of `diffHalfMatch`: when `text2` was the
longer side, swap the `1` and `2` pieces so that the `1` side refers to
`text1` again. -/
def diffHalfMatchOrient (longerIs1 : Bool) : Option HalfMatchData → Option HalfMatchData
  | none => none
  | some hm =>
    if longerIs1 then some hm
    else some { a1 := hm.a2, b1 := hm.b2, a2 := hm.a1, b2 := hm.b1, common := hm.common }

/-- The body of `diffHalfMatch` on the already-sorted pair
(`longtext`/`shorttext`).  `Math.ceil(n / 4)` and `Math.ceil(n / 2)` are
exact in JS doubles for any string length and are modelled as
`(n + 3) / 4` and `(n + 1) / 2`. -/
def diffHalfMatchCore (longtext shorttext : JStr) (longerIs1 : Bool) : Option HalfMatchData :=
  if longtext.length < 4 ∨ shorttext.length * 2 < longtext.length then none
  else
    diffHalfMatchOrient longerIs1
      (diffHalfMatchPick (diffHalfMatchI longtext shorttext ((longtext.length + 3) / 4))
        (diffHalfMatchI longtext shorttext ((longtext.length + 1) / 2)))

/-- `diffHalfMatch`.  The result is oriented so that the `1` side always
refers to `text1`. -/
def diffHalfMatch (text1 text2 : JStr) (options : DMPOptions) : Option HalfMatchData :=
  if options.diffTimeout ≤ 0 then none
  else if text1.length > text2.length then diffHalfMatchCore text1 text2 true
  else diffHalfMatchCore text2 text1 false

/-! ## Array-mutation helpers

JavaScript arrays of diff tuples are modelled as `List Diff`; `splice`
becomes take/drop surgery and element mutation becomes `List.set`.  Reads
of out-of-range indices return the harmless dummy `(EQUAL, "")`; the
source never performs such reads on the states its loops actually visit. -/

/-- `arr.splice(i, cnt, ...ins)`. -/
def splice (l : List α) (i cnt : Nat) (ins : List α) : List α :=
  l.take i ++ ins ++ l.drop (i + cnt)

/-- `diffs[i]` with the dummy `(EQUAL, "")` out of range. -/
def jsGetD (l : List Diff) (i : Nat) : Diff :=
  l.getD i (DiffOp.equal, [])

/-- `diffs[i][1] = t`. -/
def setText (l : List Diff) (i : Nat) (t : JStr) : List Diff :=
  l.set i ((jsGetD l i).1, t)

/-- `diffs[i][0] = op`. -/
def setOp (l : List Diff) (i : Nat) (op : DiffOp) : List Diff :=
  l.set i (op, (jsGetD l i).2)

/-! ## Merge cleanup (`diffCleanupMerge`)

The state of the first pass is `(diffs, pointer, count_delete,
count_insert, text_delete, text_insert)`.  On every state the source
visits, `count_delete + count_insert ≤ pointer` holds, so the `Nat`
subtractions below agree with the source's arithmetic. -/

/-- Factoring a common prefix of coincident deletions and insertions
leftward into the preceding EQUAL entry (or a fresh EQUAL at the head).
Returns `(diffs, pointer, text_insert, text_delete)`. -/
def cleanupMergeFactorPre (diffs : List Diff) (pointer cd ci : Nat) (td ti : JStr) :
    List Diff × Nat × JStr × JStr :=
  if diffCommonPrefixLen ti td ≠ 0 then
    if pointer - cd - ci > 0 ∧ (jsGetD diffs (pointer - cd - ci - 1)).1 = DiffOp.equal then
      (setText diffs (pointer - cd - ci - 1)
          ((jsGetD diffs (pointer - cd - ci - 1)).2
            ++ jsSubstring ti 0 (diffCommonPrefixLen ti td : Int)),
        pointer,
        jsSubstringFrom ti (diffCommonPrefixLen ti td : Int),
        jsSubstringFrom td (diffCommonPrefixLen ti td : Int))
    else
      (splice diffs 0 0
          [createDiff DiffOp.equal (jsSubstring ti 0 (diffCommonPrefixLen ti td : Int))],
        pointer + 1,
        jsSubstringFrom ti (diffCommonPrefixLen ti td : Int),
        jsSubstringFrom td (diffCommonPrefixLen ti td : Int))
  else (diffs, pointer, ti, td)

/-- Factoring a common suffix of coincident deletions and insertions
rightward into the EQUAL entry at `pointer`.  Input and output are
`(diffs, pointer, text_insert, text_delete)`. -/
def cleanupMergeFactorSuf : List Diff × Nat × JStr × JStr → List Diff × Nat × JStr × JStr
  | (diffs, pointer, ti, td) =>
    if diffCommonSuffixLen ti td ≠ 0 then
      (setText diffs pointer
          (jsSubstringFrom ti ((ti.length : Int) - (diffCommonSuffixLen ti td : Int))
            ++ (jsGetD diffs pointer).2),
        pointer,
        jsSubstring ti 0 ((ti.length : Int) - (diffCommonSuffixLen ti td : Int)),
        jsSubstring td 0 ((td.length : Int) - (diffCommonSuffixLen ti td : Int)))
    else (diffs, pointer, ti, td)

/-- Replacement of the scanned DELETE/INSERT run by the merged records,
after factoring.  Input is `(diffs, pointer, text_insert, text_delete)`. -/
def cleanupMergeCommitCore : List Diff × Nat × JStr × JStr → Nat → Nat → List Diff × Nat
  | (diffs1, pointer1, ti1, td1), cd, ci =>
    (splice diffs1 (pointer1 - (cd + ci)) (cd + ci)
        ((if td1 ≠ [] then [createDiff DiffOp.delete td1] else [])
          ++ (if ti1 ≠ [] then [createDiff DiffOp.insert ti1] else [])),
      pointer1 - (cd + ci)
        + (if td1 ≠ [] then 1 else 0) + (if ti1 ≠ [] then 1 else 0) + 1)

/-- The EQUAL-case commit of the first pass when `cd + ci > 1`: factor
common prefix and suffix when both kinds are present, then replace the
scanned run by merged DELETE and INSERT records.  Returns the new list
and the new pointer (placed just past the EQUAL entry). -/
def cleanupMergeCommit (diffs : List Diff) (pointer cd ci : Nat) (td ti : JStr) :
    List Diff × Nat :=
  cleanupMergeCommitCore
    (if cd ≠ 0 ∧ ci ≠ 0 then
      cleanupMergeFactorSuf (cleanupMergeFactorPre diffs pointer cd ci td ti)
    else (diffs, pointer, ti, td)) cd ci

/-- First pass of `diffCleanupMerge`: scan once, merging adjacent
same-operation entries and factoring common affixes of coincident
DELETE+INSERT runs.  One unit of fuel per iteration; the measure
`diffs.length - pointer` shrinks every iteration, so the wrapper's fuel
suffices.  Out of fuel the current list is returned. -/
def cleanupMergeLoop1 : Nat → List Diff → Nat → Nat → Nat → JStr → JStr → List Diff
  | 0, diffs, _, _, _, _, _ => diffs
  | fuel + 1, diffs, pointer, cd, ci, td, ti =>
    if pointer < diffs.length then
      if (jsGetD diffs pointer).1 = DiffOp.insert then
        cleanupMergeLoop1 fuel diffs (pointer + 1) cd (ci + 1) td (ti ++ (jsGetD diffs pointer).2)
      else if (jsGetD diffs pointer).1 = DiffOp.delete then
        cleanupMergeLoop1 fuel diffs (pointer + 1) (cd + 1) ci (td ++ (jsGetD diffs pointer).2) ti
      else
        if cd + ci > 1 then
          cleanupMergeLoop1 fuel (cleanupMergeCommit diffs pointer cd ci td ti).1
            (cleanupMergeCommit diffs pointer cd ci td ti).2 0 0 [] []
        else if pointer ≠ 0 ∧ (jsGetD diffs (pointer - 1)).1 = DiffOp.equal then
          cleanupMergeLoop1 fuel
            (splice (setText diffs (pointer - 1)
                ((jsGetD diffs (pointer - 1)).2 ++ (jsGetD diffs pointer).2))
              pointer 1 [])
            pointer 0 0 [] []
        else
          cleanupMergeLoop1 fuel diffs (pointer + 1) 0 0 [] []
    else diffs

/-- Second pass of `diffCleanupMerge`: slide single edits surrounded by
equalities over a neighbouring equality when possible.  Returns the list
and the `changes` flag.  Fuel as in the first pass. -/
def cleanupMergeLoop2 : Nat → List Diff → Nat → Bool → List Diff × Bool
  | 0, diffs, _, changes => (diffs, changes)
  | fuel + 1, diffs, pointer, changes =>
    if pointer + 1 < diffs.length then
      if (jsGetD diffs (pointer - 1)).1 = DiffOp.equal
          ∧ (jsGetD diffs (pointer + 1)).1 = DiffOp.equal then
        if jsSubstringFrom (jsGetD diffs pointer).2
            (((jsGetD diffs pointer).2.length : Int) - ((jsGetD diffs (pointer - 1)).2.length : Int))
            = (jsGetD diffs (pointer - 1)).2 then
          cleanupMergeLoop2 fuel
            (splice
              (setText
                (setText diffs pointer
                  ((jsGetD diffs (pointer - 1)).2
                    ++ jsSubstring (jsGetD diffs pointer).2 0
                      (((jsGetD diffs pointer).2.length : Int)
                        - ((jsGetD diffs (pointer - 1)).2.length : Int))))
                (pointer + 1)
                ((jsGetD diffs (pointer - 1)).2 ++ (jsGetD diffs (pointer + 1)).2))
              (pointer - 1) 1 [])
            pointer true
        else if jsSubstring (jsGetD diffs pointer).2 0 (((jsGetD diffs (pointer + 1)).2.length : Int))
            = (jsGetD diffs (pointer + 1)).2 then
          cleanupMergeLoop2 fuel
            (splice
              (setText
                (setText diffs (pointer - 1)
                  ((jsGetD diffs (pointer - 1)).2 ++ (jsGetD diffs (pointer + 1)).2))
                pointer
                (jsSubstringFrom (jsGetD diffs pointer).2
                    (((jsGetD diffs (pointer + 1)).2.length : Int))
                  ++ (jsGetD diffs (pointer + 1)).2))
              (pointer + 1) 1 [])
            pointer true
        else cleanupMergeLoop2 fuel diffs (pointer + 1) changes
      else cleanupMergeLoop2 fuel diffs (pointer + 1) changes
    else (diffs, changes)

/-- Drop the trailing dummy entry when it is still empty
(`if (diffs[diffs.length - 1][1] === '') diffs.pop()`). -/
def cleanupMergePop (diffs : List Diff) : List Diff :=
  if (jsGetD diffs (diffs.length - 1)).2 = [] then diffs.take (diffs.length - 1) else diffs

/-- One full run of the body of `diffCleanupMerge`: append the dummy
EQUAL entry, run the first pass, pop the dummy if still empty, and run
the second pass, yielding the list and the `changes` flag. -/
def cleanupMergePass (diffs : List Diff) : List Diff × Bool :=
  cleanupMergeLoop2
    ((cleanupMergePop
      (cleanupMergeLoop1 (diffs.length + 2)
        (diffs ++ [createDiff DiffOp.equal []]) 0 0 0 [] [])).length + 2)
    (cleanupMergePop
      (cleanupMergeLoop1 (diffs.length + 2)
        (diffs ++ [createDiff DiffOp.equal []]) 0 0 0 [] []))
    1 false

/-- `diffCleanupMerge`.  The outer fuel bounds the number of re-runs of
the whole procedure (the source re-runs until the second pass makes no
change, which always terminates); out of fuel the current list is
returned. -/
def diffCleanupMerge : Nat → List Diff → List Diff
  | 0, diffs => diffs
  | fuel + 1, diffs =>
    if (cleanupMergePass diffs).2 then diffCleanupMerge fuel (cleanupMergePass diffs).1
    else (cleanupMergePass diffs).1

/-! ## Semantic-lossless cleanup (`diffCleanupSemanticLossless`)

The score function mirrors the source's regex tests on the single
boundary characters.  JavaScript `\s` is the Unicode white-space class
used by the regexps below. -/

/-- `[a-zA-Z0-9]` (complement of `nonAlphaNumericRegex_`). -/
def isAlphaNum (c : Nat) : Bool :=
  (48 ≤ c && c ≤ 57) || (65 ≤ c && c ≤ 90) || (97 ≤ c && c ≤ 122)

/-- JavaScript `\s` on UTF-16 code units (`whitespaceRegex_`). -/
def isJsWhitespace (c : Nat) : Bool :=
  (9 ≤ c && c ≤ 13) || c == 32 || c == 160 || c == 5760 ||
  (8192 ≤ c && c ≤ 8202) || c == 8232 || c == 8233 || c == 8239 ||
  c == 8287 || c == 12288 || c == 65279

/-- `[\r\n]` (`linebreakRegex_`). -/
def isLinebreak (c : Nat) : Bool := c == 10 || c == 13

/-- `/\n\r?\n$/` (`blanklineEndRegex_`). -/
def blanklineEnd (s : JStr) : Bool :=
  [10, 10].isSuffixOf s || [10, 13, 10].isSuffixOf s

/-- `/^\r?\n\r?\n/` (`blanklineStartRegex_`). -/
def blanklineStart (s : JStr) : Bool :=
  [10, 10].isPrefixOf s || [10, 13, 10].isPrefixOf s ||
  [13, 10, 10].isPrefixOf s || [13, 10, 13, 10].isPrefixOf s

/-- `diffCleanupSemanticScore`.  `one.charAt(one.length - 1)` and
`two.charAt(0)` are the boundary units (the strings are non-empty past
the first test). -/
def diffCleanupSemanticScore (one two : JStr) : Nat :=
  if one = [] ∨ two = [] then 6
  else if (!isAlphaNum (one.getLastD 0) && isJsWhitespace (one.getLastD 0)
        && isLinebreak (one.getLastD 0) && blanklineEnd one)
      || (!isAlphaNum (two.headD 0) && isJsWhitespace (two.headD 0)
        && isLinebreak (two.headD 0) && blanklineStart two) then 5
  else if (!isAlphaNum (one.getLastD 0) && isJsWhitespace (one.getLastD 0)
        && isLinebreak (one.getLastD 0))
      || (!isAlphaNum (two.headD 0) && isJsWhitespace (two.headD 0)
        && isLinebreak (two.headD 0)) then 4
  else if !isAlphaNum (one.getLastD 0)
      && !(!isAlphaNum (one.getLastD 0) && isJsWhitespace (one.getLastD 0))
      && (!isAlphaNum (two.headD 0) && isJsWhitespace (two.headD 0)) then 3
  else if (!isAlphaNum (one.getLastD 0) && isJsWhitespace (one.getLastD 0))
      || (!isAlphaNum (two.headD 0) && isJsWhitespace (two.headD 0)) then 2
  else if !isAlphaNum (one.getLastD 0) || !isAlphaNum (two.headD 0) then 1
  else 0

/-- The combined score of a candidate `(equality1, edit, equality2)`
split. -/
def losslessScore (eq1 edit eq2 : JStr) : Nat :=
  diffCleanupSemanticScore eq1 edit + diffCleanupSemanticScore edit eq2

/-- The character-stepping loop of `diffCleanupSemanticLossless`
(`while (edit.charAt(0) === equality2.charAt(0))`), carrying the
current triple and the best triple seen.  The caller passes fuel
`|equality2| + 1`, an upper bound on the iterations: every step with a
non-empty `equality2` shortens it, and otherwise the guard fails —
except when `edit` and `equality2` are both empty, where the source
loops forever re-reading `'' === ''`; there the model stops at the
current best. -/
def losslessSlide : Nat → JStr → JStr → JStr → JStr → JStr → JStr → Nat →
    JStr × JStr × JStr
  | 0, _, _, _, b1, bE, b2, _ => (b1, bE, b2)
  | fuel + 1, eq1, edit, eq2, b1, bE, b2, bestScore =>
    if jsCharAt edit 0 = jsCharAt eq2 0 then
      if bestScore ≤ losslessScore (eq1 ++ jsCharAt edit 0)
          (jsSubstringFrom edit 1 ++ jsCharAt eq2 0) (jsSubstringFrom eq2 1) then
        losslessSlide fuel (eq1 ++ jsCharAt edit 0)
          (jsSubstringFrom edit 1 ++ jsCharAt eq2 0) (jsSubstringFrom eq2 1)
          (eq1 ++ jsCharAt edit 0) (jsSubstringFrom edit 1 ++ jsCharAt eq2 0)
          (jsSubstringFrom eq2 1)
          (losslessScore (eq1 ++ jsCharAt edit 0)
            (jsSubstringFrom edit 1 ++ jsCharAt eq2 0) (jsSubstringFrom eq2 1))
      else
        losslessSlide fuel (eq1 ++ jsCharAt edit 0)
          (jsSubstringFrom edit 1 ++ jsCharAt eq2 0) (jsSubstringFrom eq2 1)
          b1 bE b2 bestScore
    else (b1, bE, b2)

/-- The initial left shift over the common suffix of `equality1` and
`edit` (`if (commonOffset) { ... }`). -/
def losslessShift (e1 ed e2 : JStr) : JStr × JStr × JStr :=
  if diffCommonSuffixLen e1 ed ≠ 0 then
    (jsSubstring e1 0 ((e1.length : Int) - (diffCommonSuffixLen e1 ed : Int)),
     jsSubstringFrom ed ((ed.length : Int) - (diffCommonSuffixLen e1 ed : Int))
       ++ jsSubstring ed 0 ((ed.length : Int) - (diffCommonSuffixLen e1 ed : Int)),
     jsSubstringFrom ed ((ed.length : Int) - (diffCommonSuffixLen e1 ed : Int)) ++ e2)
  else (e1, ed, e2)

/-- The slide applied to a shifted triple, starting from itself as the
best state. -/
def losslessBest (t : JStr × JStr × JStr) : JStr × JStr × JStr :=
  losslessSlide (t.2.2.length + 1) t.1 t.2.1 t.2.2 t.1 t.2.1 t.2.2
    (losslessScore t.1 t.2.1 t.2.2)

/-- Writing the best triple back into the list
(`if (diffs[pointer - 1][1] !== bestEquality1) { ... }`), dropping an
equality that became empty.  Returns the list and the updated pointer
(the source's `pointer--` is `Nat` subtraction here; the loop keeps the
pointer at least 1, both decrements can never fire at once on states
the source reaches). -/
def losslessWriteback (diffs : List Diff) (pointer : Nat) (b1 bE b2 : JStr) :
    List Diff × Nat :=
  if (jsGetD diffs (pointer - 1)).2 ≠ b1 then
    if b1 ≠ [] then
      if b2 ≠ [] then
        (setText (setText (setText diffs (pointer - 1) b1) pointer bE) (pointer + 1) b2,
          pointer)
      else
        (splice (setText (setText diffs (pointer - 1) b1) pointer bE) (pointer + 1) 1 [],
          pointer - 1)
    else
      if b2 ≠ [] then
        (setText (setText (splice diffs (pointer - 1) 1 []) (pointer - 1) bE) pointer b2,
          pointer - 1)
      else
        (splice (setText (splice diffs (pointer - 1) 1 []) (pointer - 1) bE) pointer 1 [],
          pointer - 2)
  else (diffs, pointer)

/-- One guarded iteration body of the lossless loop: shift, slide, and
write back.  Returns the list and the pointer before the trailing
`pointer++`. -/
def losslessIter (diffs : List Diff) (pointer : Nat) : List Diff × Nat :=
  losslessWriteback diffs pointer
    (losslessBest (losslessShift (jsGetD diffs (pointer - 1)).2
      (jsGetD diffs pointer).2 (jsGetD diffs (pointer + 1)).2)).1
    (losslessBest (losslessShift (jsGetD diffs (pointer - 1)).2
      (jsGetD diffs pointer).2 (jsGetD diffs (pointer + 1)).2)).2.1
    (losslessBest (losslessShift (jsGetD diffs (pointer - 1)).2
      (jsGetD diffs pointer).2 (jsGetD diffs (pointer + 1)).2)).2.2

/-- The scan of `diffCleanupSemanticLossless`
(`while (pointer < diffs.length - 1)`). -/
def cleanupLosslessLoop : Nat → List Diff → Nat → List Diff
  | 0, diffs, _ => diffs
  | fuel + 1, diffs, pointer =>
    if pointer < diffs.length - 1 then
      if (jsGetD diffs (pointer - 1)).1 = DiffOp.equal
          ∧ (jsGetD diffs (pointer + 1)).1 = DiffOp.equal then
        cleanupLosslessLoop fuel (losslessIter diffs pointer).1
          ((losslessIter diffs pointer).2 + 1)
      else cleanupLosslessLoop fuel diffs (pointer + 1)
    else diffs

/-- `diffCleanupSemanticLossless`.  Fuel bounds the scan iterations;
out of fuel the current list is returned. -/
def diffCleanupSemanticLossless (fuel : Nat) (diffs : List Diff) : List Diff :=
  cleanupLosslessLoop fuel diffs 1

/-! ## Semantic cleanup (`diffCleanupSemantic`)

The equalities stack is a `List Nat` whose head is the most recently
recorded index, together with the source's `equalitiesLength` counter
kept as an `Int`: the counter can drop below zero (two decrements from
1), after which the array writes and reads stay coherent relative to
the shifted base, so stack reads use the list while the
`equalitiesLength > 0` test uses the counter, exactly as the source
evaluates them.  `lastEquality` is an `Option`; the source's truthiness
test `lastEquality && ...` is false for both `null` and the empty
string, hence the `getD [] ≠ []` test. -/

/-- The "duplicate record" rewrite shared by `diffCleanupSemantic` and
`diffCleanupEfficiency`: insert a DELETE copy of the equality's text
before it and retag the original entry as an INSERT. -/
def semanticDup (diffs : List Diff) (idx : Nat) (s : JStr) : List Diff :=
  setOp (splice diffs idx 0 [createDiff DiffOp.delete s]) (idx + 1) DiffOp.insert

/-- The scan loop of `diffCleanupSemantic`.  State: list, pointer (an
`Int`: the rewind can set it to `-1` before the trailing increment),
equalities stack and counter, `lastEquality`, the four length
counters, and the `changes` flag. -/
def cleanupSemanticLoop : Nat → List Diff → Int → List Nat → Int → Option JStr →
    Nat → Nat → Nat → Nat → Bool → List Diff × Bool
  | 0, diffs, _, _, _, _, _, _, _, _, changes => (diffs, changes)
  | fuel + 1, diffs, pointer, equalities, eqLen, lastEquality, li1, ld1, li2, ld2, changes =>
    if pointer < (diffs.length : Int) then
      if (jsGetD diffs pointer.toNat).1 = DiffOp.equal then
        cleanupSemanticLoop fuel diffs (pointer + 1) (pointer.toNat :: equalities) (eqLen + 1)
          (some (jsGetD diffs pointer.toNat).2) li2 ld2 0 0 changes
      else
        if lastEquality.getD [] ≠ []
            ∧ (lastEquality.getD []).length ≤ max li1 ld1
            ∧ (lastEquality.getD []).length ≤
              max (if (jsGetD diffs pointer.toNat).1 = DiffOp.insert then
                  li2 + (jsGetD diffs pointer.toNat).2.length else li2)
                (if (jsGetD diffs pointer.toNat).1 = DiffOp.insert then ld2
                  else ld2 + (jsGetD diffs pointer.toNat).2.length) then
          cleanupSemanticLoop fuel
            (semanticDup diffs (equalities.headD 0) (lastEquality.getD []))
            ((if eqLen - 2 > 0 then ((equalities.tail.tail.headD 0 : Nat) : Int) else -1) + 1)
            equalities.tail.tail (eqLen - 2) none 0 0 0 0 true
        else
          cleanupSemanticLoop fuel diffs (pointer + 1) equalities eqLen lastEquality li1 ld1
            (if (jsGetD diffs pointer.toNat).1 = DiffOp.insert then
              li2 + (jsGetD diffs pointer.toNat).2.length else li2)
            (if (jsGetD diffs pointer.toNat).1 = DiffOp.insert then ld2
              else ld2 + (jsGetD diffs pointer.toNat).2.length)
            changes
    else (diffs, changes)

/-- The first phase of `diffCleanupSemantic`: the scan from pointer 0
with an empty stack. -/
def cleanupSemanticScan (fuel : Nat) (diffs : List Diff) : List Diff × Bool :=
  cleanupSemanticLoop fuel diffs 0 [] 0 none 0 0 0 0 false

/-- The scan followed by the conditional `diffCleanupMerge`. -/
def cleanupSemanticMerged (fuel : Nat) (diffs : List Diff) : List Diff :=
  if (cleanupSemanticScan fuel diffs).2 then
    diffCleanupMerge fuel (cleanupSemanticScan fuel diffs).1
  else (cleanupSemanticScan fuel diffs).1

/-- The forward overlap extraction
(`<del>abcxxx</del><ins>xxxdef</ins> → <del>abc</del>xxx<ins>def</ins>`).
All reads refer to the list before the splice, as the source captures
`deletion` and `insertion` in consts first. -/
def overlapExtractFwd (diffs : List Diff) (pointer : Nat) : List Diff :=
  setText (setText
      (splice diffs pointer 0
        [createDiff DiffOp.equal
          (jsSubstring (jsGetD diffs pointer).2 0
            (diffCommonOverlap (jsGetD diffs (pointer - 1)).2 (jsGetD diffs pointer).2 : Int))])
      (pointer - 1)
      (jsSubstring (jsGetD diffs (pointer - 1)).2 0
        (((jsGetD diffs (pointer - 1)).2.length : Int)
          - (diffCommonOverlap (jsGetD diffs (pointer - 1)).2 (jsGetD diffs pointer).2 : Int))))
    (pointer + 1)
    (jsSubstringFrom (jsGetD diffs pointer).2
      (diffCommonOverlap (jsGetD diffs (pointer - 1)).2 (jsGetD diffs pointer).2 : Int))

/-- The reverse overlap extraction
(`<del>xxxabc</del><ins>defxxx</ins> → <ins>def</ins>xxx<del>abc</del>`). -/
def overlapExtractRev (diffs : List Diff) (pointer : Nat) : List Diff :=
  setText (setOp (setText (setOp
      (splice diffs pointer 0
        [createDiff DiffOp.equal
          (jsSubstring (jsGetD diffs (pointer - 1)).2 0
            (diffCommonOverlap (jsGetD diffs pointer).2 (jsGetD diffs (pointer - 1)).2 : Int))])
      (pointer - 1) DiffOp.insert)
      (pointer - 1)
      (jsSubstring (jsGetD diffs pointer).2 0
        (((jsGetD diffs pointer).2.length : Int)
          - (diffCommonOverlap (jsGetD diffs pointer).2 (jsGetD diffs (pointer - 1)).2 : Int))))
    (pointer + 1) DiffOp.delete)
    (pointer + 1)
    (jsSubstringFrom (jsGetD diffs (pointer - 1)).2
      (diffCommonOverlap (jsGetD diffs pointer).2 (jsGetD diffs (pointer - 1)).2 : Int))

/-- The overlap-extraction loop at the end of `diffCleanupSemantic`.
The pointer advances by 1, 2 (adjacent DELETE+INSERT without
extraction) or 3 (after an extraction). -/
def cleanupSemanticOverlapLoop : Nat → List Diff → Nat → List Diff
  | 0, diffs, _ => diffs
  | fuel + 1, diffs, pointer =>
    if pointer < diffs.length then
      if (jsGetD diffs (pointer - 1)).1 = DiffOp.delete
          ∧ (jsGetD diffs pointer).1 = DiffOp.insert then
        if diffCommonOverlap (jsGetD diffs pointer).2 (jsGetD diffs (pointer - 1)).2
            ≤ diffCommonOverlap (jsGetD diffs (pointer - 1)).2 (jsGetD diffs pointer).2 then
          if ((jsGetD diffs (pointer - 1)).2.length : ℚ) / 2
              ≤ (diffCommonOverlap (jsGetD diffs (pointer - 1)).2 (jsGetD diffs pointer).2 : ℚ)
            ∨ ((jsGetD diffs pointer).2.length : ℚ) / 2
              ≤ (diffCommonOverlap (jsGetD diffs (pointer - 1)).2
                  (jsGetD diffs pointer).2 : ℚ) then
            cleanupSemanticOverlapLoop fuel (overlapExtractFwd diffs pointer) (pointer + 3)
          else cleanupSemanticOverlapLoop fuel diffs (pointer + 2)
        else
          if ((jsGetD diffs (pointer - 1)).2.length : ℚ) / 2
              ≤ (diffCommonOverlap (jsGetD diffs pointer).2 (jsGetD diffs (pointer - 1)).2 : ℚ)
            ∨ ((jsGetD diffs pointer).2.length : ℚ) / 2
              ≤ (diffCommonOverlap (jsGetD diffs pointer).2
                  (jsGetD diffs (pointer - 1)).2 : ℚ) then
            cleanupSemanticOverlapLoop fuel (overlapExtractRev diffs pointer) (pointer + 3)
          else cleanupSemanticOverlapLoop fuel diffs (pointer + 2)
      else cleanupSemanticOverlapLoop fuel diffs (pointer + 1)
    else diffs

/-- `diffCleanupSemantic`: the scan, the conditional merge, the
lossless pass, and the overlap loop. -/
def diffCleanupSemantic (fuel : Nat) (diffs : List Diff) : List Diff :=
  cleanupSemanticOverlapLoop fuel
    (diffCleanupSemanticLossless fuel (cleanupSemanticMerged fuel diffs)) 1

/-! ## Efficiency cleanup (`diffCleanupEfficiency`) -/

/-- `booleanCount` over the four flags. -/
def booleanCount (a b c d : Bool) : Nat :=
  (if a then 1 else 0) + (if b then 1 else 0) + (if c then 1 else 0) + (if d then 1 else 0)

/-- The scan loop of `diffCleanupEfficiency`.  Stack, counter and
`lastEquality` as in `cleanupSemanticLoop`; `preIns/preDel/postIns/postDel`
are the source's four flags. -/
def cleanupEfficiencyLoop (editCost : ℚ) : Nat → List Diff → Int → List Nat → Int →
    Option JStr → Bool → Bool → Bool → Bool → Bool → List Diff × Bool
  | 0, diffs, _, _, _, _, _, _, _, _, changes => (diffs, changes)
  | fuel + 1, diffs, pointer, equalities, eqLen, lastEquality,
      preIns, preDel, postIns, postDel, changes =>
    if pointer < (diffs.length : Int) then
      if (jsGetD diffs pointer.toNat).1 = DiffOp.equal then
        if ((jsGetD diffs pointer.toNat).2.length : ℚ) < editCost ∧ (postIns ∨ postDel) then
          cleanupEfficiencyLoop editCost fuel diffs (pointer + 1)
            (pointer.toNat :: equalities) (eqLen + 1)
            (some (jsGetD diffs pointer.toNat).2) postIns postDel false false changes
        else
          cleanupEfficiencyLoop editCost fuel diffs (pointer + 1) equalities 0 none
            preIns preDel false false changes
      else
        if lastEquality.getD [] ≠ []
            ∧ ((preIns ∧ preDel
                ∧ (if (jsGetD diffs pointer.toNat).1 = DiffOp.delete then postIns else true)
                ∧ (if (jsGetD diffs pointer.toNat).1 = DiffOp.delete then true else postDel))
              ∨ (((lastEquality.getD []).length : ℚ) < editCost / 2
                ∧ booleanCount preIns preDel
                  (if (jsGetD diffs pointer.toNat).1 = DiffOp.delete then postIns else true)
                  (if (jsGetD diffs pointer.toNat).1 = DiffOp.delete then true else postDel)
                  = 3)) then
          if preIns ∧ preDel then
            cleanupEfficiencyLoop editCost fuel
              (semanticDup diffs (equalities.headD 0) (lastEquality.getD []))
              (pointer + 1) equalities.tail 0 none preIns preDel true true true
          else
            cleanupEfficiencyLoop editCost fuel
              (semanticDup diffs (equalities.headD 0) (lastEquality.getD []))
              ((if eqLen - 2 > 0 then ((equalities.tail.tail.headD 0 : Nat) : Int) else -1) + 1)
              equalities.tail.tail (eqLen - 2) none preIns preDel false false true
        else
          cleanupEfficiencyLoop editCost fuel diffs (pointer + 1) equalities eqLen lastEquality
            preIns preDel
            (if (jsGetD diffs pointer.toNat).1 = DiffOp.delete then postIns else true)
            (if (jsGetD diffs pointer.toNat).1 = DiffOp.delete then true else postDel)
            changes
    else (diffs, changes)

/-- The efficiency scan from the initial state. -/
def cleanupEfficiencyScan (editCost : ℚ) (fuel : Nat) (diffs : List Diff) :
    List Diff × Bool :=
  cleanupEfficiencyLoop editCost fuel diffs 0 [] 0 none false false false false false

/-- `diffCleanupEfficiency`: the scan followed by the conditional
merge. -/
def diffCleanupEfficiency (options : DMPOptions) (fuel : Nat) (diffs : List Diff) :
    List Diff :=
  if (cleanupEfficiencyScan options.diffEditCost fuel diffs).2 then
    diffCleanupMerge fuel (cleanupEfficiencyScan options.diffEditCost fuel diffs).1
  else (cleanupEfficiencyScan options.diffEditCost fuel diffs).1

/-! ## The match engine (`matchMain`, `matchBitap`, `matchAlphabet`)

JavaScript bitwise operators work on 32-bit patterns: every left shift
is reduced `% 2^32` and shift counts are taken `% 32`; `|`, `&` on the
resulting `Nat`s agree with the signed JavaScript results bit for bit,
and the only sign-independent uses are non-zero tests.  Reads of
uninitialised array slots (`undefined` coerced by `|`/`&` to 0) return
the default 0, and a missing alphabet entry is 0. -/

/-- `matchAlphabet`'s hash: assoc-list update. -/
def assocSet : List (Nat × Nat) → Nat → Nat → List (Nat × Nat)
  | [], c, v => [(c, v)]
  | (k, x) :: rest, c, v =>
    if k = c then (c, v) :: rest else (k, x) :: assocSet rest c v

/-- Assoc-list lookup with the `undefined`-as-0 default. -/
def assocGetD : List (Nat × Nat) → Nat → Nat
  | [], _ => 0
  | (k, x) :: rest, c => if k = c then x else assocGetD rest c

/-- The second loop of `matchAlphabet`
(`s[pattern.charAt(i)] |= 1 << (pattern.length - i - 1)`). -/
def matchAlphabetLoop (plen : Nat) : List (Nat × Nat) → JStr → Nat → List (Nat × Nat)
  | s, [], _ => s
  | s, c :: rest, i =>
    matchAlphabetLoop plen
      (assocSet s c (assocGetD s c ||| ((1 <<< ((plen - i - 1) % 32)) % 4294967296)))
      rest (i + 1)

/-- `matchAlphabet`: zero every pattern character, then OR in the bit
masks. -/
def matchAlphabet (pattern : JStr) : List (Nat × Nat) :=
  matchAlphabetLoop pattern.length (pattern.foldl (fun s c => assocSet s c 0) []) pattern 0

/-- `matchBitapScore`.  `0/0` for an empty pattern is `NaN` in the
source; that state is unreachable from `matchMain`, which resolves an
empty pattern before calling Bitap, and the model returns `0` there. -/
def matchBitapScore (pattern : JStr) (loc : Int) (options : DMPOptions)
    (e : Nat) (x : Int) : ℚ :=
  if options.matchDistance = 0 then
    if (loc - x).natAbs ≠ 0 then 1 else (e : ℚ) / (pattern.length : ℚ)
  else
    (e : ℚ) / (pattern.length : ℚ) + ((loc - x).natAbs : ℚ) / options.matchDistance

/-- The binary search of each Bitap error level
(`while (bin_min < bin_mid)`); returns the final `(bin_mid, bin_max)`.
Each iteration halves `bin_max - bin_min`, so the wrapper's fuel
suffices; out of fuel the current pair is returned. -/
def bitapBinLoop (pattern : JStr) (loc : Int) (options : DMPOptions) (d : Nat) (thr : ℚ) :
    Nat → Nat → Nat → Nat → Nat × Nat
  | 0, _, bmid, bmax => (bmid, bmax)
  | fuel + 1, bmin, bmid, bmax =>
    if bmin < bmid then
      if matchBitapScore pattern loc options d (loc + (bmid : Int)) ≤ thr then
        bitapBinLoop pattern loc options d thr fuel bmid ((bmax - bmid) / 2 + bmid) bmax
      else
        bitapBinLoop pattern loc options d thr fuel bmin ((bmid - bmin) / 2 + bmin) bmid
    else (bmid, bmax)

/-- The inner scan (`for (let j = finish; j >= start; j--)`) of one
error level.  State: the `rd` row under construction, `best_loc`, the
threshold and the mutable `start`; returns them (a `break` stops the
scan, the row built so far still becomes `last_rd`). -/
def bitapInner (s : List (Nat × Nat)) (text pattern : JStr) (loc : Int)
    (options : DMPOptions) (d : Nat) (matchmask : Nat) (lastRd : Nat → Nat) :
    Nat → (Nat → Nat) → Int → ℚ → Nat → Nat → ((Nat → Nat) × Int × ℚ)
  | 0, rd, best, thr, _, _ => (rd, best, thr)
  | fuel + 1, rd, best, thr, start, j =>
    if start ≤ j then
      let charMatch : Nat :=
        if j - 1 < text.length then assocGetD s (text.getD (j - 1) 0) else 0
      let rdj : Nat :=
        if d = 0 then
          (((rd (j + 1) <<< 1) % 4294967296) ||| 1) &&& charMatch
        else
          ((((rd (j + 1) <<< 1) % 4294967296) ||| 1) &&& charMatch)
            ||| ((((lastRd (j + 1) ||| lastRd j) <<< 1) % 4294967296) ||| 1)
            ||| lastRd (j + 1)
      let rd2 : Nat → Nat := fun k => if k = j then rdj else rd k
      if rdj &&& matchmask ≠ 0 then
        let score := matchBitapScore pattern loc options d ((j : Int) - 1)
        if score ≤ thr then
          if (j : Int) - 1 > loc then
            bitapInner s text pattern loc options d matchmask lastRd fuel rd2
              ((j : Int) - 1) score (max 1 (2 * loc - ((j : Int) - 1))).toNat (j - 1)
          else (rd2, (j : Int) - 1, score)
        else
          bitapInner s text pattern loc options d matchmask lastRd fuel rd2 best thr
            start (j - 1)
      else
        bitapInner s text pattern loc options d matchmask lastRd fuel rd2 best thr
          start (j - 1)
    else (rd, best, thr)

/-- The error-level loop of `matchBitap`
(`for (let d = 0; d < pattern.length; d++)`). -/
def bitapDLoop (s : List (Nat × Nat)) (text pattern : JStr) (loc : Int)
    (options : DMPOptions) (matchmask : Nat) :
    Nat → Nat → Nat → (Nat → Nat) → Int → ℚ → Int
  | 0, _, _, _, best, _ => best
  | fuel + 1, d, bmax, lastRd, best, thr =>
    if d < pattern.length then
      match bitapBinLoop pattern loc options d thr (bmax + 2) 0 bmax bmax with
      | (bmid, _) =>
        let start : Nat := (max 1 (loc - (bmid : Int) + 1)).toNat
        let finish : Nat := (min (loc + (bmid : Int)) (text.length : Int)).toNat
          + pattern.length
        let rd0 : Nat → Nat := fun k =>
          if k = finish + 1 then ((1 <<< (d % 32)) % 4294967296) - 1 else 0
        match bitapInner s text pattern loc options d matchmask lastRd (finish + 2)
            rd0 best thr start finish with
        | (rd, best2, thr2) =>
          if matchBitapScore pattern loc options (d + 1) loc > thr2 then best2
          else bitapDLoop s text pattern loc options matchmask fuel (d + 1) bmid rd
            best2 thr2
    else best

/-- `matchBitap`. -/
def matchBitap (text pattern : JStr) (loc : Int) (options : DMPOptions) :
    Except String Int :=
  if pattern.length > options.matchMaxBits then
    Except.error "Pattern too long for this browser."
  else
    let s := matchAlphabet pattern
    let thr0 : ℚ := options.matchThreshold
    let best0 : Int := jsIndexOf text pattern loc
    let thr1 : ℚ :=
      if best0 ≠ -1 then
        min (matchBitapScore pattern loc options 0 best0) thr0
      else thr0
    let best1 : Int :=
      if best0 ≠ -1 then jsLastIndexOf text pattern (loc + (pattern.length : Int))
      else best0
    let thr2 : ℚ :=
      if best0 ≠ -1 ∧ best1 ≠ -1 then
        min (matchBitapScore pattern loc options 0 best1) thr1
      else thr1
    let matchmask : Nat :=
      (1 <<< (if pattern.length = 0 then 31 else (pattern.length - 1) % 32)) % 4294967296
    Except.ok (bitapDLoop s text pattern loc options matchmask pattern.length 0
      (pattern.length + text.length) (fun _ => 0) (-1) thr2)

/-- The clamp `loc = Math.max(0, Math.min(loc, text.length))` at the
head of `matchMain`. -/
def matchLoc (text : JStr) (loc : Int) : Int := max 0 (min loc (text.length : Int))

/-- `matchMain`.  The null-input throw is outside the model (there are
no null strings); the "pattern too long" throw of `matchBitap` is the
`Except.error` case. -/
def matchMain (text pattern : JStr) (loc : Int) (options : DMPOptions) :
    Except String Int :=
  if text = pattern then Except.ok 0
  else if text.length = 0 then Except.ok (-1)
  else if jsSubstring text (matchLoc text loc) (matchLoc text loc + (pattern.length : Int))
      = pattern then Except.ok (matchLoc text loc)
  else matchBitap text pattern (matchLoc text loc) options

/-! ## Deltas (`diffToDelta`, `diffFromDelta`)

`encodeURI`/`decodeURI` follow the ECMAScript Encode/Decode algorithms:
UTF-16 units are paired into code points (a lone surrogate makes
`encodeURI` throw `URIError`), code points outside the unescaped set
are written as uppercase `%XX` UTF-8 escapes, and `decodeURI` decodes
strict UTF-8 escape sequences, keeping escapes of reserved characters
verbatim and throwing on malformed sequences.  Thrown messages carry
interpolated values in the source; the model keeps constant messages
(the claims only concern which inputs throw). -/

/-- UTF-16 units to code points; `none` on a lone surrogate. -/
def utf16ToCodePoints : JStr → Option (List Nat)
  | [] => some []
  | c :: rest =>
    if 55296 ≤ c ∧ c ≤ 56319 then
      match rest with
      | [] => none
      | c2 :: rest2 =>
        if 56320 ≤ c2 ∧ c2 ≤ 57343 then
          (utf16ToCodePoints rest2).map
            (fun l => (65536 + (c - 55296) * 1024 + (c2 - 56320)) :: l)
        else none
    else if 56320 ≤ c ∧ c ≤ 57343 then none
    else (utf16ToCodePoints rest).map (fun l => c :: l)

/-- A code point back to UTF-16 units (surrogate pair above `0xFFFF`). -/
def cpToUtf16 (cp : Nat) : JStr :=
  if cp < 65536 then [cp]
  else [55296 + (cp - 65536) / 1024, 56320 + (cp - 65536) % 1024]

/-- Code points to UTF-16 units. -/
def cpsToUtf16 : List Nat → JStr
  | [] => []
  | cp :: rest => cpToUtf16 cp ++ cpsToUtf16 rest

/-- The characters `encodeURI` leaves unescaped:
`A-Za-z0-9` and `; , / ? : @ & = + $ - _ . ! ~ * ' ( ) #`. -/
def encodeURIUnescaped (c : Nat) : Bool :=
  isAlphaNum c || c == 59 || c == 44 || c == 47 || c == 63 || c == 58 || c == 64 ||
  c == 38 || c == 61 || c == 43 || c == 36 || c == 45 || c == 95 || c == 46 ||
  c == 33 || c == 126 || c == 42 || c == 39 || c == 40 || c == 41 || c == 35

/-- The UTF-8 bytes of a code point. -/
def utf8Bytes (cp : Nat) : List Nat :=
  if cp < 128 then [cp]
  else if cp < 2048 then [192 + cp / 64, 128 + cp % 64]
  else if cp < 65536 then [224 + cp / 4096, 128 + cp / 64 % 64, 128 + cp % 64]
  else [240 + cp / 262144, 128 + cp / 4096 % 64, 128 + cp / 64 % 64, 128 + cp % 64]

/-- An uppercase hex digit. -/
def hexDigit (n : Nat) : Nat := if n < 10 then 48 + n else 55 + n

/-- One code point in `encodeURI`'s output. -/
def encodeURIcp (cp : Nat) : JStr :=
  if encodeURIUnescaped cp then [cp]
  else (utf8Bytes cp).foldr (fun b acc => 37 :: hexDigit (b / 16) :: hexDigit (b % 16) :: acc) []

/-- The escaped forms of a code point list. -/
def encodeCps : List Nat → JStr
  | [] => []
  | cp :: rest => encodeURIcp cp ++ encodeCps rest

/-- `encodeURI`; `Except.error` is the `URIError` on a lone surrogate. -/
def encodeURI (s : JStr) : Except String JStr :=
  match utf16ToCodePoints s with
  | none => Except.error "URI malformed"
  | some cps => Except.ok (encodeCps cps)

/-- The reserved set of `decodeURI` (escapes of these stay verbatim):
`; / ? : @ & = + $ , #`. -/
def decodeReserved (c : Nat) : Bool :=
  c == 59 || c == 47 || c == 63 || c == 58 || c == 64 || c == 38 || c == 61 ||
  c == 43 || c == 36 || c == 44 || c == 35

/-- The value of a hex digit of either case. -/
def hexVal (c : Nat) : Option Nat :=
  if 48 ≤ c ∧ c ≤ 57 then some (c - 48)
  else if 65 ≤ c ∧ c ≤ 70 then some (c - 55)
  else if 97 ≤ c ∧ c ≤ 102 then some (c - 87)
  else none

/-- `%XY` at the head of the string: the byte and the remainder. -/
def readPctByte : JStr → Option (Nat × JStr)
  | 37 :: h1 :: h2 :: rest =>
    match hexVal h1, hexVal h2 with
    | some a, some b => some (16 * a + b, rest)
    | _, _ => none
  | _ => none

/-- The lower bound of the first continuation byte (strict UTF-8). -/
def cont1Lo (b1 : Nat) : Nat := if b1 = 224 then 160 else if b1 = 240 then 144 else 128

/-- The upper bound of the first continuation byte (strict UTF-8). -/
def cont1Hi (b1 : Nat) : Nat := if b1 = 237 then 159 else if b1 = 244 then 143 else 191

/-- The decoding scan of `decodeURI`.  One unit of fuel per decoded
element; the wrapper's `length + 1` suffices since every step consumes
at least one input unit. -/
def decodeURILoop : Nat → JStr → Except String JStr
  | 0, _ => Except.error "URI malformed"
  | _ + 1, [] => Except.ok []
  | fuel + 1, c :: rest =>
    if c ≠ 37 then
      match decodeURILoop fuel rest with
      | Except.error e => Except.error e
      | Except.ok out => Except.ok (c :: out)
    else
      match readPctByte (c :: rest) with
      | none => Except.error "URI malformed"
      | some (b1, rest2) =>
        if b1 < 128 then
          if decodeReserved b1 then
            match decodeURILoop fuel rest2 with
            | Except.error e => Except.error e
            | Except.ok out =>
              Except.ok (37 :: (rest.headD 0) :: ((rest.tail).headD 0) :: out)
          else
            match decodeURILoop fuel rest2 with
            | Except.error e => Except.error e
            | Except.ok out => Except.ok (b1 :: out)
        else if 194 ≤ b1 ∧ b1 ≤ 223 then
          match readPctByte rest2 with
          | none => Except.error "URI malformed"
          | some (b2, rest3) =>
            if 128 ≤ b2 ∧ b2 ≤ 191 then
              match decodeURILoop fuel rest3 with
              | Except.error e => Except.error e
              | Except.ok out => Except.ok (((b1 - 192) * 64 + (b2 - 128)) :: out)
            else Except.error "URI malformed"
        else if 224 ≤ b1 ∧ b1 ≤ 239 then
          match readPctByte rest2 with
          | none => Except.error "URI malformed"
          | some (b2, rest3) =>
            if cont1Lo b1 ≤ b2 ∧ b2 ≤ cont1Hi b1 then
              match readPctByte rest3 with
              | none => Except.error "URI malformed"
              | some (b3, rest4) =>
                if 128 ≤ b3 ∧ b3 ≤ 191 then
                  match decodeURILoop fuel rest4 with
                  | Except.error e => Except.error e
                  | Except.ok out =>
                    Except.ok
                      (((b1 - 224) * 4096 + (b2 - 128) * 64 + (b3 - 128)) :: out)
                else Except.error "URI malformed"
            else Except.error "URI malformed"
        else if 240 ≤ b1 ∧ b1 ≤ 244 then
          match readPctByte rest2 with
          | none => Except.error "URI malformed"
          | some (b2, rest3) =>
            if cont1Lo b1 ≤ b2 ∧ b2 ≤ cont1Hi b1 then
              match readPctByte rest3 with
              | none => Except.error "URI malformed"
              | some (b3, rest4) =>
                if 128 ≤ b3 ∧ b3 ≤ 191 then
                  match readPctByte rest4 with
                  | none => Except.error "URI malformed"
                  | some (b4, rest5) =>
                    if 128 ≤ b4 ∧ b4 ≤ 191 then
                      match decodeURILoop fuel rest5 with
                      | Except.error e => Except.error e
                      | Except.ok out =>
                        Except.ok (cpToUtf16 ((b1 - 240) * 262144 + (b2 - 128) * 4096
                          + (b3 - 128) * 64 + (b4 - 128)) ++ out)
                    else Except.error "URI malformed"
                else Except.error "URI malformed"
            else Except.error "URI malformed"
        else Except.error "URI malformed"

/-- `decodeURI`. -/
def decodeURI (s : JStr) : Except String JStr :=
  decodeURILoop (s.length + 1) s

/-- `.replace(/%20/g, ' ')`: the greedy left-to-right global
replacement. -/
def replacePct20 : JStr → JStr
  | [] => []
  | [c] => [c]
  | [c, d] => [c, d]
  | c :: d :: e :: rest =>
    if c = 37 ∧ d = 50 ∧ e = 48 then 32 :: replacePct20 rest
    else c :: replacePct20 (d :: e :: rest)

/-- The decimal digits of `n`, most significant first (`go`-style with
fuel; each step divides by 10, so `n + 1` fuel suffices). -/
def natToDigitsGo : Nat → Nat → JStr
  | 0, _ => []
  | fuel + 1, n => if n = 0 then [] else natToDigitsGo fuel (n / 10) ++ [48 + n % 10]

/-- `String(n)` for a natural number. -/
def natToDigits (n : Nat) : JStr :=
  if n = 0 then [48] else natToDigitsGo (n + 1) n

/-- An ASCII decimal digit. -/
def isDigit (c : Nat) : Bool := 48 ≤ c && c ≤ 57

/-- The value of a digit string. -/
def digitsVal (s : JStr) : Nat := s.foldl (fun a c => a * 10 + (c - 48)) 0

/-- `Number.parseInt(s, 10)`: strip whitespace, take an optional sign
and then the longest digit prefix; `none` is `NaN`. -/
def jsParseInt (s : JStr) : Option Int :=
  match s.dropWhile (fun c => isJsWhitespace c) with
  | 43 :: r =>
    if (r.takeWhile (fun c => isDigit c)) = [] then none
    else some ((digitsVal (r.takeWhile (fun c => isDigit c)) : Int))
  | 45 :: r =>
    if (r.takeWhile (fun c => isDigit c)) = [] then none
    else some (-(digitsVal (r.takeWhile (fun c => isDigit c)) : Int))
  | r =>
    if (r.takeWhile (fun c => isDigit c)) = [] then none
    else some ((digitsVal (r.takeWhile (fun c => isDigit c)) : Int))

/-- The token of one diff entry in `diffToDelta`. -/
def deltaToken (d : Diff) : Except String JStr :=
  match d.1 with
  | DiffOp.insert =>
    match encodeURI d.2 with
    | Except.error e => Except.error e
    | Except.ok t => Except.ok (43 :: t)
  | DiffOp.delete => Except.ok (45 :: natToDigits d.2.length)
  | DiffOp.equal => Except.ok (61 :: natToDigits d.2.length)

/-- All tokens of `diffToDelta`. -/
def deltaTokens : List Diff → Except String (List JStr)
  | [] => Except.ok []
  | d :: rest =>
    match deltaToken d, deltaTokens rest with
    | Except.ok t, Except.ok ts => Except.ok (t :: ts)
    | Except.error e, _ => Except.error e
    | _, Except.error e => Except.error e

/-- `join('\t')`. -/
def joinTabs : List JStr → JStr
  | [] => []
  | [t] => t
  | t :: rest => t ++ 9 :: joinTabs rest

/-- `diffToDelta`: tab-join the tokens and replace `%20` by a space;
the error is `encodeURI`'s `URIError` on a lone surrogate. -/
def diffToDelta (diffs : List Diff) : Except String JStr :=
  match deltaTokens diffs with
  | Except.error e => Except.error e
  | Except.ok ts => Except.ok (replacePct20 (joinTabs ts))

/-- The token scan of `diffFromDelta`; returns the built script and the
final cursor. -/
def fromDeltaLoop (text1 : JStr) : List JStr → Nat → Except String (List Diff × Nat)
  | [], pointer => Except.ok ([], pointer)
  | tok :: rest, pointer =>
    if tok.headD 0 = 43 then
      match decodeURI (jsSubstringFrom tok 1) with
      | Except.error _ => Except.error "Illegal escape in diff_fromDelta"
      | Except.ok s =>
        match fromDeltaLoop text1 rest pointer with
        | Except.error e => Except.error e
        | Except.ok (ds, p) => Except.ok ((DiffOp.insert, s) :: ds, p)
    else if tok.headD 0 = 45 ∨ tok.headD 0 = 61 then
      match jsParseInt (jsSubstringFrom tok 1) with
      | none => Except.error "Invalid number in diff_fromDelta"
      | some n =>
        if n < 0 then Except.error "Invalid number in diff_fromDelta"
        else
          match fromDeltaLoop text1 rest (pointer + n.toNat) with
          | Except.error e => Except.error e
          | Except.ok (ds, p) =>
            Except.ok (((if tok.headD 0 = 61 then DiffOp.equal else DiffOp.delete),
              jsSubstring text1 (pointer : Int) ((pointer : Int) + n)) :: ds, p)
    else
      if tok ≠ [] then Except.error "Invalid diff operation in diff_fromDelta"
      else fromDeltaLoop text1 rest pointer

/-- `diffFromDelta`. -/
def diffFromDelta (text1 delta : JStr) : Except String (List Diff) :=
  match fromDeltaLoop text1 (jsSplit 9 delta) 0 with
  | Except.error e => Except.error e
  | Except.ok (ds, pointer) =>
    if pointer ≠ text1.length then
      Except.error "Delta length does not equal source text length"
    else Except.ok ds

/-- A token `diffFromDelta` throws on: a `+` token with a malformed
escape, a `-`/`=` token with a missing or negative number, or a
non-empty token starting with any other character. -/
def badDeltaToken (tok : JStr) : Prop :=
  (tok.headD 0 = 43 ∧ ∃ e, decodeURI (jsSubstringFrom tok 1) = Except.error e) ∨
  ((tok.headD 0 = 45 ∨ tok.headD 0 = 61) ∧
    (jsParseInt (jsSubstringFrom tok 1) = none ∨
      ∃ n, jsParseInt (jsSubstringFrom tok 1) = some n ∧ n < 0)) ∨
  (tok ≠ [] ∧ ¬ tok.headD 0 = 43 ∧ ¬ tok.headD 0 = 45 ∧ ¬ tok.headD 0 = 61)

/-- How far the cursor moves over a token list: the sum of the numbers
of the well-formed `-`/`=` tokens. -/
def deltaConsumed : List JStr → Nat
  | [] => 0
  | tok :: rest =>
    (if tok.headD 0 = 45 ∨ tok.headD 0 = 61 then
      match jsParseInt (jsSubstringFrom tok 1) with
      | some n => n.toNat
      | none => 0
    else 0) + deltaConsumed rest

/-- A genuine UTF-16 string: units below `2^16` that pair into code
points (no lone surrogates). -/
def wellFormedUtf16 (s : JStr) : Prop :=
  (∀ c ∈ s, c < 65536) ∧ (utf16ToCodePoints s).isSome

instance wellFormedUtf16Dec (s : JStr) : Decidable (wellFormedUtf16 s) := by
  unfold wellFormedUtf16
  infer_instance

/-- A code point of Unicode outside the surrogate range. -/
def validCp (cp : Nat) : Prop :=
  cp ≤ 1114111 ∧ ¬(55296 ≤ cp ∧ cp ≤ 57343)

/-- The on-the-wire form of one code point after the global `%20` to
space replacement of `diffToDelta`. -/
def wireCp (cp : Nat) : JStr :=
  if cp = 32 then [32] else encodeURIcp cp

/-- The on-the-wire forms of a code point list. -/
def wireCps : List Nat → JStr
  | [] => []
  | cp :: rest => wireCp cp ++ wireCps rest

/-- The raw (pre-replacement) token of one diff entry, for well-formed
payloads. -/
def rawToken (x : Diff) : JStr :=
  match x.1 with
  | DiffOp.insert => 43 :: encodeCps ((utf16ToCodePoints x.2).getD [])
  | DiffOp.delete => 45 :: natToDigits x.2.length
  | DiffOp.equal => 61 :: natToDigits x.2.length

/-- The on-the-wire token of one diff entry, for well-formed payloads. -/
def wireToken (x : Diff) : JStr :=
  match x.1 with
  | DiffOp.insert => 43 :: wireCps ((utf16ToCodePoints x.2).getD [])
  | DiffOp.delete => 45 :: natToDigits x.2.length
  | DiffOp.equal => 61 :: natToDigits x.2.length

/-! ## The diff engine (`diffMain`, `diffCompute`, `diffBisect`, line mode)

Wall-clock deadline checks (`new Date().getTime() > deadline`, together
with the deadline set-up at the top of `diffMain`) are abstracted by an
oracle `Nat → Bool` consulted with a running counter: the `n`-th
deadline check of a run returns the oracle's value at `n`.  Every real
execution, for every timeout setting, corresponds to some oracle (the
`diffTimeout ≤ 0` "never expire" case is the all-`false` oracle).  The
engine is one structural recursion on fuel; the subsidiary routines
receive the recursive call as a function argument `rec`, of type
counter → text1 → text2 → checklines → result × counter. -/

/-- The forward snake walk of `diffBisect` (`charAt` on both sides, so
two out-of-range reads compare as equal empty strings, as in JS). -/
def snakeFwd (t1 t2 : JStr) : Nat → Int → Int → Int × Int
  | 0, x1, y1 => (x1, y1)
  | f + 1, x1, y1 =>
    if x1 < (t1.length : Int) ∧ y1 < (t2.length : Int) ∧
        jsCharAt t1 x1 = jsCharAt t2 y1 then
      snakeFwd t1 t2 f (x1 + 1) (y1 + 1)
    else (x1, y1)

/-- The reverse snake walk of `diffBisect`. -/
def snakeRev (t1 t2 : JStr) : Nat → Int → Int → Int × Int
  | 0, x2, y2 => (x2, y2)
  | f + 1, x2, y2 =>
    if x2 < (t1.length : Int) ∧ y2 < (t2.length : Int) ∧
        jsCharAt t1 ((t1.length : Int) - x2 - 1)
          = jsCharAt t2 ((t2.length : Int) - y2 - 1) then
      snakeRev t1 t2 f (x2 + 1) (y2 + 1)
    else (x2, y2)

/-- The front (`k1`) scan of one `d` iteration of `diffBisect`.  `v1` and
`v2` are the trace maps (total `Int → Int` functions, `-1` where
unwritten).  Returns the overlap split point if found, with the updated
`v1` and the window bounds `k1start`, `k1end` (which the loop condition
re-reads after in-loop updates, as in the source). -/
def bisectFrontLoop (t1 t2 : JStr) (voffset vlength : Nat) (delta : Int)
    (front : Bool) (d : Nat) (v2 : Int → Int) :
    Nat → Int → (Int → Int) → Nat → Nat →
      Option (Int × Int) × (Int → Int) × Nat × Nat
  | 0, _, v1, k1start, k1end => (none, v1, k1start, k1end)
  | f + 1, k1, v1, k1start, k1end =>
    if k1 ≤ (d : Int) - (k1end : Int) then
      let off := (voffset : Int) + k1
      let x1 :=
        if k1 = -(d : Int) ∨ (k1 ≠ (d : Int) ∧ v1 (off - 1) < v1 (off + 1)) then
          v1 (off + 1)
        else v1 (off - 1) + 1
      let p := snakeFwd t1 t2 (t1.length + t2.length + 2) x1 (x1 - k1)
      let v1' := fun i => if i = off then p.1 else v1 i
      if p.1 > (t1.length : Int) then
        bisectFrontLoop t1 t2 voffset vlength delta front d v2 f (k1 + 2) v1'
          k1start (k1end + 2)
      else if p.2 > (t2.length : Int) then
        bisectFrontLoop t1 t2 voffset vlength delta front d v2 f (k1 + 2) v1'
          (k1start + 2) k1end
      else if front then
        let k2off := (voffset : Int) + delta - k1
        if 0 ≤ k2off ∧ k2off < (vlength : Int) ∧ v2 k2off ≠ -1 then
          if p.1 ≥ (t1.length : Int) - v2 k2off then
            (some (p.1, p.2), v1', k1start, k1end)
          else
            bisectFrontLoop t1 t2 voffset vlength delta front d v2 f (k1 + 2) v1'
              k1start k1end
        else
          bisectFrontLoop t1 t2 voffset vlength delta front d v2 f (k1 + 2) v1'
            k1start k1end
      else
        bisectFrontLoop t1 t2 voffset vlength delta front d v2 f (k1 + 2) v1'
          k1start k1end
    else (none, v1, k1start, k1end)

/-- The reverse (`k2`) scan of one `d` iteration of `diffBisect`. -/
def bisectRevLoop (t1 t2 : JStr) (voffset vlength : Nat) (delta : Int)
    (front : Bool) (d : Nat) (v1 : Int → Int) :
    Nat → Int → (Int → Int) → Nat → Nat →
      Option (Int × Int) × (Int → Int) × Nat × Nat
  | 0, _, v2, k2start, k2end => (none, v2, k2start, k2end)
  | f + 1, k2, v2, k2start, k2end =>
    if k2 ≤ (d : Int) - (k2end : Int) then
      let off := (voffset : Int) + k2
      let x2 :=
        if k2 = -(d : Int) ∨ (k2 ≠ (d : Int) ∧ v2 (off - 1) < v2 (off + 1)) then
          v2 (off + 1)
        else v2 (off - 1) + 1
      let p := snakeRev t1 t2 (t1.length + t2.length + 2) x2 (x2 - k2)
      let v2' := fun i => if i = off then p.1 else v2 i
      if p.1 > (t1.length : Int) then
        bisectRevLoop t1 t2 voffset vlength delta front d v1 f (k2 + 2) v2'
          k2start (k2end + 2)
      else if p.2 > (t2.length : Int) then
        bisectRevLoop t1 t2 voffset vlength delta front d v1 f (k2 + 2) v2'
          (k2start + 2) k2end
      else if front = false then
        let k1off := (voffset : Int) + delta - k2
        if 0 ≤ k1off ∧ k1off < (vlength : Int) ∧ v1 k1off ≠ -1 then
          if v1 k1off ≥ (t1.length : Int) - p.1 then
            (some (v1 k1off, (voffset : Int) + v1 k1off - k1off), v2', k2start, k2end)
          else
            bisectRevLoop t1 t2 voffset vlength delta front d v1 f (k2 + 2) v2'
              k2start k2end
        else
          bisectRevLoop t1 t2 voffset vlength delta front d v1 f (k2 + 2) v2'
            k2start k2end
      else
        bisectRevLoop t1 t2 voffset vlength delta front d v1 f (k2 + 2) v2'
          k2start k2end
    else (none, v2, k2start, k2end)

/-- `diffBisectSplit`: recurse (with `checklines = false`) on the two
halves around the split point and concatenate. -/
def diffBisectSplitF (rec : Nat → JStr → JStr → Bool → List Diff × Nat)
    (k : Nat) (t1 t2 : JStr) (x y : Int) : List Diff × Nat :=
  let r1 := rec k (jsSubstring t1 0 x) (jsSubstring t2 0 y) false
  let r2 := rec r1.2 (jsSubstringFrom t1 x) (jsSubstringFrom t2 y) false
  (r1.1 ++ r2.1, r2.2)

/-- The `d` loop of `diffBisect`: one oracle consultation (deadline
check) per iteration; on expiry or exhaustion the no-commonality
fallback `[DELETE text1, INSERT text2]` is returned. -/
def bisectDLoop (rec : Nat → JStr → JStr → Bool → List Diff × Nat)
    (oracle : Nat → Bool) (t1 t2 : JStr) (voffset vlength : Nat) (delta : Int)
    (front : Bool) (maxD : Nat) :
    Nat → Nat → Nat → (Int → Int) → (Int → Int) → Nat → Nat → Nat → Nat →
      List Diff × Nat
  | 0, _, k, _, _, _, _, _, _ => ([(DiffOp.delete, t1), (DiffOp.insert, t2)], k)
  | f + 1, d, k, v1, v2, k1start, k1end, k2start, k2end =>
    if d < maxD then
      if oracle k then ([(DiffOp.delete, t1), (DiffOp.insert, t2)], k + 1)
      else
        let fr := bisectFrontLoop t1 t2 voffset vlength delta front d v2
          (2 * d + 2) (-(d : Int) + (k1start : Int)) v1 k1start k1end
        match fr.1 with
        | some (x, y) => diffBisectSplitF rec (k + 1) t1 t2 x y
        | none =>
          let rv := bisectRevLoop t1 t2 voffset vlength delta front d fr.2.1
            (2 * d + 2) (-(d : Int) + (k2start : Int)) v2 k2start k2end
          match rv.1 with
          | some (x, y) => diffBisectSplitF rec (k + 1) t1 t2 x y
          | none =>
            bisectDLoop rec oracle t1 t2 voffset vlength delta front maxD f
              (d + 1) (k + 1) fr.2.1 rv.2.1 fr.2.2.1 fr.2.2.2 rv.2.2.1 rv.2.2.2
    else ([(DiffOp.delete, t1), (DiffOp.insert, t2)], k)

/-- `diffBisect`. -/
def diffBisectF (rec : Nat → JStr → JStr → Bool → List Diff × Nat)
    (oracle : Nat → Bool) (k : Nat) (t1 t2 : JStr) : List Diff × Nat :=
  let maxD := (t1.length + t2.length + 1) / 2
  let v0 : Int → Int := fun i => if i = (maxD : Int) + 1 then 0 else -1
  let delta := (t1.length : Int) - (t2.length : Int)
  bisectDLoop rec oracle t1 t2 maxD (2 * maxD) delta (decide (delta % 2 ≠ 0)) maxD
    (maxD + 1) 0 k v0 v0 0 0 0 0

/-- Association list for `lineHash`; assignments are consed at the
front, so lookups see the newest binding as in a JS object. -/
def lineAssocFind : List (JStr × Nat) → JStr → Option Nat
  | [], _ => none
  | (key, v) :: rest, s => if key = s then some v else lineAssocFind rest s

/-- The scanning loop of `diffLinesToCharsMunge`.  State: `lineStart`,
`lineEnd`, the accumulated `chars`, and the shared `lineArray` and
`lineHash`.  `String.fromCharCode` is modelled as reduction mod `2^16`
(the `maxLines` bail keeps all arguments below it anyway).  Each
iteration advances `lineStart` by at least one, so fuel `|text| + 2`
suffices. -/
def mungeLoop (text : JStr) (maxLines : Nat) :
    Nat → Nat → Int → JStr → List JStr → List (JStr × Nat) →
      JStr × List JStr × List (JStr × Nat)
  | 0, _, _, chars, lineArray, lineHash => (chars, lineArray, lineHash)
  | f + 1, lineStart, lineEnd, chars, lineArray, lineHash =>
    if lineEnd < (text.length : Int) - 1 then
      let le1 := jsIndexOf text [10] (lineStart : Int)
      let le2 := if le1 = -1 then (text.length : Int) - 1 else le1
      let line := jsSubstring text (lineStart : Int) (le2 + 1)
      match lineAssocFind lineHash line with
      | some idx =>
        mungeLoop text maxLines f (le2 + 1).toNat le2 (chars ++ [idx % 65536])
          lineArray lineHash
      | none =>
        if lineArray.length = maxLines then
          mungeLoop text maxLines f (text.length + 1) (text.length : Int)
            (chars ++ [lineArray.length % 65536])
            (lineArray ++ [jsSubstringFrom text (lineStart : Int)])
            ((jsSubstringFrom text (lineStart : Int), lineArray.length) :: lineHash)
        else
          mungeLoop text maxLines f (le2 + 1).toNat le2
            (chars ++ [lineArray.length % 65536]) (lineArray ++ [line])
            ((line, lineArray.length) :: lineHash)
    else (chars, lineArray, lineHash)

/-- `diffLinesToChars`: encode both texts line-by-line, sharing the
array and the hash; text1 gets the first 40000 slots, text2 the rest up
to 65535. -/
def diffLinesToChars (text1 text2 : JStr) : JStr × JStr × List JStr :=
  let r1 := mungeLoop text1 40000 (text1.length + 2) 0 (-1) [] [([] : JStr)] []
  let r2 := mungeLoop text2 65535 (text2.length + 2) 0 (-1) [] r1.2.1 r1.2.2
  (r1.1, r2.1, r2.2.1)

/-- The rehydration of one encoded payload (`lineArray[c]` per unit,
joined); out-of-range units read the empty string. -/
def linesJoin (chars : JStr) (lineArray : List JStr) : JStr :=
  chars.foldr (fun c acc => lineArray.getD c [] ++ acc) []

/-- `diffCharsToLines`. -/
def diffCharsToLines (diffs : List Diff) (lineArray : List JStr) : List Diff :=
  diffs.map (fun x => (x.1, linesJoin x.2 lineArray))

/-- `splice` with a JS (possibly negative) start index. -/
def spliceAtInt (l : List Diff) (start : Int) (cnt : Nat) (ins : List Diff) :
    List Diff :=
  splice l (if start < 0 then (max ((l.length : Int) + start) 0).toNat
    else min start.toNat l.length) cnt ins

/-- The re-diff loop at the end of `diffLineMode`: runs over the
line-level script (with its trailing dummy EQUAL), replacing every
DELETE/INSERT run before an EQUAL by a character-level re-diff of the
run's texts.  `|diffs| - pointer` decreases every iteration, so fuel
`|diffs| + 1` suffices. -/
def lineModeRebuild (rec : Nat → JStr → JStr → Bool → List Diff × Nat) :
    Nat → List Diff → Int → Nat → Nat → JStr → JStr → Nat → List Diff × Nat
  | 0, diffs, _, _, _, _, _, k => (diffs, k)
  | f + 1, diffs, pointer, cd, ci, td, ti, k =>
    if pointer < (diffs.length : Int) then
      match (jsGetD diffs pointer.toNat).1 with
      | DiffOp.insert =>
        lineModeRebuild rec f diffs (pointer + 1) cd (ci + 1) td
          (ti ++ (jsGetD diffs pointer.toNat).2) k
      | DiffOp.delete =>
        lineModeRebuild rec f diffs (pointer + 1) (cd + 1) ci
          (td ++ (jsGetD diffs pointer.toNat).2) ti k
      | DiffOp.equal =>
        if cd ≥ 1 ∧ ci ≥ 1 then
          let start := pointer - (cd : Int) - (ci : Int)
          let sub := rec k td ti false
          lineModeRebuild rec f
            (spliceAtInt (spliceAtInt diffs start (cd + ci) []) start 0 sub.1)
            (start + (sub.1.length : Int) + 1) 0 0 [] [] sub.2
        else lineModeRebuild rec f diffs (pointer + 1) 0 0 [] [] k
    else (diffs, k)

/-- `diffLineMode`: line-level pass, rehydration, semantic cleanup and
character-level re-diff of replacement runs. -/
def diffLineModeF (rec : Nat → JStr → JStr → Bool → List Diff × Nat)
    (k : Nat) (t1 t2 : JStr) : List Diff × Nat :=
  let l := diffLinesToChars t1 t2
  let r := rec k l.1 l.2.1 false
  let d1 := diffCharsToLines r.1 l.2.2
  let d2 := diffCleanupSemantic
    (d1.length + (diffText1 d1).length + (diffText2 d1).length + 10) d1
  let d3 := d2 ++ [(DiffOp.equal, [])]
  let rb := lineModeRebuild rec (d3.length + 1) d3 0 0 0 [] [] r.2
  (rb.1.dropLast, rb.2)

/-- `diffCompute`: the speedup chain (empty sides, substring
containment, single character, half match, line mode) ending in
`diffBisect`. -/
def diffComputeF (rec : Nat → JStr → JStr → Bool → List Diff × Nat)
    (oracle : Nat → Bool) (options : DMPOptions) (checklines : Bool)
    (k : Nat) (text1 text2 : JStr) : List Diff × Nat :=
  if text1 = [] then ([(DiffOp.insert, text2)], k)
  else if text2 = [] then ([(DiffOp.delete, text1)], k)
  else
    let longtext := if text1.length > text2.length then text1 else text2
    let shorttext := if text1.length > text2.length then text2 else text1
    let i := jsIndexOf longtext shorttext 0
    if i ≠ -1 then
      let op := if text1.length > text2.length then DiffOp.delete else DiffOp.insert
      ([(op, jsSubstring longtext 0 i), (DiffOp.equal, shorttext),
        (op, jsSubstringFrom longtext (i + (shorttext.length : Int)))], k)
    else if shorttext.length = 1 then
      ([(DiffOp.delete, text1), (DiffOp.insert, text2)], k)
    else
      match diffHalfMatch text1 text2 options with
      | some hm =>
        let ra := rec k hm.a1 hm.a2 checklines
        let rb := rec ra.2 hm.b1 hm.b2 checklines
        (ra.1 ++ [(DiffOp.equal, hm.common)] ++ rb.1, rb.2)
      | none =>
        if checklines ∧ text1.length > 100 ∧ text2.length > 100 then
          diffLineModeF rec k text1 text2
        else diffBisectF rec oracle k text1 text2

/-- `diffMain` (fueled): equality shortcut, common prefix/suffix
stripping, `diffCompute` on the middle, re-attachment and
`diffCleanupMerge`. -/
def diffMainF : Nat → (Nat → Bool) → DMPOptions → Nat → JStr → JStr → Bool →
    List Diff × Nat
  | 0, _, _, k, text1, text2, _ =>
    ([(DiffOp.delete, text1), (DiffOp.insert, text2)], k)
  | fuel + 1, oracle, options, k, text1, text2, checklines =>
    if text1 = text2 then
      (if text1 ≠ [] then [(DiffOp.equal, text1)] else [], k)
    else
      let cl := diffCommonPrefixLen text1 text2
      let commonprefix := jsSubstring text1 0 (cl : Int)
      let t1 := jsSubstringFrom text1 (cl : Int)
      let t2 := jsSubstringFrom text2 (cl : Int)
      let sl := diffCommonSuffixLen t1 t2
      let commonsuffix := jsSubstringFrom t1 ((t1.length : Int) - (sl : Int))
      let t1' := jsSubstring t1 0 ((t1.length : Int) - (sl : Int))
      let t2' := jsSubstring t2 0 ((t2.length : Int) - (sl : Int))
      let r := diffComputeF (fun k a b c => diffMainF fuel oracle options k a b c)
        oracle options checklines k t1' t2'
      let full := (if commonprefix ≠ [] then [(DiffOp.equal, commonprefix)] else [])
        ++ r.1 ++ (if commonsuffix ≠ [] then [(DiffOp.equal, commonsuffix)] else [])
      (diffCleanupMerge (full.length + 2) full, r.2)

/-- `diffMain` with the canonical fuel and the never-expiring clock
(deadline in the future). -/
def diffMain (text1 text2 : JStr) (options : DMPOptions) : List Diff :=
  (diffMainF (text1.length + text2.length + 1) (fun _ => false) options 0
    text1 text2 true).1

/-! ## Patches (`options.ts`)

`createPatch` initializes `start1`/`start2` to `null`; every
construction path of the library (`patchMake`, `patchFromText`,
`patchSplitMax`) overwrites them before use, so the model initializes
them to `0`.  Loops are fuel-structural with generous canonical fuel,
as for the diff engine. -/

/-- One patch object (`Patch` in `types.ts`). -/
structure Patch where
  diffs : List Diff
  start1 : Int
  start2 : Int
  length1 : Nat
  length2 : Nat
deriving DecidableEq, Repr

/-- `createPatch` (the data part; the `toString` method is
`patchToString` below). -/
def createPatch : Patch :=
  { diffs := [], start1 := 0, start2 := 0, length1 := 0, length2 := 0 }

/-- The scan loop of `diffXIndex`; the accumulators mirror `chars1`,
`chars2`, `last_chars1`, `last_chars2`. -/
def diffXIndexLoop : List Diff → Int → Nat → Nat → Nat → Nat → Int
  | [], loc, _, _, lastChars1, lastChars2 =>
    (lastChars2 : Int) + (loc - (lastChars1 : Int))
  | (op, t) :: rest, loc, chars1, chars2, lastChars1, lastChars2 =>
    let chars1' := if op ≠ DiffOp.insert then chars1 + t.length else chars1
    let chars2' := if op ≠ DiffOp.delete then chars2 + t.length else chars2
    if (chars1' : Int) > loc then
      if op = DiffOp.delete then (lastChars2 : Int)
      else (lastChars2 : Int) + (loc - (lastChars1 : Int))
    else diffXIndexLoop rest loc chars1' chars2' chars1' chars2'

/-- `diffXIndex`: a location in text1 to its equivalent in text2. -/
def diffXIndex (diffs : List Diff) (loc : Int) : Int :=
  diffXIndexLoop diffs loc 0 0 0 0

/-- `patchDeepCopy`: rebuild every patch and every diff tuple. -/
def patchDeepCopy (patches : List Patch) : List Patch :=
  patches.map (fun p =>
    { diffs := p.diffs.map (fun d => createDiff d.1 d.2)
      start1 := p.start1
      start2 := p.start2
      length1 := p.length1
      length2 := p.length2 })

/-- Apply `f` to the last element of a patch list. -/
def mapLast (f : Patch → Patch) : List Patch → List Patch
  | [] => []
  | [p] => [f p]
  | p :: q :: rest => p :: mapLast f (q :: rest)

/-- The first-patch step of `patchAddPadding`: add or grow a leading
equality. -/
def padFirstPatch (pad : JStr) (p : Patch) : Patch :=
  match p.diffs with
  | (DiffOp.equal, t) :: rest =>
    if pad.length > t.length then
      let extra := pad.length - t.length
      { diffs := (DiffOp.equal, pad.drop t.length ++ t) :: rest
        start1 := p.start1 - (extra : Int)
        start2 := p.start2 - (extra : Int)
        length1 := p.length1 + extra
        length2 := p.length2 + extra }
    else p
  | _ =>
    { diffs := (DiffOp.equal, pad) :: p.diffs
      start1 := p.start1 - (pad.length : Int)
      start2 := p.start2 - (pad.length : Int)
      length1 := p.length1 + pad.length
      length2 := p.length2 + pad.length }

/-- The last-patch step of `patchAddPadding`: add or grow a trailing
equality. -/
def padLastPatch (pad : JStr) (p : Patch) : Patch :=
  match p.diffs.getLast? with
  | some (DiffOp.equal, t) =>
    if pad.length > t.length then
      let extra := pad.length - t.length
      { p with diffs := p.diffs.dropLast ++ [(DiffOp.equal, t ++ pad.take extra)]
               length1 := p.length1 + extra
               length2 := p.length2 + extra }
    else p
  | _ =>
    { p with diffs := p.diffs ++ [(DiffOp.equal, pad)]
             length1 := p.length1 + pad.length
             length2 := p.length2 + pad.length }

/-- `patchAddPadding`: bump the starts by the margin, pad both edges,
and return the updated list together with the null padding string (the
source mutates the list in place and returns the padding).  With a
single patch the first-edge and last-edge mutations compose on the same
patch, as in the source. -/
def patchAddPadding (patches : List Patch) (options : DMPOptions) :
    List Patch × JStr :=
  let pad : JStr := (List.range options.patchMargin).map (fun x => (x + 1) % 65536)
  let bumped := patches.map (fun p =>
    { p with start1 := p.start1 + (options.patchMargin : Int)
             start2 := p.start2 + (options.patchMargin : Int) })
  let l1 := match bumped with
    | [] => []
    | p :: rest => padFirstPatch pad p :: rest
  (mapLast (padLastPatch pad) l1, pad)

/-- Sum of the payload unit counts of a diff list (fuel measure for the
`patchSplitMax` loops). -/
def diffUnits (d : List Diff) : Nat := (d.map (fun x => x.2.length)).sum

/-- State of the chunk-building inner loop of `patchSplitMax`:
the small patch under construction (`pdiffs`, `plen1`, `plen2`), the
running `start1`/`start2` counters, the remaining big-patch diffs and
the `empty` flag. -/
structure SplitState where
  pdiffs : List Diff
  plen1 : Nat
  plen2 : Nat
  start1 : Int
  start2 : Int
  big : List Diff
  isEmpty : Bool
deriving Repr

/-- The inner loop of `patchSplitMax`: move diffs (or payload chunks)
from the remaining big-patch diffs into the current small patch until
it comes within `patchMargin` of `matchMaxBits`. -/
def splitMaxInner (options : DMPOptions) : Nat → SplitState → SplitState
  | 0, st => st
  | fuel + 1, st =>
    if st.plen1 < options.matchMaxBits - options.patchMargin then
      match st.big with
      | [] => st
      | (op, dt) :: rest =>
        if op = DiffOp.insert then
          splitMaxInner options fuel
            { st with pdiffs := st.pdiffs ++ [(op, dt)]
                      plen2 := st.plen2 + dt.length
                      start2 := st.start2 + (dt.length : Int)
                      big := rest
                      isEmpty := false }
        else if op = DiffOp.delete ∧ st.pdiffs.length = 1 ∧
            (st.pdiffs.headD (DiffOp.equal, [])).1 = DiffOp.equal ∧
            dt.length > 2 * options.matchMaxBits then
          splitMaxInner options fuel
            { st with pdiffs := st.pdiffs ++ [(op, dt)]
                      plen1 := st.plen1 + dt.length
                      start1 := st.start1 + (dt.length : Int)
                      big := rest
                      isEmpty := false }
        else
          let dt' := jsSubstring dt 0 ((options.matchMaxBits : Int) -
            (st.plen1 : Int) - (options.patchMargin : Int))
          splitMaxInner options fuel
            { pdiffs := st.pdiffs ++ [(op, dt')]
              plen1 := st.plen1 + dt'.length
              plen2 := if op = DiffOp.equal then st.plen2 + dt'.length else st.plen2
              start1 := st.start1 + (dt'.length : Int)
              start2 := if op = DiffOp.equal then st.start2 + (dt'.length : Int)
                else st.start2
              big := if dt' = dt then rest else (op, dt.drop dt'.length) :: rest
              isEmpty := if op = DiffOp.equal then st.isEmpty else false }
    else st

/-- Append the post-context equality to a small patch, merging with a
trailing equality as `patchSplitMax` does. -/
def pushPostContext (pdiffs : List Diff) (post : JStr) : List Diff :=
  match pdiffs.getLast? with
  | some (DiffOp.equal, t) => pdiffs.dropLast ++ [(DiffOp.equal, t ++ post)]
  | _ => pdiffs ++ [(DiffOp.equal, post)]

/-- The outer loop of `patchSplitMax`: emit successive small patches
while big-patch diffs remain. -/
def splitMaxOuter (options : DMPOptions) : Nat → Int → Int → JStr → List Diff →
    List Patch
  | 0, _, _, _, _ => []
  | fuel + 1, start1, start2, precontext, big =>
    match big with
    | [] => []
    | _ :: _ =>
      let st0 : SplitState :=
        { pdiffs := if precontext ≠ [] then [(DiffOp.equal, precontext)] else []
          plen1 := if precontext ≠ [] then precontext.length else 0
          plen2 := if precontext ≠ [] then precontext.length else 0
          start1 := start1
          start2 := start2
          big := big
          isEmpty := true }
      let st1 := splitMaxInner options (diffUnits big + big.length + 1) st0
      let pre2 := diffText2 st1.pdiffs
      let precontext' := jsSubstringFrom pre2
        ((pre2.length : Int) - (options.patchMargin : Int))
      let post := (diffText1 st1.big).take options.patchMargin
      let patch : Patch :=
        { diffs := if post ≠ [] then pushPostContext st1.pdiffs post else st1.pdiffs
          start1 := start1 - (precontext.length : Int)
          start2 := start2 - (precontext.length : Int)
          length1 := st1.plen1 + (if post ≠ [] then post.length else 0)
          length2 := st1.plen2 + (if post ≠ [] then post.length else 0) }
      let rest := splitMaxOuter options fuel st1.start1 st1.start2 precontext' st1.big
      if st1.isEmpty then rest else patch :: rest

/-- `patchSplitMax`: break patches longer than `matchMaxBits`; the
produced small patches are spliced in and not re-examined. -/
def patchSplitMax (patches : List Patch) (options : DMPOptions) : List Patch :=
  (patches.map (fun p =>
    if p.length1 ≤ options.matchMaxBits then [p]
    else splitMaxOuter options (diffUnits p.diffs + p.diffs.length + 1)
      p.start1 p.start2 [] p.diffs)).join

/-- The per-diff patching loop inside `patchApply` for an imperfect
match: replay the patch diffs through the `diffXIndex` framework built
from the fresh diff. -/
def applyMods (framework : List Diff) (startLoc : Int) :
    List Diff → JStr → Nat → Int → JStr
  | [], text, _, _ => text
  | (op, mt) :: rest, text, index1, index2 =>
    let index2' := if op ≠ DiffOp.equal then diffXIndex framework (index1 : Int)
      else index2
    let text' :=
      if op = DiffOp.insert then
        jsSubstring text 0 (startLoc + index2') ++ mt ++
          jsSubstringFrom text (startLoc + index2')
      else if op = DiffOp.delete then
        jsSubstring text 0 (startLoc + index2') ++
          jsSubstringFrom text
            (startLoc + diffXIndex framework ((index1 + mt.length : Nat) : Int))
      else text
    let index1' := if op ≠ DiffOp.delete then index1 + mt.length else index1
    applyMods framework startLoc rest text' index1' index2'

/-- The `start_loc`/`end_loc` search of one `patchApply` iteration: an
oversized pattern (only a monster delete survives `patchSplitMax`) is
matched by its head and tail slices. -/
def patchFindLoc (options : DMPOptions) (text text1 : JStr) (expectedLoc : Int) :
    Except String (Int × Int) :=
  if text1.length > options.matchMaxBits then
    match matchMain text (text1.take options.matchMaxBits) expectedLoc options with
    | Except.error e => Except.error e
    | Except.ok s1 =>
      if s1 ≠ -1 then
        match matchMain text
          (jsSubstringFrom text1
            ((text1.length : Int) - (options.matchMaxBits : Int)))
          (expectedLoc + (text1.length : Int) - (options.matchMaxBits : Int))
          options with
        | Except.error e => Except.error e
        | Except.ok e1 =>
          if e1 = -1 ∨ s1 ≥ e1 then Except.ok (-1, e1)
          else Except.ok (s1, e1)
      else Except.ok (s1, -1)
  else
    match matchMain text text1 expectedLoc options with
    | Except.error e => Except.error e
    | Except.ok s1 => Except.ok (s1, -1)

/-- The main loop of `patchApply` over the already-split patches;
`delta` is the drift between expected and actual positions.  `matchMain`
exceptions propagate. -/
def patchApplyLoop (options : DMPOptions) :
    List Patch → JStr → Int → Except String (JStr × List Bool)
  | [], text, _ => Except.ok (text, [])
  | p :: rest, text, delta =>
    let expectedLoc := p.start2 + delta
    let text1 := diffText1 p.diffs
    match patchFindLoc options text text1 expectedLoc with
    | Except.error e => Except.error e
    | Except.ok (startLoc, endLoc) =>
      if startLoc = -1 then
        match patchApplyLoop options rest text
          (delta - ((p.length2 : Int) - (p.length1 : Int))) with
        | Except.error e => Except.error e
        | Except.ok (t', res) => Except.ok (t', false :: res)
      else
        let delta' := startLoc - expectedLoc
        let text2 :=
          if endLoc = -1 then jsSubstring text startLoc (startLoc + (text1.length : Int))
          else jsSubstring text startLoc (endLoc + (options.matchMaxBits : Int))
        if text1 = text2 then
          let textNew := jsSubstring text 0 startLoc ++ diffText2 p.diffs ++
            jsSubstringFrom text (startLoc + (text1.length : Int))
          match patchApplyLoop options rest textNew delta' with
          | Except.error e => Except.error e
          | Except.ok (t', res) => Except.ok (t', true :: res)
        else
          let diffs := (diffMainF (text1.length + text2.length + 1) (fun _ => false)
            options 0 text1 text2 false).1
          if text1.length > options.matchMaxBits ∧
              (diffLevenshtein diffs : ℚ) / (text1.length : ℚ) >
                options.patchDeleteThreshold then
            match patchApplyLoop options rest text delta' with
            | Except.error e => Except.error e
            | Except.ok (t', res) => Except.ok (t', false :: res)
          else
            let diffs2 := diffCleanupSemanticLossless (diffs.length + 1) diffs
            let textNew := applyMods diffs2 startLoc p.diffs text 0 0
            match patchApplyLoop options rest textNew delta' with
            | Except.error e => Except.error e
            | Except.ok (t', res) => Except.ok (t', true :: res)

/-- `patchApply`. -/
def patchApply (patches : List Patch) (text : JStr) (options : DMPOptions) :
    Except String (JStr × List Bool) :=
  if patches = [] then Except.ok (text, [])
  else
    let copied := patchDeepCopy patches
    let padded := patchAddPadding copied options
    let text' := padded.2 ++ text ++ padded.2
    match patchApplyLoop options (patchSplitMax padded.1 options) text' 0 with
    | Except.error e => Except.error e
    | Except.ok (t2, results) =>
      Except.ok (jsSubstring t2 (padded.2.length : Int)
        ((t2.length : Int) - (padded.2.length : Int)), results)

/-- `String(n)` for an integer. -/
def intToDigits (n : Int) : JStr :=
  if n < 0 then 45 :: natToDigits (-n).toNat else natToDigits n.toNat

/-- One coordinate pair of the patch header (`toString`): `start,0`,
the bare 1-based start, or `start+1,length`. -/
def patchCoords (start : Int) (len : Nat) : JStr :=
  if len = 0 then intToDigits start ++ [44, 48]
  else if len = 1 then intToDigits (start + 1)
  else intToDigits (start + 1) ++ 44 :: natToDigits len

/-- The header line (with trailing newline) of one patch:
`@@ -coords1 +coords2 @@`. -/
def patchHeader (p : Patch) : JStr :=
  [64, 64, 32, 45] ++ patchCoords p.start1 p.length1 ++
    [32, 43] ++ patchCoords p.start2 p.length2 ++ [32, 64, 64, 10]

/-- The body lines of one patch: sign, escaped payload, newline for
each diff. -/
def patchBody : List Diff → Except String JStr
  | [] => Except.ok []
  | (op, t) :: rest =>
    match encodeURI t with
    | Except.error e => Except.error e
    | Except.ok enc =>
      match patchBody rest with
      | Except.error e => Except.error e
      | Except.ok r =>
        Except.ok ((match op with
          | DiffOp.insert => 43
          | DiffOp.delete => 45
          | DiffOp.equal => 32) :: enc ++ [10] ++ r)

/-- `patch.toString()`: header plus escaped body, with the global `%20`
to space replacement applied to the joined string. -/
def patchToString (p : Patch) : Except String JStr :=
  match patchBody p.diffs with
  | Except.error e => Except.error e
  | Except.ok b => Except.ok (replacePct20 (patchHeader p ++ b))

/-- `patchToText`. -/
def patchToText : List Patch → Except String JStr
  | [] => Except.ok []
  | p :: rest =>
    match patchToString p with
    | Except.error e => Except.error e
    | Except.ok s =>
      match patchToText rest with
      | Except.error e => Except.error e
      | Except.ok r => Except.ok (s ++ r)

/-- The `,?(\d*)` group of the patch-header pattern: an optional comma
followed by a digit run. -/
def headerOptNum (r : JStr) : JStr × JStr :=
  match r with
  | 44 :: rest => (rest.takeWhile (fun c => isDigit c),
      rest.drop (rest.takeWhile (fun c => isDigit c)).length)
  | _ => ([], r)

/-- The header-derived (start, length) fields: group `""` means length
one with a start decrement, group `"0"` means length zero, otherwise
both numbers are parsed (with the decrement). -/
def headerStartLen (d : JStr) (m : JStr) : Int × Nat :=
  if m = [] then ((digitsVal d : Int) - 1, 1)
  else if m = [48] then ((digitsVal d : Int), 0)
  else ((digitsVal d : Int) - 1, digitsVal m)

/-- Match one line against the anchored patch-header pattern
`@@ -(\d+),?(\d*) \+(\d+),?(\d*) @@`, returning the four fields. -/
def parseHeader (l : JStr) : Option (Int × Nat × Int × Nat) :=
  match l with
  | 64 :: 64 :: 32 :: 45 :: r0 =>
    let d1 := r0.takeWhile (fun c => isDigit c)
    if d1 = [] then none
    else
      let g2 := headerOptNum (r0.drop d1.length)
      match g2.2 with
      | 32 :: 43 :: r2 =>
        let d3 := r2.takeWhile (fun c => isDigit c)
        if d3 = [] then none
        else
          let g4 := headerOptNum (r2.drop d3.length)
          match g4.2 with
          | [32, 64, 64] =>
            some ((headerStartLen d1 g2.1).1, (headerStartLen d1 g2.1).2,
              (headerStartLen d3 g4.1).1, (headerStartLen d3 g4.1).2)
          | _ => none
      | _ => none
  | _ => none

/-- The body-line loop of `patchFromText`: consume diff lines until the
next header (or the end); the decode error fires before the sign
dispatch, as in the source. -/
def parseBody : List JStr → List Diff → Except String (List Diff × List JStr)
  | [], acc => Except.ok (acc, [])
  | l :: rest, acc =>
    match l with
    | [] => parseBody rest acc
    | c :: body =>
      match decodeURI body with
      | Except.error _ => Except.error "Illegal escape in patch_fromText"
      | Except.ok line =>
        if c = 45 then parseBody rest (acc ++ [(DiffOp.delete, line)])
        else if c = 43 then parseBody rest (acc ++ [(DiffOp.insert, line)])
        else if c = 32 then parseBody rest (acc ++ [(DiffOp.equal, line)])
        else if c = 64 then Except.ok (acc, (c :: body) :: rest)
        else Except.error "Invalid patch mode"

/-- The outer loop of `patchFromText` over the split lines; the fuel is
consumed once per parsed patch, and each patch consumes at least its
header line. -/
def patchFromTextLoop : Nat → List JStr → Except String (List Patch)
  | _, [] => Except.ok []
  | 0, _ :: _ => Except.error "Invalid patch string"
  | fuel + 1, l :: rest =>
    match parseHeader l with
    | none => Except.error "Invalid patch string"
    | some q =>
      match parseBody rest [] with
      | Except.error e => Except.error e
      | Except.ok (diffs, rest') =>
        match patchFromTextLoop fuel rest' with
        | Except.error e => Except.error e
        | Except.ok ps =>
          Except.ok ((⟨diffs, q.1, q.2.2.1, q.2.1, q.2.2.2⟩ : Patch) :: ps)

/-- `patchFromText`. -/
def patchFromText (textline : JStr) : Except String (List Patch) :=
  if textline = [] then Except.ok []
  else patchFromTextLoop (textline.length + 1) (jsSplit 10 textline)

/-- The sign character of a patch body line. -/
def patchSign : DiffOp → Nat
  | DiffOp.insert => 43
  | DiffOp.delete => 45
  | DiffOp.equal => 32

/-- The header line of one patch without its newline. -/
def headerLine (p : Patch) : JStr :=
  [64, 64, 32, 45] ++ patchCoords p.start1 p.length1 ++
    [32, 43] ++ patchCoords p.start2 p.length2 ++ [32, 64, 64]

/-- The on-the-wire body lines of a diff list (escaped payloads after
the `%20` to space replacement), newlines excluded. -/
def bodyLines : List Diff → List JStr
  | [] => []
  | x :: rest =>
    (patchSign x.1 :: wireCps ((utf16ToCodePoints x.2).getD [])) :: bodyLines rest

/-- All lines of the text form of a patch list, newlines excluded. -/
def allLines : List Patch → List JStr
  | [] => []
  | p :: rest => headerLine p :: bodyLines p.diffs ++ allLines rest

/-- Join lines, terminating each with a newline. -/
def joinNl : List JStr → JStr
  | [] => []
  | l :: rest => l ++ 10 :: joinNl rest

/-! ## Basic lemmas about the string primitives -/

theorem diffText1_append (l₁ l₂ : List Diff) :
    diffText1 (l₁ ++ l₂) = diffText1 l₁ ++ diffText1 l₂ := by
  induction l₁ with
  | nil => rfl
  | cons d rest ih =>
    obtain ⟨op, t⟩ := d
    simp only [List.cons_append, diffText1, List.append_eq]
    split
    · exact ih
    · rw [ih, List.append_assoc]

theorem diffText2_append (l₁ l₂ : List Diff) :
    diffText2 (l₁ ++ l₂) = diffText2 l₁ ++ diffText2 l₂ := by
  induction l₁ with
  | nil => rfl
  | cons d rest ih =>
    obtain ⟨op, t⟩ := d
    simp only [List.cons_append, diffText2, List.append_eq]
    split
    · exact ih
    · rw [ih, List.append_assoc]

@[simp] theorem diffText1_nil : diffText1 [] = [] := rfl

@[simp] theorem diffText2_nil : diffText2 [] = [] := rfl

@[simp] theorem diffText1_cons (op : DiffOp) (t : JStr) (rest : List Diff) :
    diffText1 ((op, t) :: rest) =
      if op = DiffOp.insert then diffText1 rest else t ++ diffText1 rest := rfl

@[simp] theorem diffText2_cons (op : DiffOp) (t : JStr) (rest : List Diff) :
    diffText2 ((op, t) :: rest) =
      if op = DiffOp.delete then diffText2 rest else t ++ diffText2 rest := rfl

theorem clampIdx_ofNat (n a : Nat) : clampIdx n (a : Int) = min a n := by
  unfold clampIdx
  omega

theorem jsSubstring_nat (s : JStr) (a b : Nat) (hab : a ≤ b) :
    jsSubstring s (a : Int) (b : Int) = (s.drop a).take (b - a) := by
  unfold jsSubstring
  simp only [clampIdx_ofNat]
  rw [if_pos (by omega)]
  rcases le_or_lt b s.length with hb | hb
  · rw [min_eq_left (le_trans hab hb), min_eq_left hb]
  · rcases le_or_lt a s.length with ha | ha
    · rw [min_eq_left ha, min_eq_right (le_of_lt hb)]
      rw [List.take_of_length_le (by simp only [List.length_drop]; omega),
        List.take_of_length_le (by simp only [List.length_drop]; omega)]
    · rw [min_eq_right (le_of_lt ha), min_eq_right (le_of_lt hb)]
      rw [List.drop_eq_nil_of_le (le_of_lt ha), List.drop_eq_nil_of_le (le_refl _)]
      simp

theorem jsSubstringFrom_nat (s : JStr) (a : Nat) :
    jsSubstringFrom s (a : Int) = s.drop a := by
  rcases le_or_lt a s.length with ha | ha
  · unfold jsSubstringFrom
    rw [jsSubstring_nat s a s.length ha]
    exact List.take_of_length_le (by simp only [List.length_drop]; exact le_refl _)
  · unfold jsSubstringFrom jsSubstring
    simp only [clampIdx_ofNat]
    rw [min_eq_right (le_of_lt ha), min_self, if_pos (le_refl _)]
    rw [List.drop_eq_nil_of_le (le_of_lt ha), List.drop_eq_nil_of_le (le_refl _)]
    simp

theorem jsSubstring_zero_nat (s : JStr) (b : Nat) :
    jsSubstring s 0 (b : Int) = s.take b := by
  have := jsSubstring_nat s 0 b (Nat.zero_le _)
  simpa using this

theorem matchesAt_iff (s sub : JStr) (i : Nat) :
    matchesAt s sub i = true ↔ (s.drop i).take sub.length = sub := by
  unfold matchesAt
  exact beq_iff_eq

theorem indexOfFrom_cases (s sub : JStr) (k i : Nat) :
    indexOfFrom s sub i k = -1 ∨
      (0 ≤ indexOfFrom s sub i k ∧ i ≤ (indexOfFrom s sub i k).toNat ∧
        matchesAt s sub (indexOfFrom s sub i k).toNat = true) := by
  induction k generalizing i with
  | zero => left; rfl
  | succ k ih =>
    unfold indexOfFrom
    by_cases h : matchesAt s sub i = true
    · right
      rw [if_pos h]
      refine ⟨by positivity, by simp, by simpa using h⟩
    · rw [if_neg h]
      rcases ih (i + 1) with h1 | ⟨h1, h2, h3⟩
      · left; exact h1
      · right; exact ⟨h1, by omega, h3⟩

theorem jsIndexOf_cases (s sub : JStr) (frm : Int) :
    jsIndexOf s sub frm = -1 ∨
      (0 ≤ jsIndexOf s sub frm ∧
        matchesAt s sub (jsIndexOf s sub frm).toNat = true) := by
  unfold jsIndexOf
  rcases indexOfFrom_cases s sub (s.length + 1 - clampIdx s.length frm) (clampIdx s.length frm)
    with h | ⟨h1, _, h3⟩
  · left; exact h
  · right; exact ⟨h1, h3⟩

theorem matchesAt_length_le (s sub : JStr) (i : Nat) (hi : i ≤ s.length)
    (h : matchesAt s sub i = true) :
    i + sub.length ≤ s.length := by
  rw [matchesAt_iff] at h
  have hlen := congrArg List.length h
  rw [List.length_take, List.length_drop] at hlen
  omega

theorem matchesAt_decomp (s sub : JStr) (i : Nat) (h : matchesAt s sub i = true) :
    s.take i ++ sub ++ s.drop (i + sub.length) = s := by
  rw [matchesAt_iff] at h
  conv_lhs => lhs; rhs; rw [← h]
  rw [List.append_assoc]
  have hd : s.drop (i + sub.length) = (s.drop i).drop sub.length := by
    rw [List.drop_drop, Nat.add_comm]
  rw [hd, List.take_append_drop, List.take_append_drop]

theorem jsSubstring_zero_add (s : JStr) (x : Int) (hx : 0 ≤ x) :
    jsSubstring s 0 x ++ jsSubstringFrom s x = s := by
  unfold jsSubstringFrom jsSubstring clampIdx
  have h0 : (max 0 (min (0 : Int) (s.length : Int))).toNat = 0 := by
    simp [min_def]
  have hlen : (max 0 (min (s.length : Int) (s.length : Int))).toNat = s.length := by
    simp
  rcases le_or_lt x (s.length : Int) with h | h
  · have hx' : (max 0 (min x (s.length : Int))).toNat = x.toNat := by
      rw [min_eq_left h, max_eq_right hx]
    have hxle : x.toNat ≤ s.length := by omega
    simp only [h0, hx', hlen]
    rw [if_pos (by omega), if_pos hxle]
    simp only [List.drop_zero, Nat.sub_zero]
    have h2 : (s.drop x.toNat).take (s.length - x.toNat) = s.drop x.toNat := by
      rw [← List.length_drop, List.take_length]
    rw [h2]
    exact List.take_append_drop _ s
  · have hx' : (max 0 (min x (s.length : Int))).toNat = s.length := by
      rw [min_eq_right (le_of_lt h)]
      simp
    simp only [h0, hx', hlen]
    rw [if_pos (by omega), if_pos (le_refl _)]
    simp

theorem indexOfFrom_range (s sub : JStr) (k i : Nat) (h : 0 ≤ indexOfFrom s sub i k) :
    i ≤ (indexOfFrom s sub i k).toNat ∧ (indexOfFrom s sub i k).toNat < i + k := by
  induction k generalizing i with
  | zero => simp [indexOfFrom] at h
  | succ k ih =>
    unfold indexOfFrom at h ⊢
    by_cases hm : matchesAt s sub i = true
    · rw [if_pos hm] at h ⊢
      constructor <;> simp
    · rw [if_neg hm] at h ⊢
      rcases ih (i + 1) h with ⟨h1, h2⟩
      exact ⟨by omega, by omega⟩

theorem jsIndexOf_le_length (s sub : JStr) (frm : Int) (h : 0 ≤ jsIndexOf s sub frm) :
    (jsIndexOf s sub frm).toNat ≤ s.length := by
  have hj : jsIndexOf s sub frm
      = indexOfFrom s sub (clampIdx s.length frm) (s.length + 1 - clampIdx s.length frm) := rfl
  rw [hj] at h ⊢
  rcases indexOfFrom_range s sub _ _ h with ⟨h1, h2⟩
  have hc : clampIdx s.length frm ≤ s.length := by
    unfold clampIdx
    omega
  omega

/-! ### Validity of the common-prefix and common-suffix binary searches -/

theorem commonPrefixLoop_valid (t1 t2 : JStr) (fuel pmin pmid pmax : Nat)
    (hminle : pmin ≤ pmax) (hmidmax : pmid ≤ pmax) (hmax : pmax ≤ min t1.length t2.length)
    (heq : t1.take pmin = t2.take pmin) :
    commonPrefixLoop t1 t2 fuel pmin pmid pmax pmin ≤ min t1.length t2.length ∧
      t1.take (commonPrefixLoop t1 t2 fuel pmin pmid pmax pmin)
        = t2.take (commonPrefixLoop t1 t2 fuel pmin pmid pmax pmin) := by
  induction fuel generalizing pmin pmid pmax with
  | zero =>
    refine ⟨?_, heq⟩
    unfold commonPrefixLoop
    omega
  | succ fuel ih =>
    unfold commonPrefixLoop
    by_cases hlt : pmin < pmid
    · rw [if_pos hlt]
      by_cases hsub : jsSubstring t1 (pmin : Int) (pmid : Int)
          = jsSubstring t2 (pmin : Int) (pmid : Int)
      · rw [if_pos hsub]
        refine ih pmid _ pmax (by omega) (by omega) hmax ?_
        rw [jsSubstring_nat t1 pmin pmid (by omega), jsSubstring_nat t2 pmin pmid (by omega)] at hsub
        have hdecomp1 : t1.take pmid = t1.take pmin ++ (t1.drop pmin).take (pmid - pmin) := by
          rw [← List.take_add]
          congr 1
          omega
        have hdecomp2 : t2.take pmid = t2.take pmin ++ (t2.drop pmin).take (pmid - pmin) := by
          rw [← List.take_add]
          congr 1
          omega
        rw [hdecomp1, hdecomp2, heq, hsub]
      · rw [if_neg hsub]
        exact ih pmin _ pmid (by omega) (by omega) (by omega) heq
    · rw [if_neg hlt]
      constructor
      · omega
      · have h1 : t1.take pmid = (t1.take pmin).take pmid := by
          rw [List.take_take, min_eq_left (by omega)]
        have h2 : t2.take pmid = (t2.take pmin).take pmid := by
          rw [List.take_take, min_eq_left (by omega)]
        rw [h1, h2, heq]

theorem diffCommonPrefixLen_valid (t1 t2 : JStr) :
    diffCommonPrefixLen t1 t2 ≤ min t1.length t2.length ∧
      t1.take (diffCommonPrefixLen t1 t2) = t2.take (diffCommonPrefixLen t1 t2) := by
  unfold diffCommonPrefixLen
  split
  · simp
  · exact commonPrefixLoop_valid t1 t2 _ 0 _ _ (Nat.zero_le _) (le_refl _) (le_refl _) (by simp)

/-- The common-suffix invariant: the last `r` units of both strings agree. -/
def SuffixEq (t1 t2 : JStr) (r : Nat) : Prop :=
  t1.drop (t1.length - r) = t2.drop (t2.length - r)

theorem SuffixEq_zero (t1 t2 : JStr) : SuffixEq t1 t2 0 := by
  unfold SuffixEq
  rw [List.drop_eq_nil_of_le (by omega), List.drop_eq_nil_of_le (by omega)]

theorem SuffixEq_mono (t1 t2 : JStr) (r r' : Nat) (hr : r' ≤ r)
    (h1 : r ≤ t1.length) (h : SuffixEq t1 t2 r) : SuffixEq t1 t2 r' := by
  unfold SuffixEq at h ⊢
  have e1 : t1.drop (t1.length - r') = (t1.drop (t1.length - r)).drop (r - r') := by
    rw [List.drop_drop]
    congr 1
    omega
  have hlen := congrArg List.length h
  rw [List.length_drop, List.length_drop] at hlen
  have e2 : t2.drop (t2.length - r') = (t2.drop (t2.length - r)).drop (r - r') := by
    rw [List.drop_drop]
    congr 1
    omega
  rw [e1, e2, h]

theorem jsSubstring_suffix_seg (t : JStr) (pend pmid : Nat) (hpe : pend ≤ pmid)
    (hmid : pmid ≤ t.length) :
    jsSubstring t ((t.length : Int) - (pmid : Int)) ((t.length : Int) - (pend : Int))
      = (t.drop (t.length - pmid)).take (pmid - pend) := by
  have e1 : ((t.length : Int) - (pmid : Int)) = ((t.length - pmid : Nat) : Int) := by omega
  have e2 : ((t.length : Int) - (pend : Int)) = ((t.length - pend : Nat) : Int) := by omega
  rw [e1, e2, jsSubstring_nat t _ _ (by omega)]
  congr 1
  omega

theorem commonSuffixLoop_valid (t1 t2 : JStr) (fuel pmin pmid pmax : Nat)
    (hminle : pmin ≤ pmax) (hmidmax : pmid ≤ pmax) (hmax : pmax ≤ min t1.length t2.length)
    (heq : SuffixEq t1 t2 pmin) :
    commonSuffixLoop t1 t2 fuel pmin pmid pmax pmin ≤ min t1.length t2.length ∧
      SuffixEq t1 t2 (commonSuffixLoop t1 t2 fuel pmin pmid pmax pmin) := by
  induction fuel generalizing pmin pmid pmax with
  | zero =>
    refine ⟨?_, heq⟩
    unfold commonSuffixLoop
    omega
  | succ fuel ih =>
    unfold commonSuffixLoop
    by_cases hlt : pmin < pmid
    · rw [if_pos hlt]
      by_cases hsub : jsSubstring t1 ((t1.length : Int) - (pmid : Int)) ((t1.length : Int) - (pmin : Int))
          = jsSubstring t2 ((t2.length : Int) - (pmid : Int)) ((t2.length : Int) - (pmin : Int))
      · rw [if_pos hsub]
        refine ih pmid _ pmax (by omega) (by omega) hmax ?_
        rw [jsSubstring_suffix_seg t1 pmin pmid (by omega) (by omega),
          jsSubstring_suffix_seg t2 pmin pmid (by omega) (by omega)] at hsub
        unfold SuffixEq at heq ⊢
        have hd1 : t1.drop (t1.length - pmid)
            = (t1.drop (t1.length - pmid)).take (pmid - pmin) ++ t1.drop (t1.length - pmin) := by
          conv_lhs => rw [← List.take_append_drop (pmid - pmin) (t1.drop (t1.length - pmid))]
          congr 1
          rw [List.drop_drop]
          congr 1
          omega
        have hd2 : t2.drop (t2.length - pmid)
            = (t2.drop (t2.length - pmid)).take (pmid - pmin) ++ t2.drop (t2.length - pmin) := by
          conv_lhs => rw [← List.take_append_drop (pmid - pmin) (t2.drop (t2.length - pmid))]
          congr 1
          rw [List.drop_drop]
          congr 1
          omega
        rw [hd1, hd2, heq, hsub]
      · rw [if_neg hsub]
        exact ih pmin _ pmid (by omega) (by omega) (by omega) heq
    · rw [if_neg hlt]
      exact ⟨by omega, SuffixEq_mono t1 t2 pmin pmid (by omega) (by omega) heq⟩

theorem diffCommonSuffixLen_valid (t1 t2 : JStr) :
    diffCommonSuffixLen t1 t2 ≤ min t1.length t2.length ∧
      SuffixEq t1 t2 (diffCommonSuffixLen t1 t2) := by
  unfold diffCommonSuffixLen
  split
  · exact ⟨by omega, SuffixEq_zero t1 t2⟩
  · exact commonSuffixLoop_valid t1 t2 _ 0 _ _ (Nat.zero_le _) (le_refl _) (le_refl _)
      (SuffixEq_zero t1 t2)

/-! ### Validity of the common-overlap scan -/

theorem jsSubstringFrom_nonpos (s : JStr) (a : Int) (ha : a ≤ 0) :
    jsSubstringFrom s a = s := by
  unfold jsSubstringFrom jsSubstring clampIdx
  have h1 : (max 0 (min a (s.length : Int))).toNat = 0 := by omega
  have h2 : (max 0 (min (s.length : Int) (s.length : Int))).toNat = s.length := by omega
  rw [h1, h2, if_pos (Nat.zero_le _)]
  simp

theorem commonOverlapLoop_valid (t1 t2 : JStr) (tlen fuel best length : Nat)
    (hl1 : t1.length = tlen) (hl2 : t2.length = tlen) (hne : t1 ≠ t2)
    (hb1 : best ≤ tlen) (hb2 : t1.drop (tlen - best) = t2.take best) :
    commonOverlapLoop t1 t2 tlen fuel best length ≤ tlen ∧
      t1.drop (tlen - commonOverlapLoop t1 t2 tlen fuel best length)
        = t2.take (commonOverlapLoop t1 t2 tlen fuel best length) := by
  induction fuel generalizing best length with
  | zero => exact ⟨hb1, hb2⟩
  | succ fuel ih =>
    unfold commonOverlapLoop
    by_cases hfound : jsIndexOf t2 (jsSubstringFrom t1 ((tlen : Int) - (length : Int))) 0 = -1
    · rw [if_pos hfound]
      exact ⟨hb1, hb2⟩
    · rw [if_neg hfound]
      rcases jsIndexOf_cases t2 (jsSubstringFrom t1 ((tlen : Int) - (length : Int))) 0 with
        hcase | ⟨hpos, hmat⟩
      · exact absurd hcase hfound
      dsimp only
      split
      · rename_i hcond
        set found := jsIndexOf t2 (jsSubstringFrom t1 ((tlen : Int) - (length : Int))) 0 with hfdef
        have hlen' : length + found.toNat ≤ tlen := by
          by_contra hgt
          push_neg at hgt
          rcases hcond with h0 | hchk
          · -- found = 0, so length itself exceeds tlen and the pattern is all of t1
            rw [h0] at hgt
            simp only [Int.toNat_zero, Nat.add_zero] at hgt
            have hpat : jsSubstringFrom t1 ((tlen : Int) - (length : Int)) = t1 :=
              jsSubstringFrom_nonpos t1 _ (by omega)
            rw [hpat] at hmat
            rw [h0] at hmat
            simp only [Int.toNat_zero] at hmat
            rw [matchesAt_iff] at hmat
            simp only [List.drop_zero] at hmat
            have : t2 = t1 := by
              rw [← hmat, hl1, ← hl2, List.take_length]
            exact hne this.symm
          · -- the explicit check: both sides degenerate to the whole strings
            have hpat : jsSubstringFrom t1 ((tlen : Int) - ((length + found.toNat : Nat) : Int)) = t1 :=
              jsSubstringFrom_nonpos t1 _ (by omega)
            rw [hpat] at hchk
            have htk : jsSubstring t2 0 ((length + found.toNat : Nat) : Int) = t2 := by
              rw [jsSubstring_zero_nat]
              exact List.take_of_length_le (by omega)
            rw [htk] at hchk
            exact hne hchk
        refine ih (length + found.toNat) (length + found.toNat + 1) hlen' ?_
        -- the newly stored overlap is valid
        rcases hcond with h0 | hchk
        · rw [h0] at hmat ⊢
          simp only [Int.toNat_zero, Nat.add_zero] at hmat hlen' ⊢
          rw [matchesAt_iff] at hmat
          simp only [List.drop_zero] at hmat
          have hpat : jsSubstringFrom t1 ((tlen : Int) - (length : Int)) = t1.drop (tlen - length) := by
            have e : (tlen : Int) - (length : Int) = ((tlen - length : Nat) : Int) := by omega
            rw [e, jsSubstringFrom_nat]
          rw [hpat] at hmat
          have hplen : (t1.drop (tlen - length)).length = length := by
            rw [List.length_drop, hl1]
            omega
          rw [hplen] at hmat
          exact hmat.symm
        · have hpat : jsSubstringFrom t1 ((tlen : Int) - ((length + found.toNat : Nat) : Int))
              = t1.drop (tlen - (length + found.toNat)) := by
            have e : (tlen : Int) - ((length + found.toNat : Nat) : Int)
                = ((tlen - (length + found.toNat) : Nat) : Int) := by omega
            rw [e, jsSubstringFrom_nat]
          rw [hpat, jsSubstring_zero_nat] at hchk
          exact hchk
      · exact ih best _ hb1 hb2

theorem diffCommonOverlap_cases (t1 t2 : JStr) :
    diffCommonOverlap t1 t2 ≤ min t1.length t2.length ∧
      t1.drop (t1.length - diffCommonOverlap t1 t2) = t2.take (diffCommonOverlap t1 t2) := by
  by_cases hz : t1.length = 0 ∨ t2.length = 0
  · have hv : diffCommonOverlap t1 t2 = 0 := by
      unfold diffCommonOverlap
      rw [if_pos hz]
    rw [hv]
    constructor
    · omega
    · rcases hz with h | h
      · rw [List.eq_nil_of_length_eq_zero h]
        simp
      · rw [List.eq_nil_of_length_eq_zero h]
        simp only [List.take_nil]
        exact List.drop_eq_nil_of_le (by omega)
  · have hz1 : t1.length ≠ 0 := fun h => hz (Or.inl h)
    have hz2 : t2.length ≠ 0 := fun h => hz (Or.inr h)
    set tlen := min t1.length t2.length with htlen
    set t1' := if t1.length > t2.length then
        jsSubstringFrom t1 ((t1.length : Int) - (t2.length : Int)) else t1 with ht1'
    set t2' := if t1.length < t2.length then
        jsSubstring t2 0 (t1.length : Int) else t2 with ht2'
    have hv : diffCommonOverlap t1 t2
        = if t1' = t2' then tlen else commonOverlapLoop t1' t2' tlen (tlen + 2) 0 1 := by
      unfold diffCommonOverlap
      rw [if_neg hz]
    have hlen1 : t1'.length = tlen := by
      rw [ht1']
      split
      · rename_i hgt
        have e : (t1.length : Int) - (t2.length : Int) = ((t1.length - t2.length : Nat) : Int) := by
          omega
        rw [e, jsSubstringFrom_nat, List.length_drop]
        omega
      · rename_i hle
        omega
    have hlen2 : t2'.length = tlen := by
      rw [ht2']
      split
      · rename_i hlt
        rw [jsSubstring_zero_nat, List.length_take]
      · rename_i hge
        omega
    have hdrop1 : ∀ o : Nat, o ≤ tlen → t1'.drop (tlen - o) = t1.drop (t1.length - o) := by
      intro o ho
      rw [ht1']
      split
      · rename_i hgt
        have e : (t1.length : Int) - (t2.length : Int) = ((t1.length - t2.length : Nat) : Int) := by
          omega
        rw [e, jsSubstringFrom_nat, List.drop_drop]
        have e2 : t1.length - t2.length + (tlen - o) = t1.length - o := by omega
        rw [e2]
      · rename_i hle
        have e2 : tlen - o = t1.length - o := by omega
        rw [e2]
    have htake2 : ∀ o : Nat, o ≤ tlen → t2'.take o = t2.take o := by
      intro o ho
      rw [ht2']
      split
      · rw [jsSubstring_zero_nat, List.take_take, min_eq_left (by omega)]
      · rfl
    by_cases heq : t1' = t2'
    · rw [hv, if_pos heq]
      refine ⟨le_refl _, ?_⟩
      have h1 : t1.drop (t1.length - tlen) = t1' := by
        have := hdrop1 tlen (le_refl _)
        simpa using this.symm
      have h2 : t2' = t2.take tlen := by
        have h3 := htake2 tlen (le_refl _)
        rw [List.take_of_length_le (by omega)] at h3
        exact h3
      rw [h1, heq, h2]
    · rw [hv, if_neg heq]
      have hinv2 : t1'.drop (tlen - 0) = t2'.take 0 := by
        simp only [Nat.sub_zero, List.take_zero]
        exact List.drop_eq_nil_of_le (by omega)
      rcases commonOverlapLoop_valid t1' t2' tlen (tlen + 2) 0 1 hlen1 hlen2 heq
        (Nat.zero_le _) hinv2 with ⟨ho1, ho2⟩
      refine ⟨ho1, ?_⟩
      rw [← hdrop1 _ ho1, ← htake2 _ ho1]
      exact ho2

/-! ### Validity of the half match -/

theorem drop_of_take (l : List α) (n m : Nat) :
    (l.take n).drop m = (l.drop m).take (n - m) := by
  induction l generalizing n m with
  | nil => simp
  | cons a l ih =>
    cases n with
    | zero => simp
    | succ n =>
      cases m with
      | zero => simp
      | succ m =>
        simp only [List.take_cons, List.drop_succ_cons, Nat.succ_sub_succ]
        exact ih n m

/-- A half-match record is valid for the pair `(x, y)` when its pieces
reassemble both strings around the common middle. -/
def HMValid (h : HalfMatchData) (x y : JStr) : Prop :=
  h.a1 ++ h.common ++ h.b1 = x ∧ h.a2 ++ h.common ++ h.b2 = y

theorem halfMatchIUpdate_valid (longtext shorttext : JStr) (i : Nat) (j' : Int)
    (best : HalfMatchData) (hi : i ≤ longtext.length) (hpos : 0 ≤ j')
    (hJle : j'.toNat ≤ shorttext.length)
    (hbest : best.common = [] ∨ HMValid best longtext shorttext) :
    (halfMatchIUpdate longtext shorttext i j'
        (diffCommonPrefixLen (jsSubstringFrom longtext (i : Int)) (jsSubstringFrom shorttext j'))
        (diffCommonSuffixLen (jsSubstring longtext 0 (i : Int)) (jsSubstring shorttext 0 j'))
        best).common = [] ∨
      HMValid (halfMatchIUpdate longtext shorttext i j'
        (diffCommonPrefixLen (jsSubstringFrom longtext (i : Int)) (jsSubstringFrom shorttext j'))
        (diffCommonSuffixLen (jsSubstring longtext 0 (i : Int)) (jsSubstring shorttext 0 j'))
        best) longtext shorttext := by
  set J := j'.toNat with hJ
  have hjJ : j' = (J : Int) := by omega
  unfold halfMatchIUpdate
  split
  · rename_i hgrow
    right
    -- the freshly stored record is valid
    set pfl := diffCommonPrefixLen (jsSubstringFrom longtext (i : Int))
      (jsSubstringFrom shorttext j') with hpfl
    set sfl := diffCommonSuffixLen (jsSubstring longtext 0 (i : Int))
      (jsSubstring shorttext 0 j') with hsfl
    have hpfrom1 : jsSubstringFrom longtext (i : Int) = longtext.drop i :=
      jsSubstringFrom_nat longtext i
    have hpfrom2 : jsSubstringFrom shorttext j' = shorttext.drop J := by
      rw [hjJ]
      exact jsSubstringFrom_nat shorttext J
    have hptake1 : jsSubstring longtext 0 (i : Int) = longtext.take i :=
      jsSubstring_zero_nat longtext i
    have hptake2 : jsSubstring shorttext 0 j' = shorttext.take J := by
      rw [hjJ]
      exact jsSubstring_zero_nat shorttext J
    rcases diffCommonPrefixLen_valid (jsSubstringFrom longtext (i : Int))
      (jsSubstringFrom shorttext j') with ⟨hple, hpeq⟩
    rcases diffCommonSuffixLen_valid (jsSubstring longtext 0 (i : Int))
      (jsSubstring shorttext 0 j') with ⟨hsle, hseq⟩
    rw [← hpfl] at hple hpeq
    rw [← hsfl] at hsle hseq
    rw [hpfrom1, hpfrom2] at hple hpeq
    rw [hptake1, hptake2] at hsle hseq
    rw [List.length_drop, List.length_drop] at hple
    rw [List.length_take, List.length_take] at hsle
    have hsfl_i : sfl ≤ i := by omega
    have hsfl_J : sfl ≤ J := by omega
    have hpfl_i : i + pfl ≤ longtext.length := by omega
    have hpfl_J : J + pfl ≤ shorttext.length := by omega
    -- rewrite all five stored substrings into take/drop form
    have e_common : jsSubstring shorttext (j' - (sfl : Int)) j'
          ++ jsSubstring shorttext j' (j' + (pfl : Int))
        = (shorttext.drop (J - sfl)).take sfl ++ (shorttext.drop J).take pfl := by
      rw [hjJ]
      have e1 : (J : Int) - (sfl : Int) = ((J - sfl : Nat) : Int) := by omega
      have e2 : (J : Int) + (pfl : Int) = ((J + pfl : Nat) : Int) := by omega
      rw [e1, e2, jsSubstring_nat shorttext (J - sfl) J (by omega),
        jsSubstring_nat shorttext J (J + pfl) (by omega)]
      have e3 : J - (J - sfl) = sfl := by omega
      have e4 : J + pfl - J = pfl := by omega
      rw [e3, e4]
    have e_a1 : jsSubstring longtext 0 ((i : Int) - (sfl : Int))
        = longtext.take (i - sfl) := by
      have e1 : (i : Int) - (sfl : Int) = ((i - sfl : Nat) : Int) := by omega
      rw [e1, jsSubstring_zero_nat]
    have e_b1 : jsSubstringFrom longtext ((i : Int) + (pfl : Int))
        = longtext.drop (i + pfl) := by
      have e1 : (i : Int) + (pfl : Int) = ((i + pfl : Nat) : Int) := by omega
      rw [e1, jsSubstringFrom_nat]
    have e_a2 : jsSubstring shorttext 0 (j' - (sfl : Int))
        = shorttext.take (J - sfl) := by
      rw [hjJ]
      have e1 : (J : Int) - (sfl : Int) = ((J - sfl : Nat) : Int) := by omega
      rw [e1, jsSubstring_zero_nat]
    have e_b2 : jsSubstringFrom shorttext (j' + (pfl : Int))
        = shorttext.drop (J + pfl) := by
      rw [hjJ]
      have e1 : (J : Int) + (pfl : Int) = ((J + pfl : Nat) : Int) := by omega
      rw [e1, jsSubstringFrom_nat]
    -- the common middle read off the short text equals the one read off the long text
    unfold SuffixEq at hseq
    rw [List.length_take, List.length_take, min_eq_left hi, min_eq_left hJle] at hseq
    rw [drop_of_take, drop_of_take] at hseq
    have e5 : i - (i - sfl) = sfl := by omega
    have e6 : J - (J - sfl) = sfl := by omega
    rw [e5, e6] at hseq
    constructor
    · -- reassemble the long text
      show jsSubstring longtext 0 ((i : Int) - (sfl : Int))
          ++ (jsSubstring shorttext (j' - (sfl : Int)) j'
            ++ jsSubstring shorttext j' (j' + (pfl : Int)))
          ++ jsSubstringFrom longtext ((i : Int) + (pfl : Int)) = longtext
      rw [e_a1, e_b1, e_common, ← hseq, ← hpeq]
      have s1 : longtext.take (i - sfl) ++ (longtext.drop (i - sfl)).take sfl
          = longtext.take i := by
        rw [← List.take_add]
        congr 1
        omega
      have s2 : longtext.take i ++ (longtext.drop i).take pfl
          = longtext.take (i + pfl) := by
        rw [← List.take_add]
      simp only [List.append_assoc]
      rw [← List.append_assoc, s1, ← List.append_assoc, s2, List.take_append_drop]
    · -- reassemble the short text
      show jsSubstring shorttext 0 (j' - (sfl : Int))
          ++ (jsSubstring shorttext (j' - (sfl : Int)) j'
            ++ jsSubstring shorttext j' (j' + (pfl : Int)))
          ++ jsSubstringFrom shorttext (j' + (pfl : Int)) = shorttext
      rw [e_a2, e_b2, e_common]
      have s1 : shorttext.take (J - sfl) ++ (shorttext.drop (J - sfl)).take sfl
          = shorttext.take J := by
        rw [← List.take_add]
        congr 1
        omega
      have s2 : shorttext.take J ++ (shorttext.drop J).take pfl
          = shorttext.take (J + pfl) := by
        rw [← List.take_add]
      simp only [List.append_assoc]
      rw [← List.append_assoc, s1, ← List.append_assoc, s2, List.take_append_drop]
  · exact hbest

theorem halfMatchILoop_valid (longtext shorttext seed : JStr) (i : Nat) (fuel : Nat)
    (j : Int) (best : HalfMatchData) (hi : i ≤ longtext.length)
    (hbest : best.common = [] ∨ HMValid best longtext shorttext) :
    (halfMatchILoop longtext shorttext seed i fuel j best).common = [] ∨
      HMValid (halfMatchILoop longtext shorttext seed i fuel j best) longtext shorttext := by
  induction fuel generalizing j best with
  | zero => exact hbest
  | succ fuel ih =>
    unfold halfMatchILoop
    by_cases hj : jsIndexOf shorttext seed (j + 1) = -1
    · rw [if_pos hj]
      exact hbest
    · rw [if_neg hj]
      refine ih _ _ ?_
      rcases jsIndexOf_cases shorttext seed (j + 1) with hc | ⟨hpos, _⟩
      · exact absurd hc hj
      exact halfMatchIUpdate_valid longtext shorttext i _ best hi hpos
        (jsIndexOf_le_length shorttext seed (j + 1) hpos) hbest

theorem diffHalfMatchI_valid (longtext shorttext : JStr) (i : Nat) (hm : HalfMatchData)
    (hi : i ≤ longtext.length) (h : diffHalfMatchI longtext shorttext i = some hm) :
    hm.common.length * 2 ≥ longtext.length ∧
      (hm.common = [] ∨ HMValid hm longtext shorttext) := by
  unfold diffHalfMatchI halfMatchICheck at h
  split at h
  · rename_i hge
    injection h with h
    subst h
    refine ⟨hge, ?_⟩
    exact halfMatchILoop_valid longtext shorttext _ i _ (-1) _ hi (Or.inl rfl)
  · exact absurd h (by simp)

theorem diffHalfMatchCore_valid (longtext shorttext : JStr) (longerIs1 : Bool)
    (hm : HalfMatchData) (h : diffHalfMatchCore longtext shorttext longerIs1 = some hm) :
    (if longerIs1 then
      hm.a1 ++ hm.common ++ hm.b1 = longtext ∧ hm.a2 ++ hm.common ++ hm.b2 = shorttext
    else
      hm.a1 ++ hm.common ++ hm.b1 = shorttext ∧ hm.a2 ++ hm.common ++ hm.b2 = longtext) := by
  unfold diffHalfMatchCore at h
  split at h
  · exact absurd h (by simp)
  rename_i hlen
  push_neg at hlen
  have hq : (longtext.length + 3) / 4 ≤ longtext.length := by omega
  have hh : (longtext.length + 1) / 2 ≤ longtext.length := by omega
  have key : ∀ hm' : HalfMatchData,
      (diffHalfMatchI longtext shorttext ((longtext.length + 3) / 4) = some hm' ∨
        diffHalfMatchI longtext shorttext ((longtext.length + 1) / 2) = some hm') →
      HMValid hm' longtext shorttext := by
    intro hm' hcase
    have hv : hm'.common.length * 2 ≥ longtext.length ∧
        (hm'.common = [] ∨ HMValid hm' longtext shorttext) := by
      rcases hcase with hc | hc
      · exact diffHalfMatchI_valid longtext shorttext _ hm' hq hc
      · exact diffHalfMatchI_valid longtext shorttext _ hm' hh hc
    rcases hv with ⟨hv1, hv2 | hv2⟩
    · rw [hv2] at hv1
      simp only [List.length_nil] at hv1
      omega
    · exact hv2
  have hpick : ∀ hm' : HalfMatchData,
      diffHalfMatchPick (diffHalfMatchI longtext shorttext ((longtext.length + 3) / 4))
        (diffHalfMatchI longtext shorttext ((longtext.length + 1) / 2)) = some hm' →
      HMValid hm' longtext shorttext := by
    intro hm' hp
    rcases hm1c : diffHalfMatchI longtext shorttext ((longtext.length + 3) / 4) with _ | h1 <;>
      rcases hm2c : diffHalfMatchI longtext shorttext ((longtext.length + 1) / 2) with _ | h2 <;>
      rw [hm1c, hm2c] at hp <;> unfold diffHalfMatchPick at hp
    · exact absurd hp (by simp)
    · injection hp with hp
      subst hp
      exact key h2 (Or.inr hm2c)
    · injection hp with hp
      subst hp
      exact key h1 (Or.inl hm1c)
    · injection hp with hp
      subst hp
      split
      · exact key h1 (Or.inl hm1c)
      · exact key h2 (Or.inr hm2c)
  rcases hpc : diffHalfMatchPick (diffHalfMatchI longtext shorttext ((longtext.length + 3) / 4))
      (diffHalfMatchI longtext shorttext ((longtext.length + 1) / 2)) with _ | hm' <;>
    rw [hpc] at h
  · exact absurd h (by simp [diffHalfMatchOrient])
  · have hv := hpick hm' hpc
    have hdef : diffHalfMatchOrient longerIs1 (some hm')
        = if longerIs1 then some hm'
          else some { a1 := hm'.a2, b1 := hm'.b2, a2 := hm'.a1, b2 := hm'.b1, common := hm'.common } := rfl
    rw [hdef] at h
    cases longerIs1 with
    | true =>
      rw [if_pos rfl] at h
      injection h with h
      subst h
      rw [if_pos rfl]
      exact hv
    | false =>
      rw [if_neg (by simp)] at h
      injection h with h
      subst h
      rw [if_neg (by simp)]
      exact ⟨hv.2, hv.1⟩

theorem diffHalfMatch_valid (text1 text2 : JStr) (opts : DMPOptions) (hm : HalfMatchData)
    (h : diffHalfMatch text1 text2 opts = some hm) :
    hm.a1 ++ hm.common ++ hm.b1 = text1 ∧ hm.a2 ++ hm.common ++ hm.b2 = text2 := by
  unfold diffHalfMatch at h
  split at h
  · exact absurd h (by simp)
  split at h
  · have hv := diffHalfMatchCore_valid text1 text2 true hm h
    rw [if_pos rfl] at hv
    exact hv
  · have hv := diffHalfMatchCore_valid text2 text1 false hm h
    rw [if_neg (by simp)] at hv
    exact hv

/-! ### List-surgery lemmas for the cleanup passes -/

theorem jsGetD_at (P Q : List Diff) (x : Diff) : jsGetD (P ++ x :: Q) P.length = x := by
  unfold jsGetD
  rw [List.getD_append_right]
  · simp
  · simp

theorem set_at (P Q : List α) (x y : α) : (P ++ x :: Q).set P.length y = P ++ y :: Q := by
  induction P with
  | nil => rfl
  | cons a P ih => simp [ih]

theorem setText_at (P Q : List Diff) (op : DiffOp) (s t : JStr) :
    setText (P ++ (op, s) :: Q) P.length t = P ++ (op, t) :: Q := by
  unfold setText
  rw [jsGetD_at]
  exact set_at P Q _ _

theorem splice_at (P W Q ins : List Diff) (cnt : Nat) (hW : W.length = cnt) :
    splice (P ++ W ++ Q) P.length cnt ins = P ++ ins ++ Q := by
  unfold splice
  have h1 : (P ++ W ++ Q).take P.length = P := by
    rw [List.append_assoc]
    exact List.take_left P (W ++ Q)
  have h2 : (P ++ W ++ Q).drop (P.length + cnt) = Q := by
    rw [← hW]
    have e : P.length + W.length = (P ++ W).length := by simp
    rw [e]
    exact List.drop_left (P ++ W) Q
  rw [h1, h2]

theorem length_lt_of_decomp (P Q : List Diff) (x : Diff) :
    P.length < (P ++ x :: Q).length := by
  simp

/-- Decompose a list at a valid index `p` into
`take p ++ [element at p] ++ drop (p+1)`. -/
theorem decomp_at (l : List Diff) (p : Nat) (hp : p < l.length) :
    l = l.take p ++ jsGetD l p :: l.drop (p + 1) ∧ (l.take p).length = p := by
  constructor
  · conv_lhs => rw [← List.take_append_drop p l]
    congr 1
    rw [List.drop_eq_getElem_cons hp]
    congr 1
    unfold jsGetD
    rw [List.getD_eq_getElem l _ hp]
  · rw [List.length_take]
    omega

@[simp] theorem diffText1_cons_del (t : JStr) (rest : List Diff) :
    diffText1 ((DiffOp.delete, t) :: rest) = t ++ diffText1 rest := rfl

@[simp] theorem diffText1_cons_ins (t : JStr) (rest : List Diff) :
    diffText1 ((DiffOp.insert, t) :: rest) = diffText1 rest := rfl

@[simp] theorem diffText1_cons_equal (t : JStr) (rest : List Diff) :
    diffText1 ((DiffOp.equal, t) :: rest) = t ++ diffText1 rest := rfl

@[simp] theorem diffText2_cons_del (t : JStr) (rest : List Diff) :
    diffText2 ((DiffOp.delete, t) :: rest) = diffText2 rest := rfl

@[simp] theorem diffText2_cons_ins (t : JStr) (rest : List Diff) :
    diffText2 ((DiffOp.insert, t) :: rest) = t ++ diffText2 rest := rfl

@[simp] theorem diffText2_cons_equal (t : JStr) (rest : List Diff) :
    diffText2 ((DiffOp.equal, t) :: rest) = t ++ diffText2 rest := rfl

theorem splice_zero (l ins : List Diff) : splice l 0 0 ins = ins ++ l := by
  unfold splice
  simp

/-! ### Preservation of the reconstructed texts by `diffCleanupMerge` -/

theorem cleanupMergeFactorPre_spec (A W B : List Diff) (q td ti : JStr) (cd ci : Nat)
    (hW : W.length = cd + ci)
    (hA : A = [] ∨ ∃ A' e, A = A' ++ [(DiffOp.equal, e)]) :
    ∃ A1 p1 ti1 td1,
      cleanupMergeFactorPre (A ++ W ++ (DiffOp.equal, q) :: B) (A.length + W.length) cd ci td ti
        = (A1 ++ W ++ (DiffOp.equal, q) :: B, p1, ti1, td1) ∧
      p1 = A1.length + W.length ∧
      diffText1 A1 ++ td1 = diffText1 A ++ td ∧
      diffText2 A1 ++ ti1 = diffText2 A ++ ti := by
  unfold cleanupMergeFactorPre
  rcases diffCommonPrefixLen_valid ti td with ⟨hcle, hceq⟩
  by_cases hcl : diffCommonPrefixLen ti td ≠ 0
  · rw [if_pos hcl]
    set cl := diffCommonPrefixLen ti td with hcldef
    have hsub1 : jsSubstring ti 0 (cl : Int) = ti.take cl := jsSubstring_zero_nat ti cl
    have hsub2 : jsSubstringFrom ti (cl : Int) = ti.drop cl := jsSubstringFrom_nat ti cl
    have hsub3 : jsSubstringFrom td (cl : Int) = td.drop cl := jsSubstringFrom_nat td cl
    rcases hA with hA | ⟨A', e, hA⟩
    · subst hA
      rw [if_neg (by intro hcon; rcases hcon with ⟨h1, _⟩; simp at h1; omega)]
      refine ⟨[(DiffOp.equal, ti.take cl)], (List.length ([] : List Diff)) + W.length + 1,
        ti.drop cl, td.drop cl, ?_, ?_, ?_, ?_⟩
      · rw [hsub1, hsub2, hsub3, splice_zero]
        rfl
      · simp
        omega
      · simp only [diffText1_cons_equal, diffText1_nil, List.append_nil, List.nil_append]
        rw [hceq, List.take_append_drop]
      · simp only [diffText2_cons_equal, diffText2_nil, List.append_nil, List.nil_append]
        rw [List.take_append_drop]
    · subst hA
      have hidx : (A' ++ [(DiffOp.equal, e)]).length + W.length - cd - ci - 1 = A'.length := by
        simp only [List.length_append, List.length_cons, List.length_nil]
        omega
      have hassoc : (A' ++ [(DiffOp.equal, e)]) ++ W ++ (DiffOp.equal, q) :: B
          = A' ++ (DiffOp.equal, e) :: (W ++ (DiffOp.equal, q) :: B) := by
        simp
      rw [hidx, hassoc, jsGetD_at]
      rw [if_pos ⟨by simp; omega, rfl⟩]
      rw [setText_at]
      refine ⟨A' ++ [(DiffOp.equal, e ++ ti.take cl)],
        (A' ++ [((DiffOp.equal : DiffOp), e)]).length + W.length,
        ti.drop cl, td.drop cl, ?_, ?_, ?_, ?_⟩
      · rw [hsub1, hsub2, hsub3]
        have hshape : A' ++ (DiffOp.equal, e ++ ti.take cl) :: (W ++ (DiffOp.equal, q) :: B)
            = (A' ++ [(DiffOp.equal, e ++ ti.take cl)]) ++ W ++ (DiffOp.equal, q) :: B := by
          simp
        rw [hshape]
      · simp
      · rw [diffText1_append, diffText1_append]
        simp only [diffText1_cons_equal, diffText1_nil, List.append_nil]
        rw [List.append_assoc, List.append_assoc, hceq, List.append_assoc,
          List.take_append_drop]
      · rw [diffText2_append, diffText2_append]
        simp only [diffText2_cons_equal, diffText2_nil, List.append_nil]
        rw [List.append_assoc, List.append_assoc, List.append_assoc,
          List.take_append_drop]
  · rw [if_neg hcl]
    exact ⟨A, A.length + W.length, ti, td, rfl, rfl, rfl, rfl⟩

theorem cleanupMergeFactorSuf_spec (C W B : List Diff) (q ti td : JStr) :
    ∃ q1 ti1 td1,
      cleanupMergeFactorSuf (C ++ W ++ (DiffOp.equal, q) :: B, C.length + W.length, ti, td)
        = (C ++ W ++ (DiffOp.equal, q1) :: B, C.length + W.length, ti1, td1) ∧
      td1 ++ q1 = td ++ q ∧ ti1 ++ q1 = ti ++ q := by
  simp only [cleanupMergeFactorSuf]
  rcases diffCommonSuffixLen_valid ti td with ⟨hsle, hseq⟩
  by_cases hsl : diffCommonSuffixLen ti td ≠ 0
  · rw [if_pos hsl]
    set sl := diffCommonSuffixLen ti td with hsldef
    have e1 : (ti.length : Int) - (sl : Int) = ((ti.length - sl : Nat) : Int) := by omega
    have hsubS : jsSubstringFrom ti ((ti.length : Int) - (sl : Int))
        = ti.drop (ti.length - sl) := by
      rw [e1, jsSubstringFrom_nat]
    have hsubI : jsSubstring ti 0 ((ti.length : Int) - (sl : Int))
        = ti.take (ti.length - sl) := by
      rw [e1, jsSubstring_zero_nat]
    have e2 : (td.length : Int) - (sl : Int) = ((td.length - sl : Nat) : Int) := by omega
    have hsubD : jsSubstring td 0 ((td.length : Int) - (sl : Int))
        = td.take (td.length - sl) := by
      rw [e2, jsSubstring_zero_nat]
    have hassoc : C ++ W ++ (DiffOp.equal, q) :: B
        = (C ++ W) ++ (DiffOp.equal, q) :: B := by
      simp
    have hlen : (C ++ W).length = C.length + W.length := by simp
    rw [hassoc, ← hlen, jsGetD_at, setText_at]
    unfold SuffixEq at hseq
    refine ⟨ti.drop (ti.length - sl) ++ q, ti.take (ti.length - sl), td.take (td.length - sl),
      ?_, ?_, ?_⟩
    · rw [hsubS, hsubI, hsubD, hlen]
    · rw [hseq, ← List.append_assoc, List.take_append_drop]
    · rw [← List.append_assoc, List.take_append_drop]
  · rw [if_neg hsl]
    exact ⟨q, ti, td, rfl, rfl, rfl⟩

theorem diffText1_del_opt (t : JStr) :
    diffText1 (if t ≠ [] then [createDiff DiffOp.delete t] else []) = t := by
  split <;> simp_all [createDiff]

theorem diffText1_ins_opt (t : JStr) :
    diffText1 (if t ≠ [] then [createDiff DiffOp.insert t] else []) = [] := by
  split <;> simp [createDiff]

theorem diffText2_del_opt (t : JStr) :
    diffText2 (if t ≠ [] then [createDiff DiffOp.delete t] else []) = [] := by
  split <;> simp [createDiff]

theorem diffText2_ins_opt (t : JStr) :
    diffText2 (if t ≠ [] then [createDiff DiffOp.insert t] else []) = t := by
  split <;> simp_all [createDiff]

theorem cleanupMergeCommitCore_eq (d : List Diff) (p : Nat) (ti1 td1 : JStr) (cd ci : Nat) :
    cleanupMergeCommitCore (d, p, ti1, td1) cd ci
      = (splice d (p - (cd + ci)) (cd + ci)
          ((if td1 ≠ [] then [createDiff DiffOp.delete td1] else [])
            ++ (if ti1 ≠ [] then [createDiff DiffOp.insert ti1] else [])),
        p - (cd + ci)
          + (if td1 ≠ [] then 1 else 0) + (if ti1 ≠ [] then 1 else 0) + 1) := rfl

theorem cleanupMergeCommit_spec (A W B : List Diff) (q td ti : JStr) (cd ci : Nat)
    (hW : W.length = cd + ci) (hT1 : diffText1 W = td) (hT2 : diffText2 W = ti)
    (hA : A = [] ∨ ∃ A' e, A = A' ++ [(DiffOp.equal, e)]) :
    ∃ A2 q2,
      cleanupMergeCommit (A ++ W ++ (DiffOp.equal, q) :: B) (A.length + W.length) cd ci td ti
        = (A2 ++ (DiffOp.equal, q2) :: B, A2.length + 1) ∧
      diffText1 (A2 ++ (DiffOp.equal, q2) :: B)
        = diffText1 (A ++ W ++ (DiffOp.equal, q) :: B) ∧
      diffText2 (A2 ++ (DiffOp.equal, q2) :: B)
        = diffText2 (A ++ W ++ (DiffOp.equal, q) :: B) := by
  have hfact : ∃ A1 q1 ti1 td1,
      (if cd ≠ 0 ∧ ci ≠ 0 then
        cleanupMergeFactorSuf
          (cleanupMergeFactorPre (A ++ W ++ (DiffOp.equal, q) :: B)
            (A.length + W.length) cd ci td ti)
      else (A ++ W ++ (DiffOp.equal, q) :: B, A.length + W.length, ti, td))
        = (A1 ++ W ++ (DiffOp.equal, q1) :: B, A1.length + W.length, ti1, td1) ∧
      diffText1 A1 ++ (td1 ++ q1) = diffText1 A ++ (td ++ q) ∧
      diffText2 A1 ++ (ti1 ++ q1) = diffText2 A ++ (ti ++ q) := by
    by_cases hboth : cd ≠ 0 ∧ ci ≠ 0
    · rw [if_pos hboth]
      rcases cleanupMergeFactorPre_spec A W B q td ti cd ci hW hA with
        ⟨A1, p1, tiP, tdP, hpre, hp1, hpre1, hpre2⟩
      rw [hpre, hp1]
      rcases cleanupMergeFactorSuf_spec A1 W B q tiP tdP with
        ⟨q1, ti1, td1, hsuf, hsuf1, hsuf2⟩
      rw [hsuf]
      refine ⟨A1, q1, ti1, td1, rfl, ?_, ?_⟩
      · rw [hsuf1, ← List.append_assoc, hpre1, List.append_assoc]
      · rw [hsuf2, ← List.append_assoc, hpre2, List.append_assoc]
    · rw [if_neg hboth]
      exact ⟨A, q, ti, td, rfl, rfl, rfl⟩
  rcases hfact with ⟨A1, q1, ti1, td1, hfeq, hf1, hf2⟩
  unfold cleanupMergeCommit
  rw [hfeq, cleanupMergeCommitCore_eq]
  have e : A1.length + W.length - (cd + ci) = A1.length := by omega
  have hsp : splice (A1 ++ W ++ (DiffOp.equal, q1) :: B) (A1.length + W.length - (cd + ci))
      (cd + ci)
      ((if td1 ≠ [] then [createDiff DiffOp.delete td1] else [])
        ++ (if ti1 ≠ [] then [createDiff DiffOp.insert ti1] else []))
      = A1 ++ ((if td1 ≠ [] then [createDiff DiffOp.delete td1] else [])
        ++ (if ti1 ≠ [] then [createDiff DiffOp.insert ti1] else []))
        ++ (DiffOp.equal, q1) :: B := by
    rw [e]
    exact splice_at A1 W ((DiffOp.equal, q1) :: B)
      ((if td1 ≠ [] then [createDiff DiffOp.delete td1] else [])
        ++ (if ti1 ≠ [] then [createDiff DiffOp.insert ti1] else [])) (cd + ci) hW
  refine ⟨A1 ++ ((if td1 ≠ [] then [createDiff DiffOp.delete td1] else [])
      ++ (if ti1 ≠ [] then [createDiff DiffOp.insert ti1] else [])), q1, ?_, ?_, ?_⟩
  · rw [hsp, e]
    have elen : (A1 ++ ((if td1 ≠ [] then [createDiff DiffOp.delete td1] else [])
        ++ (if ti1 ≠ [] then [createDiff DiffOp.insert ti1] else []))).length
        = A1.length + ((if td1 ≠ [] then 1 else 0) + (if ti1 ≠ [] then 1 else 0)) := by
      rw [List.length_append, List.length_append]
      congr 1
      split <;> split <;> simp
    rw [elen]
    simp only [Prod.mk.injEq]
    refine ⟨?_, ?_⟩
    · simp [List.append_assoc]
    · omega
  · have hx := congrArg (fun l => l ++ diffText1 B) hf1
    simp only [List.append_assoc] at hx
    simp only [diffText1_append, diffText1_cons_equal, diffText1_del_opt, diffText1_ins_opt,
      hT1, List.append_assoc, List.append_nil, List.nil_append]
    exact hx
  · have hx := congrArg (fun l => l ++ diffText2 B) hf2
    simp only [List.append_assoc] at hx
    simp only [diffText2_append, diffText2_cons_equal, diffText2_del_opt, diffText2_ins_opt,
      hT2, List.append_assoc, List.append_nil, List.nil_append]
    exact hx

/-- The first pass of `diffCleanupMerge` preserves both reconstructed
texts.  The invariant carried through the scan: the list splits as
`A ++ W ++ rest` where `W` is the run of DELETE/INSERT entries currently
scanned (whose texts are the accumulators), the pointer sits at the end
of `W`, and `A` is empty or ends in an EQUAL entry. -/
theorem cleanupMergeLoop1_preserves (fuel : Nat) :
    ∀ (diffs : List Diff) (pointer cd ci : Nat) (td ti : JStr),
    (∃ A W rest, diffs = A ++ W ++ rest ∧ pointer = A.length + W.length ∧
      W.length = cd + ci ∧ diffText1 W = td ∧ diffText2 W = ti ∧
      (A = [] ∨ ∃ A' e, A = A' ++ [(DiffOp.equal, e)])) →
    diffText1 (cleanupMergeLoop1 fuel diffs pointer cd ci td ti) = diffText1 diffs ∧
    diffText2 (cleanupMergeLoop1 fuel diffs pointer cd ci td ti) = diffText2 diffs := by
  induction fuel with
  | zero => intro diffs pointer cd ci td ti _; exact ⟨rfl, rfl⟩
  | succ fuel ih =>
    intro diffs pointer cd ci td ti hinv
    rcases hinv with ⟨A, W, rest, hd, hp, hW, hT1, hT2, hA⟩
    simp only [cleanupMergeLoop1]
    by_cases hlt : pointer < diffs.length
    · rw [if_pos hlt]
      have hlen : diffs.length = A.length + W.length + rest.length := by
        rw [hd]; simp only [List.length_append]
      cases rest with
      | nil =>
        exfalso
        simp only [List.length_nil] at hlen
        omega
      | cons cur B =>
        obtain ⟨op, t⟩ := cur
        have hcur : jsGetD diffs pointer = (op, t) := by
          rw [hd, hp]
          have e : A.length + W.length = (A ++ W).length := by simp
          rw [e]
          exact jsGetD_at (A ++ W) B (op, t)
        rw [hcur]
        cases op with
        | insert =>
          rw [if_pos (rfl : ((DiffOp.insert, t) : Diff).1 = DiffOp.insert)]
          exact ih diffs (pointer + 1) cd (ci + 1) td (ti ++ t)
            ⟨A, W ++ [(DiffOp.insert, t)], B,
              by rw [hd]; simp,
              by simp only [List.length_append, List.length_cons, List.length_nil]; omega,
              by simp only [List.length_append, List.length_cons, List.length_nil]; omega,
              by rw [diffText1_append, hT1]; simp,
              by rw [diffText2_append, hT2]; simp,
              hA⟩
        | delete =>
          have hne1 : ¬ ((DiffOp.delete, t) : Diff).1 = DiffOp.insert := by simp
          rw [if_neg hne1, if_pos (rfl : ((DiffOp.delete, t) : Diff).1 = DiffOp.delete)]
          exact ih diffs (pointer + 1) (cd + 1) ci (td ++ t) ti
            ⟨A, W ++ [(DiffOp.delete, t)], B,
              by rw [hd]; simp,
              by simp only [List.length_append, List.length_cons, List.length_nil]; omega,
              by simp only [List.length_append, List.length_cons, List.length_nil]; omega,
              by rw [diffText1_append, hT1]; simp,
              by rw [diffText2_append, hT2]; simp,
              hA⟩
        | equal =>
          have hne1 : ¬ ((DiffOp.equal, t) : Diff).1 = DiffOp.insert := by simp
          have hne2 : ¬ ((DiffOp.equal, t) : Diff).1 = DiffOp.delete := by simp
          rw [if_neg hne1, if_neg hne2]
          by_cases hgt : cd + ci > 1
          · rw [if_pos hgt]
            rcases cleanupMergeCommit_spec A W B t td ti cd ci hW hT1 hT2 hA with
              ⟨A2, q2, hcommit, hc1, hc2⟩
            rw [hd, hp, hcommit]
            obtain ⟨h1, h2⟩ := ih (A2 ++ (DiffOp.equal, q2) :: B) (A2.length + 1) 0 0 [] []
              ⟨A2 ++ [(DiffOp.equal, q2)], [], B, by simp, by simp, rfl, rfl, rfl,
                Or.inr ⟨A2, q2, rfl⟩⟩
            exact ⟨h1.trans hc1, h2.trans hc2⟩
          · rw [if_neg hgt]
            by_cases hmerge : pointer ≠ 0 ∧ (jsGetD diffs (pointer - 1)).1 = DiffOp.equal
            · rw [if_pos hmerge]
              cases W with
              | nil =>
                rcases hA with hA0 | ⟨A', e, hAe⟩
                · exfalso
                  apply hmerge.1
                  rw [hp, hA0]
                  rfl
                · have hd2 : diffs = A' ++ (DiffOp.equal, e) :: (DiffOp.equal, t) :: B := by
                    rw [hd, hAe]; simp
                  have hptr : pointer = A'.length + 1 := by
                    rw [hp, hAe]; simp
                  have hprev : jsGetD diffs (pointer - 1) = (DiffOp.equal, e) := by
                    rw [hd2, hptr]
                    simp only [Nat.add_sub_cancel]
                    exact jsGetD_at A' ((DiffOp.equal, t) :: B) (DiffOp.equal, e)
                  have hval : (jsGetD diffs (pointer - 1)).2 ++ ((DiffOp.equal, t) : Diff).2
                      = e ++ t := by rw [hprev]
                  rw [hval, hd2, hptr]
                  simp only [Nat.add_sub_cancel]
                  rw [setText_at A' ((DiffOp.equal, t) :: B) DiffOp.equal e (e ++ t)]
                  have hsp : splice (A' ++ (DiffOp.equal, e ++ t) :: (DiffOp.equal, t) :: B)
                      (A'.length + 1) 1 []
                      = A' ++ (DiffOp.equal, e ++ t) :: B := by
                    have := splice_at (A' ++ [(DiffOp.equal, e ++ t)]) [(DiffOp.equal, t)] B [] 1
                      rfl
                    simpa using this
                  rw [hsp]
                  obtain ⟨h1, h2⟩ := ih (A' ++ (DiffOp.equal, e ++ t) :: B) (A'.length + 1)
                    0 0 [] []
                    ⟨A' ++ [(DiffOp.equal, e ++ t)], [], B, by simp, by simp, rfl, rfl, rfl,
                      Or.inr ⟨A', e ++ t, rfl⟩⟩
                  refine ⟨h1.trans ?_, h2.trans ?_⟩
                  · simp [diffText1_append, List.append_assoc]
                  · simp [diffText2_append, List.append_assoc]
              | cons w W' =>
                cases W' with
                | nil =>
                  obtain ⟨wop, wt⟩ := w
                  have hd2 : diffs = A ++ (wop, wt) :: (DiffOp.equal, t) :: B := by
                    rw [hd]; simp
                  have hptr : pointer = A.length + 1 := by
                    rw [hp]; simp
                  have hprev : jsGetD diffs (pointer - 1) = (wop, wt) := by
                    rw [hd2, hptr]
                    simp only [Nat.add_sub_cancel]
                    exact jsGetD_at A ((DiffOp.equal, t) :: B) (wop, wt)
                  have hwop : wop = DiffOp.equal := by
                    have hm2 := hmerge.2
                    rw [hprev] at hm2
                    exact hm2
                  subst hwop
                  have hval : (jsGetD diffs (pointer - 1)).2 ++ ((DiffOp.equal, t) : Diff).2
                      = wt ++ t := by rw [hprev]
                  rw [hval, hd2, hptr]
                  simp only [Nat.add_sub_cancel]
                  rw [setText_at A ((DiffOp.equal, t) :: B) DiffOp.equal wt (wt ++ t)]
                  have hsp : splice (A ++ (DiffOp.equal, wt ++ t) :: (DiffOp.equal, t) :: B)
                      (A.length + 1) 1 []
                      = A ++ (DiffOp.equal, wt ++ t) :: B := by
                    have := splice_at (A ++ [(DiffOp.equal, wt ++ t)]) [(DiffOp.equal, t)] B [] 1
                      rfl
                    simpa using this
                  rw [hsp]
                  obtain ⟨h1, h2⟩ := ih (A ++ (DiffOp.equal, wt ++ t) :: B) (A.length + 1)
                    0 0 [] []
                    ⟨A ++ [(DiffOp.equal, wt ++ t)], [], B, by simp, by simp, rfl, rfl, rfl,
                      Or.inr ⟨A, wt ++ t, rfl⟩⟩
                  refine ⟨h1.trans ?_, h2.trans ?_⟩
                  · simp [diffText1_append, List.append_assoc]
                  · simp [diffText2_append, List.append_assoc]
                | cons w2 W'' =>
                  exfalso
                  simp only [List.length_cons] at hW
                  omega
            · rw [if_neg hmerge]
              exact ih diffs (pointer + 1) 0 0 [] []
                ⟨(A ++ W) ++ [(DiffOp.equal, t)], [], B,
                  by rw [hd]; simp,
                  by rw [hp]; simp only [List.length_append, List.length_cons,
                    List.length_nil],
                  rfl, rfl, rfl,
                  Or.inr ⟨A ++ W, t, rfl⟩⟩
    · rw [if_neg hlt]
      exact ⟨rfl, rfl⟩

/-- Popping the still-empty trailing dummy entry preserves both texts. -/
theorem cleanupMergePop_preserves (diffs : List Diff) :
    diffText1 (cleanupMergePop diffs) = diffText1 diffs ∧
    diffText2 (cleanupMergePop diffs) = diffText2 diffs := by
  unfold cleanupMergePop
  by_cases h : (jsGetD diffs (diffs.length - 1)).2 = []
  · rw [if_pos h]
    rcases List.eq_nil_or_concat diffs with h0 | ⟨L, b, hb⟩
    · subst h0; exact ⟨rfl, rfl⟩
    · rw [List.concat_eq_append] at hb
      subst hb
      have hlen : (L ++ [b]).length - 1 = L.length := by simp
      have hget : jsGetD (L ++ [b]) ((L ++ [b]).length - 1) = b := by
        rw [hlen]; exact jsGetD_at L [] b
      rw [hget] at h
      have htake : (L ++ [b]).take ((L ++ [b]).length - 1) = L := by
        rw [hlen]; exact List.take_left L [b]
      rw [htake]
      obtain ⟨op, t⟩ := b
      have ht : t = [] := h
      subst ht
      constructor
      · rw [diffText1_append]; cases op <;> simp
      · rw [diffText2_append]; cases op <;> simp
  · rw [if_neg h]; exact ⟨rfl, rfl⟩

theorem jsSubstring_zero_nonpos (s : JStr) (b : Int) (hb : b ≤ 0) :
    jsSubstring s 0 b = [] := by
  unfold jsSubstring
  have h1 : clampIdx s.length 0 = 0 := by unfold clampIdx; omega
  have h2 : clampIdx s.length b = 0 := by unfold clampIdx; omega
  rw [h1, h2]
  simp

/-- When a string's one-argument substring from `length − k` equals `pt`,
the string decomposes as its substring up to that point followed by
`pt`.  (Clamping covers the case `|pt| > |ct|`, where the hypothesis
forces `pt = ct`.) -/
theorem subFrom_suffix_decomp (ct pt : JStr)
    (h : jsSubstringFrom ct ((ct.length : Int) - (pt.length : Int)) = pt) :
    jsSubstring ct 0 ((ct.length : Int) - (pt.length : Int)) ++ pt = ct := by
  rcases le_or_lt pt.length ct.length with hle | hgt
  · have hcast : ((ct.length : Int) - (pt.length : Int))
        = ((ct.length - pt.length : Nat) : Int) := by omega
    rw [hcast] at h ⊢
    rw [jsSubstringFrom_nat] at h
    rw [jsSubstring_zero_nat]
    conv_lhs => rhs; rw [← h]
    exact List.take_append_drop _ ct
  · have hneg : ((ct.length : Int) - (pt.length : Int)) ≤ 0 := by omega
    rw [jsSubstringFrom_nonpos ct _ hneg] at h
    rw [jsSubstring_zero_nonpos ct _ hneg]
    simpa using h.symm

/-- When a string's substring of the first `|nt|` units equals `nt`, the
string decomposes as `nt` followed by the rest. -/
theorem sub_take_decomp (ct nt : JStr)
    (h : jsSubstring ct 0 ((nt.length : Int)) = nt) :
    nt ++ jsSubstringFrom ct ((nt.length : Int)) = ct := by
  rw [jsSubstring_zero_nat] at h
  rw [jsSubstringFrom_nat]
  conv_lhs => lhs; rw [← h]
  exact List.take_append_drop _ ct

theorem setText_fst_at (P Q : List Diff) (x : Diff) (t : JStr) :
    setText (P ++ x :: Q) P.length t = P ++ (x.1, t) :: Q := by
  unfold setText
  rw [jsGetD_at]
  exact set_at P Q _ _

/-- Text preservation of the second-pass left slide: the single edit
absorbs the preceding equality, which is re-appended to the following
equality. -/
theorem slideLeft_texts (P Q : List Diff) (pop cop nop : DiffOp) (pt nt s : JStr)
    (hpop : pop = DiffOp.equal) (hnop : nop = DiffOp.equal) :
    diffText1 (P ++ (cop, pt ++ s) :: (nop, pt ++ nt) :: Q)
      = diffText1 (P ++ (pop, pt) :: (cop, s ++ pt) :: (nop, nt) :: Q) ∧
    diffText2 (P ++ (cop, pt ++ s) :: (nop, pt ++ nt) :: Q)
      = diffText2 (P ++ (pop, pt) :: (cop, s ++ pt) :: (nop, nt) :: Q) := by
  subst hpop
  subst hnop
  constructor <;> cases cop <;>
    simp [diffText1_append, diffText2_append, List.append_assoc]

/-- Text preservation of the second-pass right slide: the single edit
absorbs the following equality, which is pre-pended to the preceding
equality. -/
theorem slideRight_texts (P Q : List Diff) (pop cop nop : DiffOp) (pt nt d : JStr)
    (hpop : pop = DiffOp.equal) (hnop : nop = DiffOp.equal) :
    diffText1 (P ++ (pop, pt ++ nt) :: (cop, d ++ nt) :: Q)
      = diffText1 (P ++ (pop, pt) :: (cop, nt ++ d) :: (nop, nt) :: Q) ∧
    diffText2 (P ++ (pop, pt ++ nt) :: (cop, d ++ nt) :: Q)
      = diffText2 (P ++ (pop, pt) :: (cop, nt ++ d) :: (nop, nt) :: Q) := by
  subst hpop
  subst hnop
  constructor <;> cases cop <;>
    simp [diffText1_append, diffText2_append, List.append_assoc]

/-- The second pass of `diffCleanupMerge` preserves both reconstructed
texts, for any starting pointer that is at least 1 (the source starts
at 1 and never decreases the pointer below 1). -/
theorem cleanupMergeLoop2_preserves (fuel : Nat) :
    ∀ (diffs : List Diff) (pointer : Nat) (changes : Bool), 1 ≤ pointer →
    diffText1 (cleanupMergeLoop2 fuel diffs pointer changes).1 = diffText1 diffs ∧
    diffText2 (cleanupMergeLoop2 fuel diffs pointer changes).1 = diffText2 diffs := by
  induction fuel with
  | zero => intro diffs pointer changes _; exact ⟨rfl, rfl⟩
  | succ fuel ih =>
    intro diffs pointer changes hptr
    simp only [cleanupMergeLoop2]
    by_cases hlt : pointer + 1 < diffs.length
    · rw [if_pos hlt]
      obtain ⟨P, R, hPR, hPlen⟩ : ∃ P R, diffs = P ++ R ∧ P.length = pointer - 1 :=
        ⟨diffs.take (pointer - 1), diffs.drop (pointer - 1),
          (List.take_append_drop _ _).symm, by rw [List.length_take]; omega⟩
      have hRlen : 3 ≤ R.length := by
        have hdl : diffs.length = P.length + R.length := by rw [hPR]; simp
        omega
      rcases R with _ | ⟨prev, R⟩
      · exfalso; simp at hRlen
      rcases R with _ | ⟨cur, R⟩
      · exfalso; simp at hRlen
      rcases R with _ | ⟨next, Q⟩
      · exfalso; simp at hRlen
      subst hPR
      have e1 : P ++ prev :: cur :: next :: Q = (P ++ [prev]) ++ cur :: next :: Q := by
        simp
      have ep : pointer = (P ++ [prev]).length := by
        simp only [List.length_append, List.length_cons, List.length_nil]; omega
      have e2 : P ++ prev :: cur :: next :: Q = (P ++ [prev, cur]) ++ next :: Q := by
        simp
      have ep2 : pointer + 1 = (P ++ [prev, cur]).length := by
        simp only [List.length_append, List.length_cons, List.length_nil]; omega
      have hprev : jsGetD (P ++ prev :: cur :: next :: Q) (pointer - 1) = prev := by
        rw [← hPlen]
        exact jsGetD_at P (cur :: next :: Q) prev
      have hcur : jsGetD (P ++ prev :: cur :: next :: Q) pointer = cur := by
        rw [e1, ep]
        exact jsGetD_at (P ++ [prev]) (next :: Q) cur
      have hnext : jsGetD (P ++ prev :: cur :: next :: Q) (pointer + 1) = next := by
        rw [e2, ep2]
        exact jsGetD_at (P ++ [prev, cur]) Q next
      rw [hprev, hcur, hnext]
      by_cases hops : prev.1 = DiffOp.equal ∧ next.1 = DiffOp.equal
      · rw [if_pos hops]
        by_cases hL : jsSubstringFrom cur.2 ((cur.2.length : Int) - (prev.2.length : Int))
            = prev.2
        · rw [if_pos hL]
          have hs1 : setText (P ++ prev :: cur :: next :: Q) pointer
              (prev.2 ++ jsSubstring cur.2 0 ((cur.2.length : Int) - (prev.2.length : Int)))
              = (P ++ [prev]) ++ (cur.1,
                  prev.2 ++ jsSubstring cur.2 0 ((cur.2.length : Int) - (prev.2.length : Int)))
                :: next :: Q := by
            rw [e1, ep]
            exact setText_fst_at (P ++ [prev]) (next :: Q) cur _
          rw [hs1]
          have e3 : (P ++ [prev]) ++ (cur.1,
              prev.2 ++ jsSubstring cur.2 0 ((cur.2.length : Int) - (prev.2.length : Int)))
              :: next :: Q
              = (P ++ [prev, (cur.1,
                  prev.2 ++ jsSubstring cur.2 0 ((cur.2.length : Int) - (prev.2.length : Int)))])
                ++ next :: Q := by
            simp
          have ep3 : pointer + 1 = (P ++ [prev, (cur.1,
              prev.2 ++ jsSubstring cur.2 0 ((cur.2.length : Int) - (prev.2.length : Int)))]).length := by
            simp only [List.length_append, List.length_cons, List.length_nil]; omega
          have hs2 : setText ((P ++ [prev]) ++ (cur.1,
              prev.2 ++ jsSubstring cur.2 0 ((cur.2.length : Int) - (prev.2.length : Int)))
              :: next :: Q) (pointer + 1) (prev.2 ++ next.2)
              = (P ++ [prev, (cur.1,
                  prev.2 ++ jsSubstring cur.2 0 ((cur.2.length : Int) - (prev.2.length : Int)))])
                ++ (next.1, prev.2 ++ next.2) :: Q := by
            rw [e3, ep3]
            exact setText_fst_at _ Q next _
          rw [hs2]
          have hs3 : splice ((P ++ [prev, (cur.1,
              prev.2 ++ jsSubstring cur.2 0 ((cur.2.length : Int) - (prev.2.length : Int)))])
                ++ (next.1, prev.2 ++ next.2) :: Q) (pointer - 1) 1 []
              = P ++ (cur.1,
                  prev.2 ++ jsSubstring cur.2 0 ((cur.2.length : Int) - (prev.2.length : Int)))
                :: (next.1, prev.2 ++ next.2) :: Q := by
            rw [← hPlen]
            have e5 : (P ++ [prev, (cur.1,
                prev.2 ++ jsSubstring cur.2 0 ((cur.2.length : Int) - (prev.2.length : Int)))])
                  ++ (next.1, prev.2 ++ next.2) :: Q
                = P ++ [prev] ++ ((cur.1,
                    prev.2 ++ jsSubstring cur.2 0 ((cur.2.length : Int) - (prev.2.length : Int)))
                  :: (next.1, prev.2 ++ next.2) :: Q) := by
              simp
            rw [e5]
            have hspl := splice_at P [prev]
              ((cur.1,
                  prev.2 ++ jsSubstring cur.2 0 ((cur.2.length : Int) - (prev.2.length : Int)))
                :: (next.1, prev.2 ++ next.2) :: Q) [] 1 rfl
            simpa using hspl
          rw [hs3]
          obtain ⟨h1, h2⟩ := ih (P ++ (cur.1,
              prev.2 ++ jsSubstring cur.2 0 ((cur.2.length : Int) - (prev.2.length : Int)))
            :: (next.1, prev.2 ++ next.2) :: Q) pointer true hptr
          have hct := subFrom_suffix_decomp cur.2 prev.2 hL
          obtain ⟨ht1, ht2⟩ := slideLeft_texts P Q prev.1 cur.1 next.1 prev.2 next.2
            (jsSubstring cur.2 0 ((cur.2.length : Int) - (prev.2.length : Int)))
            hops.1 hops.2
          rw [hct] at ht1 ht2
          exact ⟨h1.trans ht1, h2.trans ht2⟩
        · rw [if_neg hL]
          by_cases hR : jsSubstring cur.2 0 ((next.2.length : Int)) = next.2
          · rw [if_pos hR]
            have hs1 : setText (P ++ prev :: cur :: next :: Q) (pointer - 1)
                (prev.2 ++ next.2)
                = P ++ (prev.1, prev.2 ++ next.2) :: cur :: next :: Q := by
              rw [← hPlen]
              exact setText_fst_at P (cur :: next :: Q) prev _
            rw [hs1]
            have e3 : P ++ (prev.1, prev.2 ++ next.2) :: cur :: next :: Q
                = (P ++ [(prev.1, prev.2 ++ next.2)]) ++ cur :: next :: Q := by
              simp
            have ep3 : pointer = (P ++ [(prev.1, prev.2 ++ next.2)]).length := by
              simp only [List.length_append, List.length_cons, List.length_nil]; omega
            have hs2 : setText (P ++ (prev.1, prev.2 ++ next.2) :: cur :: next :: Q) pointer
                (jsSubstringFrom cur.2 ((next.2.length : Int)) ++ next.2)
                = (P ++ [(prev.1, prev.2 ++ next.2)])
                  ++ (cur.1, jsSubstringFrom cur.2 ((next.2.length : Int)) ++ next.2)
                  :: next :: Q := by
              rw [e3, ep3]
              exact setText_fst_at _ (next :: Q) cur _
            rw [hs2]
            have e4 : (P ++ [(prev.1, prev.2 ++ next.2)])
                ++ (cur.1, jsSubstringFrom cur.2 ((next.2.length : Int)) ++ next.2)
                :: next :: Q
                = (P ++ [(prev.1, prev.2 ++ next.2),
                    (cur.1, jsSubstringFrom cur.2 ((next.2.length : Int)) ++ next.2)])
                  ++ [next] ++ Q := by
              simp
            have ep4 : pointer + 1 = (P ++ [(prev.1, prev.2 ++ next.2),
                (cur.1, jsSubstringFrom cur.2 ((next.2.length : Int)) ++ next.2)]).length := by
              simp only [List.length_append, List.length_cons, List.length_nil]; omega
            have hs3 : splice ((P ++ [(prev.1, prev.2 ++ next.2)])
                ++ (cur.1, jsSubstringFrom cur.2 ((next.2.length : Int)) ++ next.2)
                :: next :: Q) (pointer + 1) 1 []
                = P ++ (prev.1, prev.2 ++ next.2)
                  :: (cur.1, jsSubstringFrom cur.2 ((next.2.length : Int)) ++ next.2) :: Q := by
              rw [e4, ep4]
              have hspl := splice_at (P ++ [(prev.1, prev.2 ++ next.2),
                  (cur.1, jsSubstringFrom cur.2 ((next.2.length : Int)) ++ next.2)])
                [next] Q [] 1 rfl
              simpa using hspl
            rw [hs3]
            obtain ⟨h1, h2⟩ := ih (P ++ (prev.1, prev.2 ++ next.2)
                :: (cur.1, jsSubstringFrom cur.2 ((next.2.length : Int)) ++ next.2) :: Q)
              pointer true hptr
            have hct := sub_take_decomp cur.2 next.2 hR
            obtain ⟨ht1, ht2⟩ := slideRight_texts P Q prev.1 cur.1 next.1 prev.2 next.2
              (jsSubstringFrom cur.2 ((next.2.length : Int))) hops.1 hops.2
            rw [hct] at ht1 ht2
            exact ⟨h1.trans ht1, h2.trans ht2⟩
          · rw [if_neg hR]
            exact ih (P ++ prev :: cur :: next :: Q) (pointer + 1) changes (by omega)
      · rw [if_neg hops]
        exact ih (P ++ prev :: cur :: next :: Q) (pointer + 1) changes (by omega)
    · rw [if_neg hlt]
      exact ⟨rfl, rfl⟩

/-- One full pass of `diffCleanupMerge` preserves both texts. -/
theorem cleanupMergePass_preserves (diffs : List Diff) :
    diffText1 (cleanupMergePass diffs).1 = diffText1 diffs ∧
    diffText2 (cleanupMergePass diffs).1 = diffText2 diffs := by
  unfold cleanupMergePass
  obtain ⟨hA1, hA2⟩ := cleanupMergeLoop1_preserves (diffs.length + 2)
    (diffs ++ [createDiff DiffOp.equal []]) 0 0 0 [] []
    ⟨[], [], diffs ++ [createDiff DiffOp.equal []], by simp, rfl, rfl, rfl, rfl, Or.inl rfl⟩
  obtain ⟨hB1, hB2⟩ := cleanupMergePop_preserves
    (cleanupMergeLoop1 (diffs.length + 2) (diffs ++ [createDiff DiffOp.equal []]) 0 0 0 [] [])
  obtain ⟨hC1, hC2⟩ := cleanupMergeLoop2_preserves
    ((cleanupMergePop
      (cleanupMergeLoop1 (diffs.length + 2)
        (diffs ++ [createDiff DiffOp.equal []]) 0 0 0 [] [])).length + 2)
    (cleanupMergePop
      (cleanupMergeLoop1 (diffs.length + 2) (diffs ++ [createDiff DiffOp.equal []]) 0 0 0 [] []))
    1 false (le_refl 1)
  have hdummy1 : diffText1 (diffs ++ [createDiff DiffOp.equal []]) = diffText1 diffs := by
    rw [diffText1_append]; simp [createDiff]
  have hdummy2 : diffText2 (diffs ++ [createDiff DiffOp.equal []]) = diffText2 diffs := by
    rw [diffText2_append]; simp [createDiff]
  exact ⟨hC1.trans (hB1.trans (hA1.trans hdummy1)),
    hC2.trans (hB2.trans (hA2.trans hdummy2))⟩

/-- `diffCleanupMerge` preserves both reconstructed texts, for every
fuel value and every script. -/
theorem diffCleanupMerge_preserves (fuel : Nat) :
    ∀ (diffs : List Diff),
    diffText1 (diffCleanupMerge fuel diffs) = diffText1 diffs ∧
    diffText2 (diffCleanupMerge fuel diffs) = diffText2 diffs := by
  induction fuel with
  | zero => intro diffs; exact ⟨rfl, rfl⟩
  | succ fuel ih =>
    intro diffs
    simp only [diffCleanupMerge]
    have hpass := cleanupMergePass_preserves diffs
    by_cases hch : (cleanupMergePass diffs).2 = true
    · rw [if_pos hch]
      obtain ⟨h1, h2⟩ := ih (cleanupMergePass diffs).1
      exact ⟨h1.trans hpass.1, h2.trans hpass.2⟩
    · rw [if_neg hch]
      exact hpass

/-! ### Preservation of the texts by `diffCleanupSemantic` and
`diffCleanupEfficiency` -/

theorem setOp_fst_at (P Q : List Diff) (x : Diff) (op : DiffOp) :
    setOp (P ++ x :: Q) P.length op = P ++ (op, x.2) :: Q := by
  unfold setOp
  rw [jsGetD_at]
  exact set_at P Q _ _

theorem jsGetD_out (l : List Diff) (i : Nat) (h : l.length ≤ i) :
    jsGetD l i = (DiffOp.equal, []) := by
  unfold jsGetD
  exact List.getD_eq_default _ _ h

/-- The duplicate-record rewrite preserves both texts when applied at
an EQUAL entry carrying the recorded text. -/
theorem semanticDup_texts (X Y : List Diff) (s : JStr) :
    diffText1 (semanticDup (X ++ (DiffOp.equal, s) :: Y) X.length s)
      = diffText1 (X ++ (DiffOp.equal, s) :: Y) ∧
    diffText2 (semanticDup (X ++ (DiffOp.equal, s) :: Y) X.length s)
      = diffText2 (X ++ (DiffOp.equal, s) :: Y) := by
  unfold semanticDup
  have hsp : splice (X ++ (DiffOp.equal, s) :: Y) X.length 0 [createDiff DiffOp.delete s]
      = X ++ (DiffOp.delete, s) :: (DiffOp.equal, s) :: Y := by
    have e : X ++ (DiffOp.equal, s) :: Y = X ++ [] ++ (DiffOp.equal, s) :: Y := by simp
    rw [e]
    have hspl := splice_at X [] ((DiffOp.equal, s) :: Y) [createDiff DiffOp.delete s] 0 rfl
    simpa [createDiff] using hspl
  rw [hsp]
  have hop : setOp (X ++ (DiffOp.delete, s) :: (DiffOp.equal, s) :: Y) (X.length + 1)
      DiffOp.insert = X ++ (DiffOp.delete, s) :: (DiffOp.insert, s) :: Y := by
    have e : X ++ (DiffOp.delete, s) :: (DiffOp.equal, s) :: Y
        = (X ++ [(DiffOp.delete, s)]) ++ (DiffOp.equal, s) :: Y := by simp
    have el : X.length + 1 = (X ++ [(DiffOp.delete, s)]).length := by simp
    rw [e, el]
    have hs2 := setOp_fst_at (X ++ [(DiffOp.delete, s)]) Y (DiffOp.equal, s) DiffOp.insert
    simpa using hs2
  rw [hop]
  constructor
  · simp [diffText1_append]
  · simp [diffText2_append]

/-- The scan loop of `diffCleanupSemantic` preserves both texts.  The
invariant: whenever `lastEquality` holds a non-empty string, the list
has an EQUAL entry with that text at the index on top of the stack. -/
theorem cleanupSemanticLoop_preserves (fuel : Nat) :
    ∀ (diffs : List Diff) (pointer : Int) (equalities : List Nat) (eqLen : Int)
      (lastEquality : Option JStr) (li1 ld1 li2 ld2 : Nat) (changes : Bool),
    (∀ s, lastEquality = some s → s ≠ [] →
      ∃ X Y, diffs = X ++ (DiffOp.equal, s) :: Y ∧ equalities.headD 0 = X.length) →
    diffText1 (cleanupSemanticLoop fuel diffs pointer equalities eqLen lastEquality
        li1 ld1 li2 ld2 changes).1 = diffText1 diffs ∧
    diffText2 (cleanupSemanticLoop fuel diffs pointer equalities eqLen lastEquality
        li1 ld1 li2 ld2 changes).1 = diffText2 diffs := by
  induction fuel with
  | zero => intro diffs _ _ _ _ _ _ _ _ _ _; exact ⟨rfl, rfl⟩
  | succ fuel ih =>
    intro diffs pointer equalities eqLen lastEquality li1 ld1 li2 ld2 changes hinv
    simp only [cleanupSemanticLoop]
    split
    · split
      · -- EQUAL: push
        rename_i heq
        apply ih
        intro s hs hne
        have hs2 : (jsGetD diffs pointer.toNat).2 = s := by
          injection hs
        have hrange : pointer.toNat < diffs.length := by
          by_contra hout
          have hdum := jsGetD_out diffs pointer.toNat (by omega)
          rw [hdum] at hs2
          exact hne hs2.symm
        obtain ⟨hdec, hlen⟩ := decomp_at diffs pointer.toNat hrange
        have hpair : jsGetD diffs pointer.toNat = (DiffOp.equal, s) := by
          rw [← heq, ← hs2]
        rw [hpair] at hdec
        refine ⟨diffs.take pointer.toNat, diffs.drop (pointer.toNat + 1), hdec, ?_⟩
        simp [hlen]
      · -- insertion or deletion
        generalize (if (jsGetD diffs pointer.toNat).1 = DiffOp.insert then
            li2 + (jsGetD diffs pointer.toNat).2.length else li2) = li2I
        generalize (if (jsGetD diffs pointer.toNat).1 = DiffOp.insert then ld2
            else ld2 + (jsGetD diffs pointer.toNat).2.length) = ld2I
        split
        · -- elimination
          rename_i helim
          cases lastEquality with
          | none => simp at helim
          | some s =>
            have hne : s ≠ [] := helim.1
            obtain ⟨X, Y, hd, hh⟩ := hinv s rfl hne
            obtain ⟨ht1, ht2⟩ := semanticDup_texts X Y s
            rw [hd, hh]
            obtain ⟨h1, h2⟩ := ih (semanticDup (X ++ (DiffOp.equal, s) :: Y) X.length s)
              _ _ _ none 0 0 0 0 true (by intro s' hs' _; simp at hs')
            exact ⟨h1.trans ht1, h2.trans ht2⟩
        · -- pass through
          exact ih _ _ _ _ _ _ _ _ _ _ hinv
    · exact ⟨rfl, rfl⟩

theorem jsCharAt_zero (s : JStr) : jsCharAt s 0 = s.take 1 := by
  unfold jsCharAt
  norm_num

theorem jsSubstringFrom_one (s : JStr) : jsSubstringFrom s 1 = s.drop 1 := by
  have h := jsSubstringFrom_nat s 1
  simpa using h

theorem take_drop_glue (l z : JStr) (n : Nat) : l.take n ++ (l.drop n ++ z) = l ++ z := by
  rw [← List.append_assoc, List.take_append_drop]

/-- The slide loop of `diffCleanupSemanticLossless` keeps both the
current and the best triple concatenating to the original
`equality1 ++ edit ++ equality2`, and the outer pair concatenating to
`equality1 ++ equality2`. -/
theorem losslessSlide_inv (fuel : Nat) :
    ∀ (eq1 edit eq2 b1 bE b2 : JStr) (sc : Nat) (T P : JStr),
    eq1 ++ edit ++ eq2 = T → eq1 ++ eq2 = P →
    b1 ++ bE ++ b2 = T → b1 ++ b2 = P →
    (losslessSlide fuel eq1 edit eq2 b1 bE b2 sc).1
        ++ (losslessSlide fuel eq1 edit eq2 b1 bE b2 sc).2.1
        ++ (losslessSlide fuel eq1 edit eq2 b1 bE b2 sc).2.2 = T ∧
    (losslessSlide fuel eq1 edit eq2 b1 bE b2 sc).1
        ++ (losslessSlide fuel eq1 edit eq2 b1 bE b2 sc).2.2 = P := by
  induction fuel with
  | zero => intro eq1 edit eq2 b1 bE b2 sc T P h1 h2 h3 h4; exact ⟨h3, h4⟩
  | succ fuel ih =>
    intro eq1 edit eq2 b1 bE b2 sc T P h1 h2 h3 h4
    simp only [losslessSlide]
    split
    · rename_i hguard
      have hstep1 : (eq1 ++ jsCharAt edit 0) ++ (jsSubstringFrom edit 1 ++ jsCharAt eq2 0)
          ++ jsSubstringFrom eq2 1 = T := by
        rw [jsCharAt_zero, jsCharAt_zero, jsSubstringFrom_one, jsSubstringFrom_one, ← h1]
        simp only [List.append_assoc]
        rw [List.take_append_drop, take_drop_glue]
      have hstep2 : (eq1 ++ jsCharAt edit 0) ++ jsSubstringFrom eq2 1 = P := by
        rw [hguard, jsCharAt_zero, jsSubstringFrom_one, ← h2]
        simp only [List.append_assoc]
        rw [List.take_append_drop]
      split
      · exact ih _ _ _ _ _ _ _ T P hstep1 hstep2 hstep1 hstep2
      · exact ih _ _ _ _ _ _ _ T P hstep1 hstep2 h3 h4
    · exact ⟨h3, h4⟩

/-- The initial common-suffix shift keeps the triple and the outer
pair concatenations. -/
theorem losslessShift_inv (e1 ed e2 : JStr) :
    ∃ f1 f2 f3, losslessShift e1 ed e2 = (f1, f2, f3) ∧
      f1 ++ f2 ++ f3 = e1 ++ ed ++ e2 ∧ f1 ++ f3 = e1 ++ e2 := by
  unfold losslessShift
  split
  · rename_i hco
    obtain ⟨hle, hsuf⟩ := diffCommonSuffixLen_valid e1 ed
    have hs : e1.drop (e1.length - diffCommonSuffixLen e1 ed)
        = ed.drop (ed.length - diffCommonSuffixLen e1 ed) := hsuf
    have hc1 : jsSubstring e1 0 ((e1.length : Int) - ((diffCommonSuffixLen e1 ed : Nat) : Int))
        = e1.take (e1.length - diffCommonSuffixLen e1 ed) := by
      have hcast : (e1.length : Int) - ((diffCommonSuffixLen e1 ed : Nat) : Int)
          = ((e1.length - diffCommonSuffixLen e1 ed : Nat) : Int) := by omega
      rw [hcast, jsSubstring_zero_nat]
    have hc2 : jsSubstringFrom ed ((ed.length : Int) - ((diffCommonSuffixLen e1 ed : Nat) : Int))
        = ed.drop (ed.length - diffCommonSuffixLen e1 ed) := by
      have hcast : (ed.length : Int) - ((diffCommonSuffixLen e1 ed : Nat) : Int)
          = ((ed.length - diffCommonSuffixLen e1 ed : Nat) : Int) := by omega
      rw [hcast, jsSubstringFrom_nat]
    have hc3 : jsSubstring ed 0 ((ed.length : Int) - ((diffCommonSuffixLen e1 ed : Nat) : Int))
        = ed.take (ed.length - diffCommonSuffixLen e1 ed) := by
      have hcast : (ed.length : Int) - ((diffCommonSuffixLen e1 ed : Nat) : Int)
          = ((ed.length - diffCommonSuffixLen e1 ed : Nat) : Int) := by omega
      rw [hcast, jsSubstring_zero_nat]
    refine ⟨e1.take (e1.length - diffCommonSuffixLen e1 ed),
      ed.drop (ed.length - diffCommonSuffixLen e1 ed)
        ++ ed.take (ed.length - diffCommonSuffixLen e1 ed),
      ed.drop (ed.length - diffCommonSuffixLen e1 ed) ++ e2, ?_, ?_, ?_⟩
    · rw [hc1, hc2, hc3]
    · nth_rewrite 1 [← hs]
      simp only [List.append_assoc]
      rw [take_drop_glue, take_drop_glue]
    · rw [← hs]
      rw [take_drop_glue]
  · exact ⟨e1, ed, e2, rfl, rfl, rfl⟩

/-- The slide starting from a shifted triple keeps both
concatenations. -/
theorem losslessBest_inv (t : JStr × JStr × JStr) (T P : JStr)
    (hT : t.1 ++ t.2.1 ++ t.2.2 = T) (hP : t.1 ++ t.2.2 = P) :
    (losslessBest t).1 ++ (losslessBest t).2.1 ++ (losslessBest t).2.2 = T ∧
    (losslessBest t).1 ++ (losslessBest t).2.2 = P := by
  unfold losslessBest
  exact losslessSlide_inv (t.2.2.length + 1) t.1 t.2.1 t.2.2 t.1 t.2.1 t.2.2
    (losslessScore t.1 t.2.1 t.2.2) T P hT hP hT hP

/-- Replacing the surrounded triple's texts by any triple with the same
concatenation and the same outer-pair concatenation preserves both
reconstructed texts. -/
theorem wb_texts_core (X Y : List Diff) (op : DiffOp) (e1 ed e2 b1 bE b2 : JStr)
    (h1 : b1 ++ bE ++ b2 = e1 ++ ed ++ e2) (h2 : b1 ++ b2 = e1 ++ e2) :
    diffText1 (X ++ (DiffOp.equal, b1) :: (op, bE) :: (DiffOp.equal, b2) :: Y)
      = diffText1 (X ++ (DiffOp.equal, e1) :: (op, ed) :: (DiffOp.equal, e2) :: Y) ∧
    diffText2 (X ++ (DiffOp.equal, b1) :: (op, bE) :: (DiffOp.equal, b2) :: Y)
      = diffText2 (X ++ (DiffOp.equal, e1) :: (op, ed) :: (DiffOp.equal, e2) :: Y) := by
  have hT1 := congrArg (fun l => l ++ diffText1 Y) h1
  simp only [List.append_assoc] at hT1
  have hT2 := congrArg (fun l => l ++ diffText2 Y) h1
  simp only [List.append_assoc] at hT2
  have hP1 := congrArg (fun l => l ++ diffText1 Y) h2
  simp only [List.append_assoc] at hP1
  have hP2 := congrArg (fun l => l ++ diffText2 Y) h2
  simp only [List.append_assoc] at hP2
  constructor
  · cases op with
    | delete =>
      simp only [diffText1_append, diffText1_cons_del, diffText1_cons_equal, List.append_assoc]
      rw [hT1]
    | insert =>
      simp only [diffText1_append, diffText1_cons_ins, diffText1_cons_equal, List.append_assoc]
      rw [hP1]
    | equal =>
      simp only [diffText1_append, diffText1_cons_equal, List.append_assoc]
      rw [hT1]
  · cases op with
    | delete =>
      simp only [diffText2_append, diffText2_cons_del, diffText2_cons_equal, List.append_assoc]
      rw [hP2]
    | insert =>
      simp only [diffText2_append, diffText2_cons_ins, diffText2_cons_equal, List.append_assoc]
      rw [hT2]
    | equal =>
      simp only [diffText2_append, diffText2_cons_equal, List.append_assoc]
      rw [hT2]

/-- The lossless write-back preserves both texts whenever the best
triple concatenates to the original triple and outer pair. -/
theorem losslessWriteback_texts (X Y : List Diff) (e1 ed e2 b1 bE b2 : JStr) (op : DiffOp)
    (h1 : b1 ++ bE ++ b2 = e1 ++ ed ++ e2) (h2 : b1 ++ b2 = e1 ++ e2) :
    diffText1 (losslessWriteback
        (X ++ (DiffOp.equal, e1) :: (op, ed) :: (DiffOp.equal, e2) :: Y) (X.length + 1)
        b1 bE b2).1
      = diffText1 (X ++ (DiffOp.equal, e1) :: (op, ed) :: (DiffOp.equal, e2) :: Y) ∧
    diffText2 (losslessWriteback
        (X ++ (DiffOp.equal, e1) :: (op, ed) :: (DiffOp.equal, e2) :: Y) (X.length + 1)
        b1 bE b2).1
      = diffText2 (X ++ (DiffOp.equal, e1) :: (op, ed) :: (DiffOp.equal, e2) :: Y) := by
  unfold losslessWriteback
  obtain ⟨hc1, hc2⟩ := wb_texts_core X Y op e1 ed e2 b1 bE b2 h1 h2
  have hstA : setText (X ++ (DiffOp.equal, e1) :: (op, ed) :: (DiffOp.equal, e2) :: Y)
      (X.length + 1 - 1) b1 = X ++ (DiffOp.equal, b1) :: (op, ed) :: (DiffOp.equal, e2) :: Y := by
    simp only [Nat.add_sub_cancel]
    exact setText_at X _ DiffOp.equal e1 b1
  have hstB : setText (X ++ (DiffOp.equal, b1) :: (op, ed) :: (DiffOp.equal, e2) :: Y)
      (X.length + 1) bE = X ++ (DiffOp.equal, b1) :: (op, bE) :: (DiffOp.equal, e2) :: Y := by
    have e : X ++ (DiffOp.equal, b1) :: (op, ed) :: (DiffOp.equal, e2) :: Y
        = (X ++ [(DiffOp.equal, b1)]) ++ (op, ed) :: (DiffOp.equal, e2) :: Y := by simp
    have el : X.length + 1 = (X ++ [(DiffOp.equal, b1)]).length := by simp
    have hs := setText_at (X ++ [(DiffOp.equal, b1)]) ((DiffOp.equal, e2) :: Y) op ed bE
    rw [e, el]
    simpa using hs
  have hspA : splice (X ++ (DiffOp.equal, e1) :: (op, ed) :: (DiffOp.equal, e2) :: Y)
      (X.length + 1 - 1) 1 [] = X ++ (op, ed) :: (DiffOp.equal, e2) :: Y := by
    simp only [Nat.add_sub_cancel]
    have e : X ++ (DiffOp.equal, e1) :: (op, ed) :: (DiffOp.equal, e2) :: Y
        = X ++ [(DiffOp.equal, e1)] ++ ((op, ed) :: (DiffOp.equal, e2) :: Y) := by simp
    rw [e]
    have hspl := splice_at X [(DiffOp.equal, e1)] ((op, ed) :: (DiffOp.equal, e2) :: Y) [] 1 rfl
    simpa using hspl
  have hstC : setText (X ++ (op, ed) :: (DiffOp.equal, e2) :: Y) (X.length + 1 - 1) bE
      = X ++ (op, bE) :: (DiffOp.equal, e2) :: Y := by
    simp only [Nat.add_sub_cancel]
    exact setText_at X _ op ed bE
  split
  · split
    · split
      · -- b1 ≠ [], b2 ≠ []
        rw [hstA, hstB]
        have hstD : setText (X ++ (DiffOp.equal, b1) :: (op, bE) :: (DiffOp.equal, e2) :: Y)
            (X.length + 1 + 1) b2
            = X ++ (DiffOp.equal, b1) :: (op, bE) :: (DiffOp.equal, b2) :: Y := by
          have e : X ++ (DiffOp.equal, b1) :: (op, bE) :: (DiffOp.equal, e2) :: Y
              = (X ++ [(DiffOp.equal, b1), (op, bE)]) ++ (DiffOp.equal, e2) :: Y := by simp
          have el : X.length + 1 + 1 = (X ++ [(DiffOp.equal, b1), (op, bE)]).length := by simp
          have hs := setText_at (X ++ [(DiffOp.equal, b1), (op, bE)]) Y DiffOp.equal e2 b2
          rw [e, el]
          simpa using hs
        rw [hstD]
        exact ⟨hc1, hc2⟩
      · -- b1 ≠ [], b2 = []
        rename_i hb2n
        have hb2 : b2 = [] := not_not.mp hb2n
        subst hb2
        rw [hstA, hstB]
        have hspD : splice (X ++ (DiffOp.equal, b1) :: (op, bE) :: (DiffOp.equal, e2) :: Y)
            (X.length + 1 + 1) 1 []
            = X ++ (DiffOp.equal, b1) :: (op, bE) :: Y := by
          have e : X ++ (DiffOp.equal, b1) :: (op, bE) :: (DiffOp.equal, e2) :: Y
              = (X ++ [(DiffOp.equal, b1), (op, bE)]) ++ [(DiffOp.equal, e2)] ++ Y := by simp
          have el : X.length + 1 + 1 = (X ++ [(DiffOp.equal, b1), (op, bE)]).length := by simp
          rw [e, el]
          have hspl := splice_at (X ++ [(DiffOp.equal, b1), (op, bE)]) [(DiffOp.equal, e2)]
            Y [] 1 rfl
          simpa using hspl
        rw [hspD]
        constructor
        · rw [← hc1]
          simp [diffText1_append, List.append_assoc]
        · rw [← hc2]
          simp [diffText2_append, List.append_assoc]
    · split
      · -- b1 = [], b2 ≠ []
        rename_i hb1n _
        have hb1 : b1 = [] := not_not.mp hb1n
        subst hb1
        rw [hspA, hstC]
        have hstD : setText (X ++ (op, bE) :: (DiffOp.equal, e2) :: Y) (X.length + 1) b2
            = X ++ (op, bE) :: (DiffOp.equal, b2) :: Y := by
          have e : X ++ (op, bE) :: (DiffOp.equal, e2) :: Y
              = (X ++ [(op, bE)]) ++ (DiffOp.equal, e2) :: Y := by simp
          have el : X.length + 1 = (X ++ [(op, bE)]).length := by simp
          have hs := setText_at (X ++ [(op, bE)]) Y DiffOp.equal e2 b2
          rw [e, el]
          simpa using hs
        rw [hstD]
        constructor
        · rw [← hc1]
          simp [diffText1_append, List.append_assoc]
        · rw [← hc2]
          simp [diffText2_append, List.append_assoc]
      · -- b1 = [], b2 = []
        rename_i hb1n hb2n
        have hb1 : b1 = [] := not_not.mp hb1n
        have hb2 : b2 = [] := not_not.mp hb2n
        subst hb1
        subst hb2
        rw [hspA, hstC]
        have hspD : splice (X ++ (op, bE) :: (DiffOp.equal, e2) :: Y) (X.length + 1) 1 []
            = X ++ (op, bE) :: Y := by
          have e : X ++ (op, bE) :: (DiffOp.equal, e2) :: Y
              = (X ++ [(op, bE)]) ++ [(DiffOp.equal, e2)] ++ Y := by simp
          have el : X.length + 1 = (X ++ [(op, bE)]).length := by simp
          rw [e, el]
          have hspl := splice_at (X ++ [(op, bE)]) [(DiffOp.equal, e2)] Y [] 1 rfl
          simpa using hspl
        rw [hspD]
        constructor
        · rw [← hc1]
          simp [diffText1_append, List.append_assoc]
        · rw [← hc2]
          simp [diffText2_append, List.append_assoc]
  · exact ⟨rfl, rfl⟩

/-- The lossless scan loop preserves both texts. -/
theorem cleanupLosslessLoop_preserves (fuel : Nat) :
    ∀ (diffs : List Diff) (pointer : Nat), 1 ≤ pointer →
    diffText1 (cleanupLosslessLoop fuel diffs pointer) = diffText1 diffs ∧
    diffText2 (cleanupLosslessLoop fuel diffs pointer) = diffText2 diffs := by
  induction fuel with
  | zero => intro diffs pointer _; exact ⟨rfl, rfl⟩
  | succ fuel ih =>
    intro diffs pointer hptr
    simp only [cleanupLosslessLoop]
    split
    · rename_i hg
      split
      · rename_i hpair
        obtain ⟨P, R, hPR, hPlen⟩ : ∃ P R, diffs = P ++ R ∧ P.length = pointer - 1 :=
          ⟨diffs.take (pointer - 1), diffs.drop (pointer - 1),
            (List.take_append_drop _ _).symm, by rw [List.length_take]; omega⟩
        have hRlen : 3 ≤ R.length := by
          have hdl : diffs.length = P.length + R.length := by rw [hPR]; simp
          omega
        rcases R with _ | ⟨prev, R⟩
        · exfalso; simp at hRlen
        rcases R with _ | ⟨cur, R⟩
        · exfalso; simp at hRlen
        rcases R with _ | ⟨next, Y⟩
        · exfalso; simp at hRlen
        subst hPR
        have hptr2 : pointer = P.length + 1 := by omega
        subst hptr2
        have hprev : jsGetD (P ++ prev :: cur :: next :: Y) (P.length + 1 - 1) = prev := by
          simp only [Nat.add_sub_cancel]
          exact jsGetD_at P _ prev
        have hcur : jsGetD (P ++ prev :: cur :: next :: Y) (P.length + 1) = cur := by
          have e : P ++ prev :: cur :: next :: Y = (P ++ [prev]) ++ cur :: next :: Y := by simp
          have el : P.length + 1 = (P ++ [prev]).length := by simp
          rw [e, el]
          exact jsGetD_at _ _ cur
        have hnext : jsGetD (P ++ prev :: cur :: next :: Y) (P.length + 1 + 1) = next := by
          have e : P ++ prev :: cur :: next :: Y = (P ++ [prev, cur]) ++ next :: Y := by simp
          have el : P.length + 1 + 1 = (P ++ [prev, cur]).length := by simp
          rw [e, el]
          exact jsGetD_at _ _ next
        rw [hprev, hnext] at hpair
        obtain ⟨pop, e1⟩ := prev
        obtain ⟨op, ed⟩ := cur
        obtain ⟨nop, e2⟩ := next
        have hpop : pop = DiffOp.equal := hpair.1
        have hnop : nop = DiffOp.equal := hpair.2
        subst hpop
        subst hnop
        simp only [losslessIter]
        rw [hprev, hcur, hnext]
        obtain ⟨f1, f2, f3, hsh, hshT, hshP⟩ := losslessShift_inv e1 ed e2
        rw [hsh]
        obtain ⟨hbT, hbP⟩ := losslessBest_inv (f1, f2, f3) (e1 ++ ed ++ e2) (e1 ++ e2)
          hshT hshP
        obtain ⟨hw1, hw2⟩ := losslessWriteback_texts P Y e1 ed e2
          (losslessBest (f1, f2, f3)).1 (losslessBest (f1, f2, f3)).2.1
          (losslessBest (f1, f2, f3)).2.2 op hbT hbP
        obtain ⟨h1, h2⟩ := ih (losslessWriteback (P ++ (DiffOp.equal, e1) :: (op, ed)
            :: (DiffOp.equal, e2) :: Y) (P.length + 1) (losslessBest (f1, f2, f3)).1
            (losslessBest (f1, f2, f3)).2.1 (losslessBest (f1, f2, f3)).2.2).1
          ((losslessWriteback (P ++ (DiffOp.equal, e1) :: (op, ed)
            :: (DiffOp.equal, e2) :: Y) (P.length + 1) (losslessBest (f1, f2, f3)).1
            (losslessBest (f1, f2, f3)).2.1 (losslessBest (f1, f2, f3)).2.2).2 + 1)
          (by omega)
        exact ⟨h1.trans hw1, h2.trans hw2⟩
      · exact ih _ (pointer + 1) (by omega)
    · exact ⟨rfl, rfl⟩

/-- `diffCleanupSemanticLossless` preserves both texts. -/
theorem diffCleanupSemanticLossless_preserves (fuel : Nat) (diffs : List Diff) :
    diffText1 (diffCleanupSemanticLossless fuel diffs) = diffText1 diffs ∧
    diffText2 (diffCleanupSemanticLossless fuel diffs) = diffText2 diffs := by
  unfold diffCleanupSemanticLossless
  exact cleanupLosslessLoop_preserves fuel diffs 1 (le_refl 1)

/-- Forward overlap extraction preserves both texts. -/
theorem overlapExtractFwd_texts (X Y : List Diff) (D I : JStr) :
    diffText1 (overlapExtractFwd (X ++ (DiffOp.delete, D) :: (DiffOp.insert, I) :: Y)
        (X.length + 1))
      = diffText1 (X ++ (DiffOp.delete, D) :: (DiffOp.insert, I) :: Y) ∧
    diffText2 (overlapExtractFwd (X ++ (DiffOp.delete, D) :: (DiffOp.insert, I) :: Y)
        (X.length + 1))
      = diffText2 (X ++ (DiffOp.delete, D) :: (DiffOp.insert, I) :: Y) := by
  unfold overlapExtractFwd
  have hprev : jsGetD (X ++ (DiffOp.delete, D) :: (DiffOp.insert, I) :: Y) (X.length + 1 - 1)
      = (DiffOp.delete, D) := by
    simp only [Nat.add_sub_cancel]
    exact jsGetD_at X _ _
  have e : X ++ (DiffOp.delete, D) :: (DiffOp.insert, I) :: Y
      = (X ++ [(DiffOp.delete, D)]) ++ (DiffOp.insert, I) :: Y := by simp
  have el : X.length + 1 = (X ++ [(DiffOp.delete, D)]).length := by simp
  have hcur : jsGetD (X ++ (DiffOp.delete, D) :: (DiffOp.insert, I) :: Y) (X.length + 1)
      = (DiffOp.insert, I) := by
    rw [e, el]
    exact jsGetD_at _ _ _
  rw [hprev, hcur]
  obtain ⟨hole, hov⟩ := diffCommonOverlap_cases D I
  have h1 : jsSubstring I 0 ((diffCommonOverlap D I : Nat) : Int)
      = I.take (diffCommonOverlap D I) := jsSubstring_zero_nat I _
  have h2 : jsSubstring D 0 ((D.length : Int) - ((diffCommonOverlap D I : Nat) : Int))
      = D.take (D.length - diffCommonOverlap D I) := by
    have hcast : (D.length : Int) - ((diffCommonOverlap D I : Nat) : Int)
        = ((D.length - diffCommonOverlap D I : Nat) : Int) := by omega
    rw [hcast, jsSubstring_zero_nat]
  have h3 : jsSubstringFrom I ((diffCommonOverlap D I : Nat) : Int)
      = I.drop (diffCommonOverlap D I) := jsSubstringFrom_nat I _
  rw [h1, h2, h3]
  have hsp : splice (X ++ (DiffOp.delete, D) :: (DiffOp.insert, I) :: Y) (X.length + 1) 0
      [createDiff DiffOp.equal (I.take (diffCommonOverlap D I))]
      = X ++ (DiffOp.delete, D) :: (DiffOp.equal, I.take (diffCommonOverlap D I))
        :: (DiffOp.insert, I) :: Y := by
    rw [e, el]
    have e2 : (X ++ [(DiffOp.delete, D)]) ++ (DiffOp.insert, I) :: Y
        = (X ++ [(DiffOp.delete, D)]) ++ [] ++ (DiffOp.insert, I) :: Y := by simp
    rw [e2]
    have hspl := splice_at (X ++ [(DiffOp.delete, D)]) [] ((DiffOp.insert, I) :: Y)
      [createDiff DiffOp.equal (I.take (diffCommonOverlap D I))] 0 rfl
    simpa [createDiff] using hspl
  rw [hsp]
  have hst1 : setText (X ++ (DiffOp.delete, D) :: (DiffOp.equal, I.take (diffCommonOverlap D I))
        :: (DiffOp.insert, I) :: Y) (X.length + 1 - 1)
        (D.take (D.length - diffCommonOverlap D I))
      = X ++ (DiffOp.delete, D.take (D.length - diffCommonOverlap D I))
        :: (DiffOp.equal, I.take (diffCommonOverlap D I)) :: (DiffOp.insert, I) :: Y := by
    simp only [Nat.add_sub_cancel]
    exact setText_at X _ DiffOp.delete D _
  rw [hst1]
  have hst2 : setText (X ++ (DiffOp.delete, D.take (D.length - diffCommonOverlap D I))
        :: (DiffOp.equal, I.take (diffCommonOverlap D I)) :: (DiffOp.insert, I) :: Y)
        (X.length + 1 + 1) (I.drop (diffCommonOverlap D I))
      = X ++ (DiffOp.delete, D.take (D.length - diffCommonOverlap D I))
        :: (DiffOp.equal, I.take (diffCommonOverlap D I))
        :: (DiffOp.insert, I.drop (diffCommonOverlap D I)) :: Y := by
    have e3 : X ++ (DiffOp.delete, D.take (D.length - diffCommonOverlap D I))
          :: (DiffOp.equal, I.take (diffCommonOverlap D I)) :: (DiffOp.insert, I) :: Y
        = (X ++ [(DiffOp.delete, D.take (D.length - diffCommonOverlap D I)),
            (DiffOp.equal, I.take (diffCommonOverlap D I))]) ++ (DiffOp.insert, I) :: Y := by
      simp
    have el3 : X.length + 1 + 1
        = (X ++ [(DiffOp.delete, D.take (D.length - diffCommonOverlap D I)),
            (DiffOp.equal, I.take (diffCommonOverlap D I))]).length := by
      simp
    have hs := setText_at (X ++ [(DiffOp.delete, D.take (D.length - diffCommonOverlap D I)),
      (DiffOp.equal, I.take (diffCommonOverlap D I))]) Y DiffOp.insert I
      (I.drop (diffCommonOverlap D I))
    rw [e3, el3]
    simpa using hs
  rw [hst2]
  have hD : D.take (D.length - diffCommonOverlap D I) ++ I.take (diffCommonOverlap D I)
      = D := by
    rw [← hov]
    exact List.take_append_drop _ D
  constructor
  · calc
      diffText1 (X ++ (DiffOp.delete, D.take (D.length - diffCommonOverlap D I))
          :: (DiffOp.equal, I.take (diffCommonOverlap D I))
          :: (DiffOp.insert, I.drop (diffCommonOverlap D I)) :: Y)
          = diffText1 X ++ ((D.take (D.length - diffCommonOverlap D I)
              ++ I.take (diffCommonOverlap D I)) ++ diffText1 Y) := by
            simp only [diffText1_append, diffText1_cons_del, diffText1_cons_ins,
              diffText1_cons_equal, List.append_assoc]
      _ = diffText1 X ++ (D ++ diffText1 Y) := by rw [hD]
      _ = diffText1 (X ++ (DiffOp.delete, D) :: (DiffOp.insert, I) :: Y) := by
            simp only [diffText1_append, diffText1_cons_del, diffText1_cons_ins,
              diffText1_cons_equal, List.append_assoc]
  · calc
      diffText2 (X ++ (DiffOp.delete, D.take (D.length - diffCommonOverlap D I))
          :: (DiffOp.equal, I.take (diffCommonOverlap D I))
          :: (DiffOp.insert, I.drop (diffCommonOverlap D I)) :: Y)
          = diffText2 X ++ ((I.take (diffCommonOverlap D I)
              ++ I.drop (diffCommonOverlap D I)) ++ diffText2 Y) := by
            simp only [diffText2_append, diffText2_cons_del, diffText2_cons_ins,
              diffText2_cons_equal, List.append_assoc]
      _ = diffText2 X ++ (I ++ diffText2 Y) := by rw [List.take_append_drop]
      _ = diffText2 (X ++ (DiffOp.delete, D) :: (DiffOp.insert, I) :: Y) := by
            simp only [diffText2_append, diffText2_cons_del, diffText2_cons_ins,
              diffText2_cons_equal, List.append_assoc]

/-- Reverse overlap extraction preserves both texts. -/
theorem overlapExtractRev_texts (X Y : List Diff) (D I : JStr) :
    diffText1 (overlapExtractRev (X ++ (DiffOp.delete, D) :: (DiffOp.insert, I) :: Y)
        (X.length + 1))
      = diffText1 (X ++ (DiffOp.delete, D) :: (DiffOp.insert, I) :: Y) ∧
    diffText2 (overlapExtractRev (X ++ (DiffOp.delete, D) :: (DiffOp.insert, I) :: Y)
        (X.length + 1))
      = diffText2 (X ++ (DiffOp.delete, D) :: (DiffOp.insert, I) :: Y) := by
  unfold overlapExtractRev
  have hprev : jsGetD (X ++ (DiffOp.delete, D) :: (DiffOp.insert, I) :: Y) (X.length + 1 - 1)
      = (DiffOp.delete, D) := by
    simp only [Nat.add_sub_cancel]
    exact jsGetD_at X _ _
  have e : X ++ (DiffOp.delete, D) :: (DiffOp.insert, I) :: Y
      = (X ++ [(DiffOp.delete, D)]) ++ (DiffOp.insert, I) :: Y := by simp
  have el : X.length + 1 = (X ++ [(DiffOp.delete, D)]).length := by simp
  have hcur : jsGetD (X ++ (DiffOp.delete, D) :: (DiffOp.insert, I) :: Y) (X.length + 1)
      = (DiffOp.insert, I) := by
    rw [e, el]
    exact jsGetD_at _ _ _
  rw [hprev, hcur]
  obtain ⟨hole, hov⟩ := diffCommonOverlap_cases I D
  have h1 : jsSubstring D 0 ((diffCommonOverlap I D : Nat) : Int)
      = D.take (diffCommonOverlap I D) := jsSubstring_zero_nat D _
  have h2 : jsSubstring I 0 ((I.length : Int) - ((diffCommonOverlap I D : Nat) : Int))
      = I.take (I.length - diffCommonOverlap I D) := by
    have hcast : (I.length : Int) - ((diffCommonOverlap I D : Nat) : Int)
        = ((I.length - diffCommonOverlap I D : Nat) : Int) := by omega
    rw [hcast, jsSubstring_zero_nat]
  have h3 : jsSubstringFrom D ((diffCommonOverlap I D : Nat) : Int)
      = D.drop (diffCommonOverlap I D) := jsSubstringFrom_nat D _
  rw [h1, h2, h3]
  have hsp : splice (X ++ (DiffOp.delete, D) :: (DiffOp.insert, I) :: Y) (X.length + 1) 0
      [createDiff DiffOp.equal (D.take (diffCommonOverlap I D))]
      = X ++ (DiffOp.delete, D) :: (DiffOp.equal, D.take (diffCommonOverlap I D))
        :: (DiffOp.insert, I) :: Y := by
    rw [e, el]
    have e2 : (X ++ [(DiffOp.delete, D)]) ++ (DiffOp.insert, I) :: Y
        = (X ++ [(DiffOp.delete, D)]) ++ [] ++ (DiffOp.insert, I) :: Y := by simp
    rw [e2]
    have hspl := splice_at (X ++ [(DiffOp.delete, D)]) [] ((DiffOp.insert, I) :: Y)
      [createDiff DiffOp.equal (D.take (diffCommonOverlap I D))] 0 rfl
    simpa [createDiff] using hspl
  rw [hsp]
  have hso1 : setOp (X ++ (DiffOp.delete, D) :: (DiffOp.equal, D.take (diffCommonOverlap I D))
        :: (DiffOp.insert, I) :: Y) (X.length + 1 - 1) DiffOp.insert
      = X ++ (DiffOp.insert, D) :: (DiffOp.equal, D.take (diffCommonOverlap I D))
        :: (DiffOp.insert, I) :: Y := by
    simp only [Nat.add_sub_cancel]
    have hs := setOp_fst_at X ((DiffOp.equal, D.take (diffCommonOverlap I D))
      :: (DiffOp.insert, I) :: Y) (DiffOp.delete, D) DiffOp.insert
    simpa using hs
  rw [hso1]
  have hst1 : setText (X ++ (DiffOp.insert, D) :: (DiffOp.equal, D.take (diffCommonOverlap I D))
        :: (DiffOp.insert, I) :: Y) (X.length + 1 - 1)
        (I.take (I.length - diffCommonOverlap I D))
      = X ++ (DiffOp.insert, I.take (I.length - diffCommonOverlap I D))
        :: (DiffOp.equal, D.take (diffCommonOverlap I D)) :: (DiffOp.insert, I) :: Y := by
    simp only [Nat.add_sub_cancel]
    exact setText_at X _ DiffOp.insert D _
  rw [hst1]
  have e3 : X ++ (DiffOp.insert, I.take (I.length - diffCommonOverlap I D))
        :: (DiffOp.equal, D.take (diffCommonOverlap I D)) :: (DiffOp.insert, I) :: Y
      = (X ++ [(DiffOp.insert, I.take (I.length - diffCommonOverlap I D)),
          (DiffOp.equal, D.take (diffCommonOverlap I D))]) ++ (DiffOp.insert, I) :: Y := by
    simp
  have el3 : X.length + 1 + 1
      = (X ++ [(DiffOp.insert, I.take (I.length - diffCommonOverlap I D)),
          (DiffOp.equal, D.take (diffCommonOverlap I D))]).length := by
    simp
  have hso2 : setOp (X ++ (DiffOp.insert, I.take (I.length - diffCommonOverlap I D))
        :: (DiffOp.equal, D.take (diffCommonOverlap I D)) :: (DiffOp.insert, I) :: Y)
        (X.length + 1 + 1) DiffOp.delete
      = X ++ (DiffOp.insert, I.take (I.length - diffCommonOverlap I D))
        :: (DiffOp.equal, D.take (diffCommonOverlap I D)) :: (DiffOp.delete, I) :: Y := by
    rw [e3, el3]
    have hs := setOp_fst_at (X ++ [(DiffOp.insert, I.take (I.length - diffCommonOverlap I D)),
      (DiffOp.equal, D.take (diffCommonOverlap I D))]) Y (DiffOp.insert, I) DiffOp.delete
    simpa using hs
  rw [hso2]
  have hst2 : setText (X ++ (DiffOp.insert, I.take (I.length - diffCommonOverlap I D))
        :: (DiffOp.equal, D.take (diffCommonOverlap I D)) :: (DiffOp.delete, I) :: Y)
        (X.length + 1 + 1) (D.drop (diffCommonOverlap I D))
      = X ++ (DiffOp.insert, I.take (I.length - diffCommonOverlap I D))
        :: (DiffOp.equal, D.take (diffCommonOverlap I D))
        :: (DiffOp.delete, D.drop (diffCommonOverlap I D)) :: Y := by
    have e4 : X ++ (DiffOp.insert, I.take (I.length - diffCommonOverlap I D))
          :: (DiffOp.equal, D.take (diffCommonOverlap I D)) :: (DiffOp.delete, I) :: Y
        = (X ++ [(DiffOp.insert, I.take (I.length - diffCommonOverlap I D)),
            (DiffOp.equal, D.take (diffCommonOverlap I D))]) ++ (DiffOp.delete, I) :: Y := by
      simp
    have hs := setText_at (X ++ [(DiffOp.insert, I.take (I.length - diffCommonOverlap I D)),
      (DiffOp.equal, D.take (diffCommonOverlap I D))]) Y DiffOp.delete I
      (D.drop (diffCommonOverlap I D))
    rw [e4, el3]
    simpa using hs
  rw [hst2]
  have hI : I.take (I.length - diffCommonOverlap I D) ++ D.take (diffCommonOverlap I D)
      = I := by
    rw [← hov]
    exact List.take_append_drop _ I
  constructor
  · calc
      diffText1 (X ++ (DiffOp.insert, I.take (I.length - diffCommonOverlap I D))
          :: (DiffOp.equal, D.take (diffCommonOverlap I D))
          :: (DiffOp.delete, D.drop (diffCommonOverlap I D)) :: Y)
          = diffText1 X ++ ((D.take (diffCommonOverlap I D)
              ++ D.drop (diffCommonOverlap I D)) ++ diffText1 Y) := by
            simp only [diffText1_append, diffText1_cons_del, diffText1_cons_ins,
              diffText1_cons_equal, List.append_assoc]
      _ = diffText1 X ++ (D ++ diffText1 Y) := by rw [List.take_append_drop]
      _ = diffText1 (X ++ (DiffOp.delete, D) :: (DiffOp.insert, I) :: Y) := by
            simp only [diffText1_append, diffText1_cons_del, diffText1_cons_ins,
              diffText1_cons_equal, List.append_assoc]
  · calc
      diffText2 (X ++ (DiffOp.insert, I.take (I.length - diffCommonOverlap I D))
          :: (DiffOp.equal, D.take (diffCommonOverlap I D))
          :: (DiffOp.delete, D.drop (diffCommonOverlap I D)) :: Y)
          = diffText2 X ++ ((I.take (I.length - diffCommonOverlap I D)
              ++ D.take (diffCommonOverlap I D)) ++ diffText2 Y) := by
            simp only [diffText2_append, diffText2_cons_del, diffText2_cons_ins,
              diffText2_cons_equal, List.append_assoc]
      _ = diffText2 X ++ (I ++ diffText2 Y) := by rw [hI]
      _ = diffText2 (X ++ (DiffOp.delete, D) :: (DiffOp.insert, I) :: Y) := by
            simp only [diffText2_append, diffText2_cons_del, diffText2_cons_ins,
              diffText2_cons_equal, List.append_assoc]

/-- The overlap-extraction loop preserves both texts. -/
theorem cleanupSemanticOverlapLoop_preserves (fuel : Nat) :
    ∀ (diffs : List Diff) (pointer : Nat), 1 ≤ pointer →
    diffText1 (cleanupSemanticOverlapLoop fuel diffs pointer) = diffText1 diffs ∧
    diffText2 (cleanupSemanticOverlapLoop fuel diffs pointer) = diffText2 diffs := by
  induction fuel with
  | zero => intro diffs pointer _; exact ⟨rfl, rfl⟩
  | succ fuel ih =>
    intro diffs pointer hptr
    simp only [cleanupSemanticOverlapLoop]
    split
    · rename_i hg
      split
      · rename_i hpair
        obtain ⟨P, R, hPR, hPlen⟩ : ∃ P R, diffs = P ++ R ∧ P.length = pointer - 1 :=
          ⟨diffs.take (pointer - 1), diffs.drop (pointer - 1),
            (List.take_append_drop _ _).symm, by rw [List.length_take]; omega⟩
        have hRlen : 2 ≤ R.length := by
          have hdl : diffs.length = P.length + R.length := by rw [hPR]; simp
          omega
        rcases R with _ | ⟨prev, R⟩
        · exfalso; simp at hRlen
        rcases R with _ | ⟨cur, Y⟩
        · exfalso; simp at hRlen
        subst hPR
        have hptr2 : pointer = P.length + 1 := by omega
        subst hptr2
        have hprev : jsGetD (P ++ prev :: cur :: Y) (P.length + 1 - 1) = prev := by
          simp only [Nat.add_sub_cancel]
          exact jsGetD_at P _ prev
        have hcur : jsGetD (P ++ prev :: cur :: Y) (P.length + 1) = cur := by
          have e : P ++ prev :: cur :: Y = (P ++ [prev]) ++ cur :: Y := by simp
          have el : P.length + 1 = (P ++ [prev]).length := by simp
          rw [e, el]
          exact jsGetD_at _ _ cur
        rw [hprev, hcur] at hpair
        obtain ⟨dop, D⟩ := prev
        obtain ⟨iop, I⟩ := cur
        have hdop : dop = DiffOp.delete := hpair.1
        have hiop : iop = DiffOp.insert := hpair.2
        subst hdop
        subst hiop
        rw [hprev, hcur]
        split
        · split
          · obtain ⟨ht1, ht2⟩ := overlapExtractFwd_texts P Y D I
            obtain ⟨h1, h2⟩ := ih (overlapExtractFwd (P ++ (DiffOp.delete, D)
              :: (DiffOp.insert, I) :: Y) (P.length + 1)) (P.length + 1 + 3) (by omega)
            exact ⟨h1.trans ht1, h2.trans ht2⟩
          · exact ih _ (P.length + 1 + 2) (by omega)
        · split
          · obtain ⟨ht1, ht2⟩ := overlapExtractRev_texts P Y D I
            obtain ⟨h1, h2⟩ := ih (overlapExtractRev (P ++ (DiffOp.delete, D)
              :: (DiffOp.insert, I) :: Y) (P.length + 1)) (P.length + 1 + 3) (by omega)
            exact ⟨h1.trans ht1, h2.trans ht2⟩
          · exact ih _ (P.length + 1 + 2) (by omega)
      · exact ih _ (pointer + 1) (by omega)
    · exact ⟨rfl, rfl⟩

/-- The scan loop of `diffCleanupEfficiency` preserves both texts, by
the same invariant. -/
theorem cleanupEfficiencyLoop_preserves (editCost : ℚ) (fuel : Nat) :
    ∀ (diffs : List Diff) (pointer : Int) (equalities : List Nat) (eqLen : Int)
      (lastEquality : Option JStr) (preIns preDel postIns postDel changes : Bool),
    (∀ s, lastEquality = some s → s ≠ [] →
      ∃ X Y, diffs = X ++ (DiffOp.equal, s) :: Y ∧ equalities.headD 0 = X.length) →
    diffText1 (cleanupEfficiencyLoop editCost fuel diffs pointer equalities eqLen lastEquality
        preIns preDel postIns postDel changes).1 = diffText1 diffs ∧
    diffText2 (cleanupEfficiencyLoop editCost fuel diffs pointer equalities eqLen lastEquality
        preIns preDel postIns postDel changes).1 = diffText2 diffs := by
  induction fuel with
  | zero => intro diffs _ _ _ _ _ _ _ _ _ _; exact ⟨rfl, rfl⟩
  | succ fuel ih =>
    intro diffs pointer equalities eqLen lastEquality preIns preDel postIns postDel changes hinv
    simp only [cleanupEfficiencyLoop]
    split
    · split
      · -- EQUAL
        split
        · -- candidate: push
          rename_i heq hcand
          apply ih
          intro s hs hne
          have hs2 : (jsGetD diffs pointer.toNat).2 = s := by
            injection hs
          have hrange : pointer.toNat < diffs.length := by
            by_contra hout
            have hdum := jsGetD_out diffs pointer.toNat (by omega)
            rw [hdum] at hs2
            exact hne hs2.symm
          obtain ⟨hdec, hlen⟩ := decomp_at diffs pointer.toNat hrange
          have hpair : jsGetD diffs pointer.toNat = (DiffOp.equal, s) := by
            rw [← heq, ← hs2]
          rw [hpair] at hdec
          refine ⟨diffs.take pointer.toNat, diffs.drop (pointer.toNat + 1), hdec, ?_⟩
          simp [hlen]
        · -- reset
          exact ih _ _ _ _ _ _ _ _ _ _ (by intro s' hs' _; simp at hs')
      · -- insertion or deletion
        generalize (if (jsGetD diffs pointer.toNat).1 = DiffOp.delete then postIns else true)
            = postInsI
        generalize (if (jsGetD diffs pointer.toNat).1 = DiffOp.delete then true else postDel)
            = postDelI
        split
        · -- elimination
          rename_i helim
          cases lastEquality with
          | none => simp at helim
          | some s =>
            have hne : s ≠ [] := helim.1
            obtain ⟨X, Y, hd, hh⟩ := hinv s rfl hne
            obtain ⟨ht1, ht2⟩ := semanticDup_texts X Y s
            rw [hd, hh]
            split
            · obtain ⟨h1, h2⟩ := ih (semanticDup (X ++ (DiffOp.equal, s) :: Y) X.length s)
                _ _ _ none preIns preDel true true true (by intro s' hs' _; simp at hs')
              exact ⟨h1.trans ht1, h2.trans ht2⟩
            · obtain ⟨h1, h2⟩ := ih (semanticDup (X ++ (DiffOp.equal, s) :: Y) X.length s)
                _ _ _ none preIns preDel false false true (by intro s' hs' _; simp at hs')
              exact ⟨h1.trans ht1, h2.trans ht2⟩
        · -- pass through
          exact ih _ _ _ _ _ _ _ _ _ _ hinv
    · exact ⟨rfl, rfl⟩

/-- `diffCleanupSemantic` preserves both texts. -/
theorem diffCleanupSemantic_preserves (fuel : Nat) (diffs : List Diff) :
    diffText1 (diffCleanupSemantic fuel diffs) = diffText1 diffs ∧
    diffText2 (diffCleanupSemantic fuel diffs) = diffText2 diffs := by
  have hmerged : diffText1 (cleanupSemanticMerged fuel diffs) = diffText1 diffs ∧
      diffText2 (cleanupSemanticMerged fuel diffs) = diffText2 diffs := by
    unfold cleanupSemanticMerged cleanupSemanticScan
    obtain ⟨hs1, hs2⟩ := cleanupSemanticLoop_preserves fuel diffs 0 [] 0 none 0 0 0 0 false
      (by intro s hs _; simp at hs)
    by_cases hch : (cleanupSemanticLoop fuel diffs 0 [] 0 none 0 0 0 0 false).2 = true
    · rw [if_pos hch]
      obtain ⟨hm1, hm2⟩ := diffCleanupMerge_preserves fuel
        (cleanupSemanticLoop fuel diffs 0 [] 0 none 0 0 0 0 false).1
      exact ⟨hm1.trans hs1, hm2.trans hs2⟩
    · rw [if_neg hch]
      exact ⟨hs1, hs2⟩
  unfold diffCleanupSemantic
  obtain ⟨hL1, hL2⟩ := diffCleanupSemanticLossless_preserves fuel
    (cleanupSemanticMerged fuel diffs)
  obtain ⟨hO1, hO2⟩ := cleanupSemanticOverlapLoop_preserves fuel
    (diffCleanupSemanticLossless fuel (cleanupSemanticMerged fuel diffs)) 1 (le_refl 1)
  exact ⟨hO1.trans (hL1.trans hmerged.1), hO2.trans (hL2.trans hmerged.2)⟩

/-- `diffCleanupEfficiency` preserves both texts. -/
theorem diffCleanupEfficiency_preserves (options : DMPOptions) (fuel : Nat)
    (diffs : List Diff) :
    diffText1 (diffCleanupEfficiency options fuel diffs) = diffText1 diffs ∧
    diffText2 (diffCleanupEfficiency options fuel diffs) = diffText2 diffs := by
  unfold diffCleanupEfficiency cleanupEfficiencyScan
  obtain ⟨hs1, hs2⟩ := cleanupEfficiencyLoop_preserves options.diffEditCost fuel diffs 0 [] 0
    none false false false false false (by intro s hs _; simp at hs)
  by_cases hch : (cleanupEfficiencyLoop options.diffEditCost fuel diffs 0 [] 0 none
      false false false false false).2 = true
  · rw [if_pos hch]
    obtain ⟨hm1, hm2⟩ := diffCleanupMerge_preserves fuel
      (cleanupEfficiencyLoop options.diffEditCost fuel diffs 0 [] 0 none
        false false false false false).1
    exact ⟨hm1.trans hs1, hm2.trans hs2⟩
  · rw [if_neg hch]
    exact ⟨hs1, hs2⟩

/-! ### The match claims -/

theorem jsSubstring_self (s : JStr) (a : Int) : jsSubstring s a a = [] := by
  unfold jsSubstring
  rw [if_pos (le_refl _)]
  simp

/-- C10: with the empty pattern, `matchMain` returns `loc` clamped into
`[0, text.length]` for every text, every integer `loc` and every
options record; the result is never `-1` (it is non-negative) and the
Bitap engine is never reached, because the empty pattern is an exact
substring at every clamped position. -/
theorem matchMain_empty_pattern (text : JStr) (loc : Int) (options : DMPOptions) :
    matchMain text [] loc options = Except.ok (max 0 (min loc (text.length : Int))) ∧
    0 ≤ max 0 (min loc (text.length : Int)) := by
  have hcond : jsSubstring text (matchLoc text loc)
      (matchLoc text loc + ((([] : JStr)).length : Int)) = ([] : JStr) := by
    have e : matchLoc text loc + ((([] : JStr)).length : Int) = matchLoc text loc := by
      simp
    rw [e]
    exact jsSubstring_self text _
  constructor
  · unfold matchMain
    by_cases h : text = ([] : JStr)
    · rw [if_pos h]
      subst h
      simp only [List.length_nil, Nat.cast_zero, Except.ok.injEq]
      omega
    · rw [if_neg h]
      have hlen : ¬ text.length = 0 := fun hl => h (List.eq_nil_of_length_eq_zero hl)
      rw [if_neg hlen, if_pos hcond]
      rfl
  · exact le_max_left 0 _

/-- C3 counterexample: a pattern that does occur in the text for which
`matchMain` with the default options does not return an occurrence — it
throws "Pattern too long" because the 33-unit pattern exceeds
`matchMaxBits = 32` once the fuzzy engine is reached.  (The distance
budget breaks the claim as well: with the default `matchDistance` of
1000, an occurrence more than 500 units from `loc` scores above the
0.5 threshold and `matchMain` returns `-1`.) -/
theorem matchMain_misses_occurrence :
    matchesAt ([121] ++ List.replicate 33 97) (List.replicate 33 97) 1 = true ∧
    matchMain ([121] ++ List.replicate 33 97) (List.replicate 33 97) 0 defaultOptions
      = Except.error "Pattern too long for this browser." := by
  constructor
  · rfl
  · rfl

/-- C3 amended: the second half of the claim holds: if the pattern
occurs at the in-range index `loc` itself, `matchMain` returns exactly
`loc`, for every options record (the exact-substring shortcut fires
before the fuzzy engine). -/
theorem matchMain_occurrence_at_loc (text pattern : JStr) (loc : Nat) (options : DMPOptions)
    (hocc : (text.drop loc).take pattern.length = pattern)
    (hrange : loc + pattern.length ≤ text.length) :
    matchMain text pattern (loc : Int) options = Except.ok (loc : Int) := by
  have hml : matchLoc text (loc : Int) = (loc : Int) := by
    unfold matchLoc
    omega
  unfold matchMain
  split
  · rename_i h
    have hl0 : loc = 0 := by
      have hlen := congrArg List.length h
      omega
    subst hl0
    simp
  · split
    · rename_i h hlen
      exfalso
      apply h
      have htn : text = [] := List.eq_nil_of_length_eq_zero hlen
      rw [htn] at hocc
      simp only [List.drop_nil, List.take_nil] at hocc
      rw [htn, ← hocc]
    · split
      · rw [hml]
      · rename_i h1 h2 h3
        exfalso
        apply h3
        rw [hml]
        have hcast : (loc : Int) + (pattern.length : Int)
            = ((loc + pattern.length : Nat) : Int) := by push_cast; ring
        rw [hcast, jsSubstring_nat text loc (loc + pattern.length) (by omega)]
        have e : loc + pattern.length - loc = pattern.length := by omega
        rw [e, hocc]

/-- C3 amended, witness: the pattern `[2,3]` occurs at index 1 of
`[1,2,3,4,5]` and `matchMain` returns 1. -/
theorem matchMain_occurrence_at_loc_witness :
    (([1, 2, 3, 4, 5] : JStr).drop 1).take 2 = ([2, 3] : JStr) ∧
    1 + ([2, 3] : JStr).length ≤ ([1, 2, 3, 4, 5] : JStr).length ∧
    matchMain [1, 2, 3, 4, 5] [2, 3] ((1 : Nat) : Int) defaultOptions
      = Except.ok ((1 : Nat) : Int) :=
  ⟨rfl, by decide,
    matchMain_occurrence_at_loc [1, 2, 3, 4, 5] [2, 3] 1 defaultOptions rfl (by decide)⟩

/-- C9: every cleanup pass preserves the reconstructed texts: for every
edit script `d` (and every fuel value and options record),
`diffCleanupMerge`, `diffCleanupSemantic`, `diffCleanupSemanticLossless`
and `diffCleanupEfficiency` leave `diffText1 d` and `diffText2 d`
unchanged. -/
theorem cleanup_passes_preserve_texts (fuel : Nat) (options : DMPOptions) (d : List Diff) :
    (diffText1 (diffCleanupMerge fuel d) = diffText1 d ∧
      diffText2 (diffCleanupMerge fuel d) = diffText2 d) ∧
    (diffText1 (diffCleanupSemantic fuel d) = diffText1 d ∧
      diffText2 (diffCleanupSemantic fuel d) = diffText2 d) ∧
    (diffText1 (diffCleanupSemanticLossless fuel d) = diffText1 d ∧
      diffText2 (diffCleanupSemanticLossless fuel d) = diffText2 d) ∧
    (diffText1 (diffCleanupEfficiency options fuel d) = diffText1 d ∧
      diffText2 (diffCleanupEfficiency options fuel d) = diffText2 d) :=
  ⟨diffCleanupMerge_preserves fuel d, diffCleanupSemantic_preserves fuel d,
    diffCleanupSemanticLossless_preserves fuel d,
    diffCleanupEfficiency_preserves options fuel d⟩

/-! ## Delta lemmas: hex digits, the `%20` replacement, decimal numbers -/

theorem hexDigit_ne_37 (n : Nat) : hexDigit n ≠ 37 := by
  unfold hexDigit
  split <;> omega

theorem hexVal_hexDigit (n : Nat) (h : n < 16) : hexVal (hexDigit n) = some n := by
  unfold hexVal hexDigit
  split
  · rw [if_pos (by omega)]
    exact congrArg some (by omega)
  · rw [if_neg (by omega), if_pos (by omega)]
    exact congrArg some (by omega)

theorem hexDigit_eq_50 (n : Nat) (h : hexDigit n = 50) : n = 2 := by
  unfold hexDigit at h
  split at h <;> omega

theorem replacePct20_cons (c : Nat) (hc : c ≠ 37) (t : JStr) :
    replacePct20 (c :: t) = c :: replacePct20 t := by
  rcases t with _ | ⟨d, _ | ⟨e, t'⟩⟩
  · rfl
  · rfl
  · simp only [replacePct20]
    rw [if_neg (fun h => hc h.1)]

theorem replacePct20_hit (t : JStr) :
    replacePct20 (37 :: 50 :: 48 :: t) = 32 :: replacePct20 t := by
  simp [replacePct20]

theorem replacePct20_esc (x y : Nat) (hx : x ≠ 37) (hy : y ≠ 37)
    (hxy : ¬(x = 50 ∧ y = 48)) (t : JStr) :
    replacePct20 (37 :: x :: y :: t) = 37 :: x :: y :: replacePct20 t := by
  have h1 : replacePct20 (37 :: x :: y :: t) = 37 :: replacePct20 (x :: y :: t) := by
    simp only [replacePct20]
    rw [if_neg (fun h => hxy ⟨h.2.1, h.2.2⟩)]
  rw [h1, replacePct20_cons x hx, replacePct20_cons y hy]

theorem replacePct20_nopct (t u : JStr) (h : 37 ∉ t) :
    replacePct20 (t ++ u) = t ++ replacePct20 u := by
  induction t with
  | nil => rfl
  | cons c t' ih =>
    have hc : c ≠ 37 := fun e => h (by rw [e]; exact List.mem_cons_self 37 t')
    rw [List.cons_append, replacePct20_cons c hc,
      ih (fun m => h (List.mem_cons_of_mem _ m)), List.cons_append]

theorem replacePct20_of_nopct (t : JStr) (h : 37 ∉ t) : replacePct20 t = t := by
  have := replacePct20_nopct t [] h
  simpa [replacePct20] using this

theorem natToDigitsGo_digits (fuel : Nat) : ∀ n c, c ∈ natToDigitsGo fuel n →
    48 ≤ c ∧ c ≤ 57 := by
  induction fuel with
  | zero =>
    intro n c hc
    simp [natToDigitsGo] at hc
  | succ f ih =>
    intro n c hc
    simp only [natToDigitsGo] at hc
    by_cases hn : n = 0
    · rw [if_pos hn] at hc
      simp at hc
    · rw [if_neg hn] at hc
      rcases List.mem_append.mp hc with h | h
      · exact ih _ _ h
      · simp at h
        omega

theorem natToDigits_digits (n : Nat) : ∀ c ∈ natToDigits n, 48 ≤ c ∧ c ≤ 57 := by
  intro c hc
  unfold natToDigits at hc
  by_cases hn : n = 0
  · rw [if_pos hn] at hc
    simp at hc
    omega
  · rw [if_neg hn] at hc
    exact natToDigitsGo_digits _ _ _ hc

theorem natToDigits_ne_nil (n : Nat) : natToDigits n ≠ [] := by
  unfold natToDigits
  by_cases hn : n = 0
  · rw [if_pos hn]
    simp
  · rw [if_neg hn]
    simp only [natToDigitsGo]
    rw [if_neg hn]
    simp

theorem digitsVal_go (fuel : Nat) : ∀ n a, n ≤ fuel →
    List.foldl (fun a c => a * 10 + (c - 48)) a (natToDigitsGo fuel n)
      = a * 10 ^ (natToDigitsGo fuel n).length + n := by
  induction fuel with
  | zero =>
    intro n a h
    have : n = 0 := by omega
    subst this
    simp [natToDigitsGo]
  | succ f ih =>
    intro n a h
    by_cases hn : n = 0
    · subst hn
      simp [natToDigitsGo]
    · have hrec : n / 10 ≤ f := by omega
      simp only [natToDigitsGo, if_neg hn]
      rw [List.foldl_append, ih (n / 10) a hrec]
      simp only [List.foldl, List.length_append, List.length_cons, List.length_nil]
      have e : 48 + n % 10 - 48 = n % 10 := by omega
      rw [e, pow_succ]
      have e2 : (a * 10 ^ (natToDigitsGo f (n / 10)).length + n / 10) * 10 + n % 10
          = a * (10 ^ (natToDigitsGo f (n / 10)).length * 10)
            + (n / 10 * 10 + n % 10) := by ring
      rw [e2]
      have e3 : n / 10 * 10 + n % 10 = n := by omega
      rw [e3]

theorem digitsVal_natToDigits (n : Nat) : digitsVal (natToDigits n) = n := by
  by_cases hn : n = 0
  · subst hn
    rfl
  · unfold natToDigits digitsVal
    rw [if_neg hn]
    have := digitsVal_go (n + 1) n 0 (by omega)
    simpa using this

theorem takeWhile_of_all (p : Nat → Bool) : ∀ t : JStr, (∀ c ∈ t, p c = true) →
    t.takeWhile p = t := by
  intro t
  induction t with
  | nil => intro; rfl
  | cons c t' ih =>
    intro h
    rw [List.takeWhile_cons, if_pos (h c (List.mem_cons_self c t')),
      ih (fun x hx => h x (List.mem_cons_of_mem _ hx))]

theorem isJsWhitespace_digit (c : Nat) (h1 : 48 ≤ c) (h2 : c ≤ 57) :
    isJsWhitespace c = false := by
  simp only [isJsWhitespace, Bool.or_eq_false_iff, Bool.and_eq_false_iff,
    beq_eq_false_iff_ne, ne_eq, decide_eq_false_iff_not, not_le]
  omega

theorem isDigit_of_bounds (c : Nat) (h1 : 48 ≤ c) (h2 : c ≤ 57) :
    isDigit c = true := by
  simp only [isDigit, Bool.and_eq_true, decide_eq_true_eq]
  omega

theorem jsParseInt_digits (s : JStr) (hne : s ≠ [])
    (hall : ∀ c ∈ s, 48 ≤ c ∧ c ≤ 57) :
    jsParseInt s = some ((digitsVal s : Int)) := by
  obtain ⟨d, rest, rfl⟩ : ∃ d rest, s = d :: rest := by
    cases s with
    | nil => exact absurd rfl hne
    | cons d rest => exact ⟨d, rest, rfl⟩
  have hd := hall d (List.mem_cons_self d rest)
  have hdw : (d :: rest).dropWhile (fun c => isJsWhitespace c) = d :: rest := by
    rw [List.dropWhile_cons, if_neg (by rw [isJsWhitespace_digit d hd.1 hd.2]; simp)]
  have htw : (d :: rest).takeWhile (fun c => isDigit c) = d :: rest :=
    takeWhile_of_all _ _ (fun c hc => isDigit_of_bounds c (hall c hc).1 (hall c hc).2)
  unfold jsParseInt
  rw [hdw]
  split
  · rename_i r heq
    have : d = 43 := (List.cons.injEq _ _ _ _ ▸ heq).1
    omega
  · rename_i r heq
    have : d = 45 := (List.cons.injEq _ _ _ _ ▸ heq).1
    omega
  · rw [htw, if_neg (by simp)]

theorem jsParseInt_natToDigits (n : Nat) :
    jsParseInt (natToDigits n) = some ((n : Int)) := by
  rw [jsParseInt_digits _ (natToDigits_ne_nil n) (natToDigits_digits n),
    digitsVal_natToDigits]

/-! ## Delta lemmas: the shape of `encodeURI` output -/

theorem encodeURIUnescaped_lt (cp : Nat) (h : encodeURIUnescaped cp = true) :
    cp < 128 := by
  simp only [encodeURIUnescaped, isAlphaNum, Bool.or_eq_true, Bool.and_eq_true,
    decide_eq_true_eq, beq_iff_eq] at h
  omega

theorem encodeURIUnescaped_of_ge (cp : Nat) (h : 128 ≤ cp) :
    encodeURIUnescaped cp = false := by
  cases hx : encodeURIUnescaped cp
  · rfl
  · exact absurd (encodeURIUnescaped_lt cp hx) (by omega)

theorem decodeReserved_unescaped (c : Nat) (h : decodeReserved c = true) :
    encodeURIUnescaped c = true := by
  simp only [decodeReserved, Bool.or_eq_true, beq_iff_eq] at h
  have hlt : c < 128 := by omega
  interval_cases c <;> revert h <;> decide

theorem encodeURIcp_unescaped (cp : Nat) (h : encodeURIUnescaped cp = true) :
    encodeURIcp cp = [cp] := by
  unfold encodeURIcp
  rw [if_pos h]

theorem encodeURIcp_one (cp : Nat) (h : encodeURIUnescaped cp = false)
    (hlt : cp < 128) :
    encodeURIcp cp = [37, hexDigit (cp / 16), hexDigit (cp % 16)] := by
  unfold encodeURIcp utf8Bytes
  rw [if_neg (by simp [h]), if_pos hlt]
  rfl

theorem encodeURIcp_two (cp : Nat) (h1 : 128 ≤ cp) (h2 : cp < 2048) :
    encodeURIcp cp = [37, hexDigit ((192 + cp / 64) / 16),
      hexDigit ((192 + cp / 64) % 16),
      37, hexDigit ((128 + cp % 64) / 16), hexDigit ((128 + cp % 64) % 16)] := by
  unfold encodeURIcp utf8Bytes
  rw [if_neg (by simp [encodeURIUnescaped_of_ge cp h1]),
    if_neg (by omega), if_pos h2]
  rfl

theorem encodeURIcp_three (cp : Nat) (h1 : 2048 ≤ cp) (h2 : cp < 65536) :
    encodeURIcp cp = [37, hexDigit ((224 + cp / 4096) / 16),
      hexDigit ((224 + cp / 4096) % 16),
      37, hexDigit ((128 + cp / 64 % 64) / 16), hexDigit ((128 + cp / 64 % 64) % 16),
      37, hexDigit ((128 + cp % 64) / 16), hexDigit ((128 + cp % 64) % 16)] := by
  unfold encodeURIcp utf8Bytes
  rw [if_neg (by simp [encodeURIUnescaped_of_ge cp (by omega)]),
    if_neg (by omega), if_neg (by omega), if_pos h2]
  rfl

theorem encodeURIcp_four (cp : Nat) (h1 : 65536 ≤ cp) :
    encodeURIcp cp = [37, hexDigit ((240 + cp / 262144) / 16),
      hexDigit ((240 + cp / 262144) % 16),
      37, hexDigit ((128 + cp / 4096 % 64) / 16),
      hexDigit ((128 + cp / 4096 % 64) % 16),
      37, hexDigit ((128 + cp / 64 % 64) / 16), hexDigit ((128 + cp / 64 % 64) % 16),
      37, hexDigit ((128 + cp % 64) / 16), hexDigit ((128 + cp % 64) % 16)] := by
  unfold encodeURIcp utf8Bytes
  rw [if_neg (by simp [encodeURIUnescaped_of_ge cp (by omega)]),
    if_neg (by omega), if_neg (by omega), if_neg (by omega)]
  rfl

theorem hexDigit_eq_48 (n : Nat) (h : hexDigit n = 48) : n = 0 := by
  unfold hexDigit at h
  split at h <;> omega

theorem hexDigit_hi_ne_50 (b : Nat) (hb : 128 ≤ b) : hexDigit (b / 16) ≠ 50 := by
  unfold hexDigit
  split <;> omega

theorem sixteen_div_mod (x : Nat) : 16 * (x / 16) + x % 16 = x := by omega

theorem replacePct20_escByte (b : Nat) (hb : 128 ≤ b) (t : JStr) :
    replacePct20 (37 :: hexDigit (b / 16) :: hexDigit (b % 16) :: t)
      = 37 :: hexDigit (b / 16) :: hexDigit (b % 16) :: replacePct20 t :=
  replacePct20_esc _ _ (hexDigit_ne_37 _) (hexDigit_ne_37 _)
    (fun h => hexDigit_hi_ne_50 b hb h.1) t

theorem replacePct20_wireCp (cp : Nat) (t : JStr) :
    replacePct20 (encodeURIcp cp ++ t) = wireCp cp ++ replacePct20 t := by
  by_cases hu : encodeURIUnescaped cp = true
  · have hne32 : cp ≠ 32 := fun e => by rw [e] at hu; exact absurd hu (by decide)
    have hne37 : cp ≠ 37 := fun e => by rw [e] at hu; exact absurd hu (by decide)
    rw [encodeURIcp_unescaped cp hu]
    unfold wireCp
    rw [if_neg hne32, encodeURIcp_unescaped cp hu, List.cons_append,
      List.nil_append, replacePct20_cons cp hne37, List.cons_append, List.nil_append]
  · have hu' : encodeURIUnescaped cp = false := by
      cases hx : encodeURIUnescaped cp
      · rfl
      · exact absurd hx hu
    rcases lt_or_le cp 128 with h128 | h128
    · by_cases h32 : cp = 32
      · subst h32
        rw [encodeURIcp_one 32 hu' (by omega)]
        show replacePct20 (37 :: 50 :: 48 :: t) = wireCp 32 ++ replacePct20 t
        rw [replacePct20_hit]
        rfl
      · rw [encodeURIcp_one cp hu' h128]
        unfold wireCp
        rw [if_neg h32, encodeURIcp_one cp hu' h128]
        show replacePct20 (37 :: hexDigit (cp / 16) :: hexDigit (cp % 16) :: t) = _
        rw [replacePct20_esc _ _ (hexDigit_ne_37 _) (hexDigit_ne_37 _)
          (fun h => h32 (by
            have e1 := hexDigit_eq_50 _ h.1
            have e2 := hexDigit_eq_48 _ h.2
            omega)) t]
        rfl
    · have h32 : cp ≠ 32 := by omega
      unfold wireCp
      rw [if_neg h32]
      rcases lt_or_le cp 2048 with h2048 | h2048
      · rw [encodeURIcp_two cp h128 h2048]
        show replacePct20 (37 :: hexDigit ((192 + cp / 64) / 16) ::
          hexDigit ((192 + cp / 64) % 16) :: (37 :: hexDigit ((128 + cp % 64) / 16) ::
          hexDigit ((128 + cp % 64) % 16) :: t)) = _
        rw [replacePct20_escByte _ (by omega), replacePct20_escByte _ (by omega)]
        rfl
      · rcases lt_or_le cp 65536 with h65536 | h65536
        · rw [encodeURIcp_three cp h2048 h65536]
          show replacePct20 (37 :: hexDigit ((224 + cp / 4096) / 16) ::
            hexDigit ((224 + cp / 4096) % 16) ::
            (37 :: hexDigit ((128 + cp / 64 % 64) / 16) ::
            hexDigit ((128 + cp / 64 % 64) % 16) ::
            (37 :: hexDigit ((128 + cp % 64) / 16) ::
            hexDigit ((128 + cp % 64) % 16) :: t))) = _
          rw [replacePct20_escByte _ (by omega), replacePct20_escByte _ (by omega),
            replacePct20_escByte _ (by omega)]
          rfl
        · rw [encodeURIcp_four cp h65536]
          show replacePct20 (37 :: hexDigit ((240 + cp / 262144) / 16) ::
            hexDigit ((240 + cp / 262144) % 16) ::
            (37 :: hexDigit ((128 + cp / 4096 % 64) / 16) ::
            hexDigit ((128 + cp / 4096 % 64) % 16) ::
            (37 :: hexDigit ((128 + cp / 64 % 64) / 16) ::
            hexDigit ((128 + cp / 64 % 64) % 16) ::
            (37 :: hexDigit ((128 + cp % 64) / 16) ::
            hexDigit ((128 + cp % 64) % 16) :: t)))) = _
          rw [replacePct20_escByte _ (by omega), replacePct20_escByte _ (by omega),
            replacePct20_escByte _ (by omega), replacePct20_escByte _ (by omega)]
          rfl

theorem readPctByte_hex (b : Nat) (h : b ≤ 255) (t : JStr) :
    readPctByte (37 :: hexDigit (b / 16) :: hexDigit (b % 16) :: t) = some (b, t) := by
  simp only [readPctByte]
  rw [hexVal_hexDigit _ (by omega), hexVal_hexDigit _ (by omega)]
  show some (16 * (b / 16) + b % 16, t) = some (b, t)
  rw [sixteen_div_mod]

theorem decodeURILoop_plain (c : Nat) (hc : c ≠ 37) (t : JStr) (f : Nat) :
    decodeURILoop (f + 1) (c :: t) =
      match decodeURILoop f t with
      | Except.error e => Except.error e
      | Except.ok out => Except.ok (c :: out) := by
  simp only [decodeURILoop]
  rw [if_pos hc]

theorem decodeURILoop_esc1 (cp : Nat) (h1 : cp < 128)
    (hres : decodeReserved cp = false) (t : JStr) (f : Nat) :
    decodeURILoop (f + 1) (37 :: hexDigit (cp / 16) :: hexDigit (cp % 16) :: t) =
      match decodeURILoop f t with
      | Except.error e => Except.error e
      | Except.ok out => Except.ok (cp :: out) := by
  simp only [decodeURILoop]
  rw [if_neg (fun h => h rfl)]
  split
  · rename_i heq
    rw [readPctByte_hex cp (by omega) t] at heq
    simp at heq
  · rename_i b1 rest2 heq
    rw [readPctByte_hex cp (by omega) t] at heq
    cases heq
    rw [if_pos h1, hres, if_neg (by simp)]

theorem decodeURILoop_esc2 (cp : Nat) (h1 : 128 ≤ cp) (h2 : cp < 2048)
    (t : JStr) (f : Nat) :
    decodeURILoop (f + 1) (37 :: hexDigit ((192 + cp / 64) / 16) ::
      hexDigit ((192 + cp / 64) % 16) :: 37 :: hexDigit ((128 + cp % 64) / 16) ::
      hexDigit ((128 + cp % 64) % 16) :: t) =
      match decodeURILoop f t with
      | Except.error e => Except.error e
      | Except.ok out => Except.ok (cp :: out) := by
  simp only [decodeURILoop]
  rw [if_neg (fun h => h rfl)]
  split
  · rename_i heq
    rw [readPctByte_hex (192 + cp / 64) (by omega) _] at heq
    simp at heq
  · rename_i b1 rest2 heq
    rw [readPctByte_hex (192 + cp / 64) (by omega) _] at heq
    cases heq
    have hc1 : ¬ 192 + cp / 64 < 128 := by omega
    have hc2 : 194 ≤ 192 + cp / 64 ∧ 192 + cp / 64 ≤ 223 := by omega
    rw [if_neg hc1, if_pos hc2]
    split
    · rename_i heq2
      rw [readPctByte_hex (128 + cp % 64) (by omega) t] at heq2
      simp at heq2
    · rename_i b2 rest3 heq2
      rw [readPctByte_hex (128 + cp % 64) (by omega) t] at heq2
      cases heq2
      have hc3 : 128 ≤ 128 + cp % 64 ∧ 128 + cp % 64 ≤ 191 := by omega
      rw [if_pos hc3]
      have hval : (192 + cp / 64 - 192) * 64 + (128 + cp % 64 - 128) = cp := by omega
      rw [hval]

theorem decodeURILoop_esc3 (cp : Nat) (h1 : 2048 ≤ cp) (h2 : cp < 65536)
    (hsur : ¬(55296 ≤ cp ∧ cp ≤ 57343)) (t : JStr) (f : Nat) :
    decodeURILoop (f + 1) (37 :: hexDigit ((224 + cp / 4096) / 16) ::
      hexDigit ((224 + cp / 4096) % 16) ::
      37 :: hexDigit ((128 + cp / 64 % 64) / 16) ::
      hexDigit ((128 + cp / 64 % 64) % 16) ::
      37 :: hexDigit ((128 + cp % 64) / 16) :: hexDigit ((128 + cp % 64) % 16) :: t) =
      match decodeURILoop f t with
      | Except.error e => Except.error e
      | Except.ok out => Except.ok (cp :: out) := by
  simp only [decodeURILoop]
  rw [if_neg (fun h => h rfl)]
  split
  · rename_i heq
    rw [readPctByte_hex (224 + cp / 4096) (by omega) _] at heq
    simp at heq
  · rename_i b1 rest2 heq
    rw [readPctByte_hex (224 + cp / 4096) (by omega) _] at heq
    cases heq
    have hc1 : ¬ 224 + cp / 4096 < 128 := by omega
    have hc2 : ¬ (194 ≤ 224 + cp / 4096 ∧ 224 + cp / 4096 ≤ 223) := by omega
    have hc3 : 224 ≤ 224 + cp / 4096 ∧ 224 + cp / 4096 ≤ 239 := by omega
    rw [if_neg hc1, if_neg hc2, if_pos hc3]
    split
    · rename_i heq2
      rw [readPctByte_hex (128 + cp / 64 % 64) (by omega) _] at heq2
      simp at heq2
    · rename_i b2 rest3 heq2
      rw [readPctByte_hex (128 + cp / 64 % 64) (by omega) _] at heq2
      cases heq2
      have hc4 : cont1Lo (224 + cp / 4096) ≤ 128 + cp / 64 % 64 ∧
          128 + cp / 64 % 64 ≤ cont1Hi (224 + cp / 4096) := by
        unfold cont1Lo cont1Hi
        split_ifs <;> omega
      rw [if_pos hc4]
      split
      · rename_i heq3
        rw [readPctByte_hex (128 + cp % 64) (by omega) t] at heq3
        simp at heq3
      · rename_i b3 rest4 heq3
        rw [readPctByte_hex (128 + cp % 64) (by omega) t] at heq3
        cases heq3
        have hc5 : 128 ≤ 128 + cp % 64 ∧ 128 + cp % 64 ≤ 191 := by omega
        rw [if_pos hc5]
        have hval : (224 + cp / 4096 - 224) * 4096 + (128 + cp / 64 % 64 - 128) * 64
            + (128 + cp % 64 - 128) = cp := by omega
        rw [hval]

theorem decodeURILoop_esc4 (cp : Nat) (h1 : 65536 ≤ cp) (h2 : cp ≤ 1114111)
    (t : JStr) (f : Nat) :
    decodeURILoop (f + 1) (37 :: hexDigit ((240 + cp / 262144) / 16) ::
      hexDigit ((240 + cp / 262144) % 16) ::
      37 :: hexDigit ((128 + cp / 4096 % 64) / 16) ::
      hexDigit ((128 + cp / 4096 % 64) % 16) ::
      37 :: hexDigit ((128 + cp / 64 % 64) / 16) ::
      hexDigit ((128 + cp / 64 % 64) % 16) ::
      37 :: hexDigit ((128 + cp % 64) / 16) :: hexDigit ((128 + cp % 64) % 16) :: t) =
      match decodeURILoop f t with
      | Except.error e => Except.error e
      | Except.ok out => Except.ok (cpToUtf16 cp ++ out) := by
  simp only [decodeURILoop]
  rw [if_neg (fun h => h rfl)]
  split
  · rename_i heq
    rw [readPctByte_hex (240 + cp / 262144) (by omega) _] at heq
    simp at heq
  · rename_i b1 rest2 heq
    rw [readPctByte_hex (240 + cp / 262144) (by omega) _] at heq
    cases heq
    have hc1 : ¬ 240 + cp / 262144 < 128 := by omega
    have hc2 : ¬ (194 ≤ 240 + cp / 262144 ∧ 240 + cp / 262144 ≤ 223) := by omega
    have hc3 : ¬ (224 ≤ 240 + cp / 262144 ∧ 240 + cp / 262144 ≤ 239) := by omega
    have hc4 : 240 ≤ 240 + cp / 262144 ∧ 240 + cp / 262144 ≤ 244 := by omega
    rw [if_neg hc1, if_neg hc2, if_neg hc3, if_pos hc4]
    split
    · rename_i heq2
      rw [readPctByte_hex (128 + cp / 4096 % 64) (by omega) _] at heq2
      simp at heq2
    · rename_i b2 rest3 heq2
      rw [readPctByte_hex (128 + cp / 4096 % 64) (by omega) _] at heq2
      cases heq2
      have hc5 : cont1Lo (240 + cp / 262144) ≤ 128 + cp / 4096 % 64 ∧
          128 + cp / 4096 % 64 ≤ cont1Hi (240 + cp / 262144) := by
        unfold cont1Lo cont1Hi
        split_ifs <;> omega
      rw [if_pos hc5]
      split
      · rename_i heq3
        rw [readPctByte_hex (128 + cp / 64 % 64) (by omega) _] at heq3
        simp at heq3
      · rename_i b3 rest4 heq3
        rw [readPctByte_hex (128 + cp / 64 % 64) (by omega) _] at heq3
        cases heq3
        have hc6 : 128 ≤ 128 + cp / 64 % 64 ∧ 128 + cp / 64 % 64 ≤ 191 := by omega
        rw [if_pos hc6]
        split
        · rename_i heq4
          rw [readPctByte_hex (128 + cp % 64) (by omega) t] at heq4
          simp at heq4
        · rename_i b4 rest5 heq4
          rw [readPctByte_hex (128 + cp % 64) (by omega) t] at heq4
          cases heq4
          have hc7 : 128 ≤ 128 + cp % 64 ∧ 128 + cp % 64 ≤ 191 := by omega
          rw [if_pos hc7]
          have hval : (240 + cp / 262144 - 240) * 262144
              + (128 + cp / 4096 % 64 - 128) * 4096
              + (128 + cp / 64 % 64 - 128) * 64 + (128 + cp % 64 - 128) = cp := by
            omega
          rw [hval]

theorem decodeWireCp (cp : Nat) (hv : validCp cp) (t : JStr) (f : Nat) :
    decodeURILoop (f + 1) (wireCp cp ++ t) =
      match decodeURILoop f t with
      | Except.error e => Except.error e
      | Except.ok out => Except.ok (cpToUtf16 cp ++ out) := by
  obtain ⟨hmax, hsur⟩ := hv
  by_cases h32 : cp = 32
  · subst h32
    show decodeURILoop (f + 1) (32 :: t) = _
    rw [decodeURILoop_plain 32 (by omega) t f]
    rcases hdec : decodeURILoop f t with e | out <;> rfl
  · unfold wireCp
    rw [if_neg h32]
    by_cases hu : encodeURIUnescaped cp = true
    · have hlt := encodeURIUnescaped_lt cp hu
      have h37 : cp ≠ 37 := fun e => by rw [e] at hu; exact absurd hu (by decide)

      rw [encodeURIcp_unescaped cp hu]
      show decodeURILoop (f + 1) (cp :: t) = _
      rw [decodeURILoop_plain cp h37 t f]
      have h16 : cpToUtf16 cp = [cp] := by
        unfold cpToUtf16
        rw [if_pos (by omega)]
      rw [h16]
      rcases hdec : decodeURILoop f t with e | out <;> rfl
    · have hu' : encodeURIUnescaped cp = false := by
        cases hx : encodeURIUnescaped cp
        · rfl
        · exact absurd hx hu
      rcases lt_or_le cp 128 with h128 | h128
      · have hres : decodeReserved cp = false := by
          cases hr : decodeReserved cp
          · rfl
          · rw [decodeReserved_unescaped cp hr] at hu'
            exact absurd hu' (by simp)
        rw [encodeURIcp_one cp hu' h128]
        show decodeURILoop (f + 1)
          (37 :: hexDigit (cp / 16) :: hexDigit (cp % 16) :: t) = _
        rw [decodeURILoop_esc1 cp h128 hres t f]
        have h16 : cpToUtf16 cp = [cp] := by
          unfold cpToUtf16
          rw [if_pos (by omega)]
        rw [h16]
        rcases hdec : decodeURILoop f t with e | out <;> rfl
      · rcases lt_or_le cp 2048 with h2048 | h2048
        · rw [encodeURIcp_two cp h128 h2048]
          show decodeURILoop (f + 1) (37 :: hexDigit ((192 + cp / 64) / 16) ::
            hexDigit ((192 + cp / 64) % 16) :: 37 ::
            hexDigit ((128 + cp % 64) / 16) :: hexDigit ((128 + cp % 64) % 16) :: t) = _
          rw [decodeURILoop_esc2 cp h128 h2048 t f]
          have h16 : cpToUtf16 cp = [cp] := by
            unfold cpToUtf16
            rw [if_pos (by omega)]
          rw [h16]
          rcases hdec : decodeURILoop f t with e | out <;> rfl
        · rcases lt_or_le cp 65536 with h65536 | h65536
          · rw [encodeURIcp_three cp h2048 h65536]
            show decodeURILoop (f + 1) (37 :: hexDigit ((224 + cp / 4096) / 16) ::
              hexDigit ((224 + cp / 4096) % 16) ::
              37 :: hexDigit ((128 + cp / 64 % 64) / 16) ::
              hexDigit ((128 + cp / 64 % 64) % 16) ::
              37 :: hexDigit ((128 + cp % 64) / 16) ::
              hexDigit ((128 + cp % 64) % 16) :: t) = _
            rw [decodeURILoop_esc3 cp h2048 h65536 hsur t f]
            have h16 : cpToUtf16 cp = [cp] := by
              unfold cpToUtf16
              rw [if_pos (by omega)]
            rw [h16]
            rcases hdec : decodeURILoop f t with e | out <;> rfl
          · rw [encodeURIcp_four cp h65536]
            show decodeURILoop (f + 1) (37 :: hexDigit ((240 + cp / 262144) / 16) ::
              hexDigit ((240 + cp / 262144) % 16) ::
              37 :: hexDigit ((128 + cp / 4096 % 64) / 16) ::
              hexDigit ((128 + cp / 4096 % 64) % 16) ::
              37 :: hexDigit ((128 + cp / 64 % 64) / 16) ::
              hexDigit ((128 + cp / 64 % 64) % 16) ::
              37 :: hexDigit ((128 + cp % 64) / 16) ::
              hexDigit ((128 + cp % 64) % 16) :: t) = _
            exact decodeURILoop_esc4 cp h65536 hmax t f

theorem replacePct20_wireCps (cps : List Nat) (t : JStr) :
    replacePct20 (encodeCps cps ++ t) = wireCps cps ++ replacePct20 t := by
  induction cps with
  | nil => rfl
  | cons cp rest ih =>
    show replacePct20 (encodeURIcp cp ++ encodeCps rest ++ t) = _
    rw [List.append_assoc, replacePct20_wireCp cp, ih]
    show _ = wireCp cp ++ wireCps rest ++ replacePct20 t
    rw [List.append_assoc]

theorem wireCp_ne_nil (cp : Nat) : wireCp cp ≠ [] := by
  unfold wireCp
  split
  · simp
  · by_cases hu : encodeURIUnescaped cp = true
    · rw [encodeURIcp_unescaped cp hu]
      simp
    · have hu' : encodeURIUnescaped cp = false := by
        cases hx : encodeURIUnescaped cp
        · rfl
        · exact absurd hx hu
      rcases lt_or_le cp 128 with h | h
      · rw [encodeURIcp_one cp hu' h]
        simp
      · rcases lt_or_le cp 2048 with h2 | h2
        · rw [encodeURIcp_two cp h h2]
          simp
        · rcases lt_or_le cp 65536 with h3 | h3
          · rw [encodeURIcp_three cp h2 h3]
            simp
          · rw [encodeURIcp_four cp h3]
            simp

theorem wireCps_length (cps : List Nat) : cps.length ≤ (wireCps cps).length := by
  induction cps with
  | nil => simp [wireCps]
  | cons cp rest ih =>
    show (cp :: rest).length ≤ (wireCp cp ++ wireCps rest).length
    rw [List.length_append, List.length_cons]
    have h1 : 0 < (wireCp cp).length := List.length_pos.mpr (wireCp_ne_nil cp)
    omega

theorem decodeURILoop_wireCps (cps : List Nat) (hv : ∀ cp ∈ cps, validCp cp) :
    ∀ f, cps.length < f →
    decodeURILoop f (wireCps cps) = Except.ok (cpsToUtf16 cps) := by
  induction cps with
  | nil =>
    intro f hf
    obtain ⟨f', rfl⟩ : ∃ f', f = f' + 1 := ⟨f - 1, by omega⟩
    rfl
  | cons cp rest ih =>
    intro f hf
    obtain ⟨f', rfl⟩ : ∃ f', f = f' + 1 := ⟨f - 1, by omega⟩
    show decodeURILoop (f' + 1) (wireCp cp ++ wireCps rest) = _
    rw [decodeWireCp cp (hv cp (List.mem_cons_self cp rest)) _ f',
      ih (fun c hc => hv c (List.mem_cons_of_mem _ hc)) f'
        (by simp only [List.length_cons] at hf; omega)]
    rfl

theorem decodeURI_wireCps (cps : List Nat) (hv : ∀ cp ∈ cps, validCp cp) :
    decodeURI (wireCps cps) = Except.ok (cpsToUtf16 cps) :=
  decodeURILoop_wireCps cps hv _ (by have := wireCps_length cps; omega)

set_option maxRecDepth 4096 in
theorem utf16_roundtrip : ∀ n (s : JStr), s.length ≤ n → (∀ c ∈ s, c < 65536) →
    ∀ cps, utf16ToCodePoints s = some cps →
    cpsToUtf16 cps = s ∧ ∀ cp ∈ cps, validCp cp := by
  intro n
  induction n with
  | zero =>
    intro s hlen hb cps h
    have hs : s = [] := by
      cases s
      · rfl
      · simp at hlen
    subst hs
    simp only [utf16ToCodePoints, Option.some.injEq] at h
    subst h
    exact ⟨rfl, by simp⟩
  | succ n ih =>
    intro s hlen hb cps h
    cases s with
    | nil =>
      simp only [utf16ToCodePoints, Option.some.injEq] at h
      subst h
      exact ⟨rfl, by simp⟩
    | cons c rest =>
      cases rest with
      | nil =>
        simp only [utf16ToCodePoints] at h
        by_cases hhi : 55296 ≤ c ∧ c ≤ 56319
        · rw [if_pos hhi] at h
          simp at h
        · rw [if_neg hhi] at h
          by_cases hlo : 56320 ≤ c ∧ c ≤ 57343
          · rw [if_pos hlo] at h
            simp at h
          · rw [if_neg hlo] at h
            simp only [utf16ToCodePoints, Option.map_some', Option.some.injEq] at h
            subst h
            constructor
            · simp only [cpsToUtf16]
              have h16 : cpToUtf16 c = [c] := by
                unfold cpToUtf16
                rw [if_pos (hb c (by simp))]
              rw [h16]
              rfl
            · intro cp hcp
              rcases List.mem_cons.mp hcp with rfl | hcp'
              · exact ⟨by have := hb cp (by simp); omega, by omega⟩
              · simp at hcp'
      | cons c2 rest2 =>
        simp only [utf16ToCodePoints] at h
        by_cases hhi : 55296 ≤ c ∧ c ≤ 56319
        · rw [if_pos hhi] at h
          by_cases hlo2 : 56320 ≤ c2 ∧ c2 ≤ 57343
          · rw [if_pos hlo2] at h
            rcases hrec : utf16ToCodePoints rest2 with _ | cps'
            · rw [hrec] at h
              simp at h
            · rw [hrec] at h
              simp only [Option.map_some', Option.some.injEq] at h
              subst h
              have ihr := ih rest2 (by simp at hlen; omega)
                (fun x hx => hb x (by simp [hx])) cps' hrec
              constructor
              · simp only [cpsToUtf16]
                rw [ihr.1]
                have hpair : cpToUtf16 (65536 + (c - 55296) * 1024 + (c2 - 56320))
                    = [c, c2] := by
                  unfold cpToUtf16
                  rw [if_neg (by omega)]
                  have e1 : 65536 + (c - 55296) * 1024 + (c2 - 56320) - 65536
                      = (c - 55296) * 1024 + (c2 - 56320) := by omega
                  rw [e1]
                  have e2 : ((c - 55296) * 1024 + (c2 - 56320)) / 1024 = c - 55296 := by
                    omega
                  have e3 : ((c - 55296) * 1024 + (c2 - 56320)) % 1024 = c2 - 56320 := by
                    omega
                  rw [e2, e3]
                  have e4 : 55296 + (c - 55296) = c := by omega
                  have e5 : 56320 + (c2 - 56320) = c2 := by omega
                  rw [e4, e5]
                rw [hpair]
                rfl
              · intro cp hcp
                rcases List.mem_cons.mp hcp with heq | hcp'
                · rw [heq]
                  exact ⟨by omega, by omega⟩
                · exact ihr.2 cp hcp'
          · rw [if_neg hlo2] at h
            simp at h
        · rw [if_neg hhi] at h
          by_cases hlo : 56320 ≤ c ∧ c ≤ 57343
          · rw [if_pos hlo] at h
            simp at h
          · rw [if_neg hlo] at h
            rcases hrec : utf16ToCodePoints (c2 :: rest2) with _ | cps'
            · rw [hrec] at h
              simp at h
            · rw [hrec] at h
              simp only [Option.map_some', Option.some.injEq] at h
              subst h
              have ihr := ih (c2 :: rest2) (by simp at hlen ⊢; omega)
                (fun x hx => hb x (by simp at hx ⊢; tauto)) cps' hrec
              constructor
              · simp only [cpsToUtf16]
                rw [ihr.1]
                have h16 : cpToUtf16 c = [c] := by
                  unfold cpToUtf16
                  rw [if_pos (hb c (by simp))]
                rw [h16]
                rfl
              · intro cp hcp
                rcases List.mem_cons.mp hcp with rfl | hcp'
                · exact ⟨by have := hb cp (by simp); omega, by omega⟩
                · exact ihr.2 cp hcp'

theorem jsSplit_ne_nil (c : Nat) (s : JStr) : jsSplit c s ≠ [] := by
  induction s with
  | nil => simp [jsSplit]
  | cons u rest ih =>
    simp only [jsSplit]
    split
    · simp
    · split
      · simp
      · simp

theorem jsSplit_nosep (c : Nat) (s : JStr) (h : c ∉ s) : jsSplit c s = [s] := by
  induction s with
  | nil => rfl
  | cons u rest ih =>
    have hu : u ≠ c := fun e => h (by rw [← e]; exact List.mem_cons_self u rest)
    simp only [jsSplit]
    rw [if_neg hu, ih (fun m => h (List.mem_cons_of_mem _ m))]

theorem jsSplit_sep (c : Nat) (t r : JStr) (h : c ∉ t) :
    jsSplit c (t ++ c :: r) = t :: jsSplit c r := by
  induction t with
  | nil =>
    show jsSplit c (c :: r) = [] :: jsSplit c r
    simp [jsSplit]
  | cons u t' ih =>
    have hu : u ≠ c := fun e => h (by rw [← e]; exact List.mem_cons_self u t')
    show jsSplit c (u :: (t' ++ c :: r)) = _
    simp only [jsSplit]
    rw [if_neg hu, ih (fun m => h (List.mem_cons_of_mem _ m))]

theorem jsSplit_joinTabs (us : List JStr) (hne : us ≠ [])
    (hfree : ∀ t ∈ us, 9 ∉ t) : jsSplit 9 (joinTabs us) = us := by
  induction us with
  | nil => exact absurd rfl hne
  | cons t us' ih =>
    cases us' with
    | nil => exact jsSplit_nosep 9 t (hfree t (List.mem_cons_self t []))
    | cons t2 us'' =>
      show jsSplit 9 (t ++ 9 :: joinTabs (t2 :: us'')) = _
      rw [jsSplit_sep 9 t _ (hfree t (List.mem_cons_self t _)),
        ih (by simp) (fun u hu => hfree u (List.mem_cons_of_mem _ hu))]

theorem hexDigit_ge (n : Nat) : 48 ≤ hexDigit n := by
  unfold hexDigit
  split <;> omega

theorem encodeURIUnescaped_ge (cp : Nat) (h : encodeURIUnescaped cp = true) :
    33 ≤ cp := by
  simp only [encodeURIUnescaped, isAlphaNum, Bool.or_eq_true, Bool.and_eq_true,
    decide_eq_true_eq, beq_iff_eq] at h
  omega

theorem wireCp_mem_ge (cp x : Nat) (hx : x ∈ wireCp cp) : 32 ≤ x := by
  unfold wireCp at hx
  by_cases h32 : cp = 32
  · rw [if_pos h32] at hx
    simp at hx
    omega
  · rw [if_neg h32] at hx
    by_cases hu : encodeURIUnescaped cp = true
    · rw [encodeURIcp_unescaped cp hu] at hx
      simp at hx
      have := encodeURIUnescaped_ge cp hu
      omega
    · have hu' : encodeURIUnescaped cp = false := by
        cases hq : encodeURIUnescaped cp
        · rfl
        · exact absurd hq hu
      rcases lt_or_le cp 128 with h | h
      · rw [encodeURIcp_one cp hu' h] at hx
        simp only [List.mem_cons, List.not_mem_nil, or_false] at hx
        rcases hx with rfl | rfl | rfl
        all_goals first | omega | exact le_trans (by omega) (hexDigit_ge _)
      · rcases lt_or_le cp 2048 with h2 | h2
        · rw [encodeURIcp_two cp h h2] at hx
          simp only [List.mem_cons, List.not_mem_nil, or_false] at hx
          rcases hx with rfl | rfl | rfl | rfl | rfl | rfl
          all_goals first | omega | exact le_trans (by omega) (hexDigit_ge _)
        · rcases lt_or_le cp 65536 with h3 | h3
          · rw [encodeURIcp_three cp h2 h3] at hx
            simp only [List.mem_cons, List.not_mem_nil, or_false] at hx
            rcases hx with rfl | rfl | rfl | rfl | rfl | rfl | rfl | rfl | rfl
            all_goals first | omega | exact le_trans (by omega) (hexDigit_ge _)
          · rw [encodeURIcp_four cp h3] at hx
            simp only [List.mem_cons, List.not_mem_nil, or_false] at hx
            rcases hx with rfl | rfl | rfl | rfl | rfl | rfl | rfl | rfl | rfl |
              rfl | rfl | rfl
            all_goals first | omega | exact le_trans (by omega) (hexDigit_ge _)

theorem wireCps_mem_ge (cps : List Nat) (x : Nat) (hx : x ∈ wireCps cps) :
    32 ≤ x := by
  induction cps with
  | nil => simp [wireCps] at hx
  | cons cp rest ih =>
    rcases List.mem_append.mp hx with h | h
    · exact wireCp_mem_ge cp x h
    · exact ih h

theorem nine_not_mem_wireToken (x : Diff) : 9 ∉ wireToken x := by
  intro hm
  unfold wireToken at hm
  rcases x with ⟨op, payload⟩
  cases op <;> simp only [] at hm
  · rcases List.mem_cons.mp hm with h | h
    · omega
    · have := (natToDigits_digits _ _ h).1
      omega
  · rcases List.mem_cons.mp hm with h | h
    · omega
    · have := wireCps_mem_ge _ _ h
      omega
  · rcases List.mem_cons.mp hm with h | h
    · omega
    · have := (natToDigits_digits _ _ h).1
      omega

theorem replacePct20_rawToken (x : Diff) (t : JStr) :
    replacePct20 (rawToken x ++ t) = wireToken x ++ replacePct20 t := by
  unfold rawToken wireToken
  rcases x with ⟨op, payload⟩
  cases op <;> simp only []
  · have hfree : 37 ∉ 45 :: natToDigits payload.length := by
      intro hm
      rcases List.mem_cons.mp hm with h | h
      · omega
      · have := (natToDigits_digits _ _ h).1
        omega
    exact replacePct20_nopct _ t hfree
  · rw [List.cons_append, replacePct20_cons 43 (by omega),
      replacePct20_wireCps, List.cons_append]
  · have hfree : 37 ∉ 61 :: natToDigits payload.length := by
      intro hm
      rcases List.mem_cons.mp hm with h | h
      · omega
      · have := (natToDigits_digits _ _ h).1
        omega
    exact replacePct20_nopct _ t hfree

theorem replace_joinTabs (d : List Diff) :
    replacePct20 (joinTabs (d.map rawToken)) = joinTabs (d.map wireToken) := by
  induction d with
  | nil => rfl
  | cons x d' ih =>
    cases d' with
    | nil =>
      show replacePct20 (rawToken x) = wireToken x
      have h := replacePct20_rawToken x []
      simpa [replacePct20] using h
    | cons y d'' =>
      simp only [List.map_cons]
      show replacePct20 (rawToken x ++ 9 :: joinTabs (rawToken y :: d''.map rawToken))
        = wireToken x ++ 9 :: joinTabs (wireToken y :: d''.map wireToken)
      rw [replacePct20_rawToken x _, replacePct20_cons 9 (by omega)]
      simp only [List.map_cons] at ih
      rw [ih]

theorem deltaTokens_wf (d : List Diff)
    (hwf : ∀ x ∈ d, x.1 = DiffOp.insert → wellFormedUtf16 x.2) :
    deltaTokens d = Except.ok (d.map rawToken) := by
  induction d with
  | nil => rfl
  | cons x d' ih =>
    simp only [deltaTokens, List.map_cons]
    have hx : deltaToken x = Except.ok (rawToken x) := by
      unfold deltaToken rawToken
      rcases x with ⟨op, payload⟩
      cases op <;> simp only []
      obtain ⟨cps, hc⟩ := Option.isSome_iff_exists.mp
        (hwf (DiffOp.insert, payload) (List.mem_cons_self _ _) rfl).2
      unfold encodeURI
      rw [hc]
      simp [hc]
    rw [hx, ih (fun y hy => hwf y (List.mem_cons_of_mem _ hy))]

theorem fromDeltaLoop_insert (text1 : JStr) (cps : List Nat)
    (hv : ∀ cp ∈ cps, validCp cp) (rest : List JStr) (pointer : Nat) :
    fromDeltaLoop text1 ((43 :: wireCps cps) :: rest) pointer =
      match fromDeltaLoop text1 rest pointer with
      | Except.error e => Except.error e
      | Except.ok (ds, p) =>
        Except.ok ((DiffOp.insert, cpsToUtf16 cps) :: ds, p) := by
  simp only [fromDeltaLoop]
  rw [if_pos (by simp)]
  rw [jsSubstringFrom_one, show (43 :: wireCps cps).drop 1 = wireCps cps from rfl]
  split
  · rename_i heq
    rw [decodeURI_wireCps cps hv] at heq
    simp at heq
  · rename_i s heq
    rw [decodeURI_wireCps cps hv] at heq
    cases heq
    rfl

theorem fromDeltaLoop_num (text1 : JStr) (mark : Nat) (hmark : mark = 45 ∨ mark = 61)
    (n : Nat) (rest : List JStr) (pointer : Nat) :
    fromDeltaLoop text1 ((mark :: natToDigits n) :: rest) pointer =
      match fromDeltaLoop text1 rest (pointer + n) with
      | Except.error e => Except.error e
      | Except.ok (ds, p) =>
        Except.ok (((if mark = 61 then DiffOp.equal else DiffOp.delete),
          jsSubstring text1 (pointer : Int)
            ((pointer : Int) + (n : Int))) :: ds, p) := by
  simp only [fromDeltaLoop]
  rw [if_neg (by simp; omega), if_pos (by simp; omega)]
  rw [jsSubstringFrom_one, show (mark :: natToDigits n).drop 1 = natToDigits n from rfl]
  split
  · rename_i heq
    rw [jsParseInt_natToDigits n] at heq
    simp at heq
  · rename_i m heq
    rw [jsParseInt_natToDigits n] at heq
    cases heq
    rw [if_neg (by omega)]
    rw [show ((n : Int)).toNat = n by simp]
    simp only [List.headD_cons]

theorem fromDeltaLoop_blank (text1 : JStr) (rest : List JStr) (pointer : Nat) :
    fromDeltaLoop text1 ([] :: rest) pointer = fromDeltaLoop text1 rest pointer := by
  simp only [fromDeltaLoop]
  rw [if_neg (by simp), if_neg (by simp), if_neg (by simp)]

theorem jsSubstring_mid (pre t r : JStr) :
    jsSubstring (pre ++ (t ++ r)) (pre.length : Int)
      ((pre.length : Int) + (t.length : Int)) = t := by
  have e : ((pre.length : Int) + (t.length : Int))
      = ((pre.length + t.length : Nat) : Int) := by push_cast; ring
  rw [e, jsSubstring_nat _ _ _ (by omega), List.drop_left]
  have e2 : pre.length + t.length - pre.length = t.length := by omega
  rw [e2, List.take_left]

theorem fromDeltaLoop_wire (d : List Diff) :
    ∀ pre : JStr, (∀ x ∈ d, x.1 = DiffOp.insert → wellFormedUtf16 x.2) →
    fromDeltaLoop (pre ++ diffText1 d) (d.map wireToken) pre.length
      = Except.ok (d, pre.length + (diffText1 d).length) := by
  induction d with
  | nil =>
    intro pre hwf
    show fromDeltaLoop (pre ++ []) [] pre.length = _
    simp [fromDeltaLoop, diffText1]
  | cons x d' ih =>
    intro pre hwf
    rcases x with ⟨op, payload⟩
    have hwd : ∀ y ∈ d', y.1 = DiffOp.insert → wellFormedUtf16 y.2 :=
      fun y hy => hwf y (List.mem_cons_of_mem _ hy)
    cases op with
    | insert =>
      have hwfx := hwf (DiffOp.insert, payload) (List.mem_cons_self _ _) rfl
      obtain ⟨cps, hc⟩ := Option.isSome_iff_exists.mp hwfx.2
      have hrt := utf16_roundtrip payload.length payload (le_refl _) hwfx.1 cps hc
      have htok : wireToken (DiffOp.insert, payload) = 43 :: wireCps cps := by
        unfold wireToken
        simp [hc]
      have ht1 : diffText1 ((DiffOp.insert, payload) :: d') = diffText1 d' := by
        simp [diffText1]
      simp only [List.map_cons, htok, ht1]
      rw [fromDeltaLoop_insert _ cps hrt.2 _ _, ih pre hwd, hrt.1]
    | delete =>
      have htok : wireToken (DiffOp.delete, payload)
          = 45 :: natToDigits payload.length := by
        unfold wireToken
        simp
      have ht1 : diffText1 ((DiffOp.delete, payload) :: d')
          = payload ++ diffText1 d' := by
        simp [diffText1]
      simp only [List.map_cons, htok, ht1]
      rw [fromDeltaLoop_num _ 45 (Or.inl rfl) payload.length _ _,
        jsSubstring_mid pre payload (diffText1 d')]
      have hassoc : pre ++ (payload ++ diffText1 d')
          = (pre ++ payload) ++ diffText1 d' := (List.append_assoc _ _ _).symm
      have hlen : pre.length + payload.length = (pre ++ payload).length := by simp
      rw [hassoc, hlen, ih (pre ++ payload) hwd, if_neg (by omega)]
      have hlen2 : (pre ++ payload).length + (diffText1 d').length
          = pre.length + (payload ++ diffText1 d').length := by
        simp only [List.length_append]
        omega
      rw [hlen2]
    | equal =>
      have htok : wireToken (DiffOp.equal, payload)
          = 61 :: natToDigits payload.length := by
        unfold wireToken
        simp
      have ht1 : diffText1 ((DiffOp.equal, payload) :: d')
          = payload ++ diffText1 d' := by
        simp [diffText1]
      simp only [List.map_cons, htok, ht1]
      rw [fromDeltaLoop_num _ 61 (Or.inr rfl) payload.length _ _,
        jsSubstring_mid pre payload (diffText1 d')]
      have hassoc : pre ++ (payload ++ diffText1 d')
          = (pre ++ payload) ++ diffText1 d' := (List.append_assoc _ _ _).symm
      have hlen : pre.length + payload.length = (pre ++ payload).length := by simp
      rw [hassoc, hlen, ih (pre ++ payload) hwd, if_pos rfl]
      have hlen2 : (pre ++ payload).length + (diffText1 d').length
          = pre.length + (payload ++ diffText1 d').length := by
        simp only [List.length_append]
        omega
      rw [hlen2]

/-- **C4** (amended): for an edit script whose entries carry non-empty
payloads and whose INSERT payloads are genuine UTF-16 (units below
`2^16`, no lone surrogates), `diffToDelta` succeeds and decoding the
delta against the script's own source text reproduces the script:
`diffFromDelta (diffText1 d) (diffToDelta d) = d`. -/
theorem diffToDelta_fromDelta_roundtrip (d : List Diff)
    (hne : ∀ x ∈ d, x.2 ≠ [])
    (hwf : ∀ x ∈ d, x.1 = DiffOp.insert → wellFormedUtf16 x.2) :
    ∃ delta, diffToDelta d = Except.ok delta ∧
      diffFromDelta (diffText1 d) delta = Except.ok d := by
  refine ⟨replacePct20 (joinTabs (d.map rawToken)), ?_, ?_⟩
  · unfold diffToDelta
    rw [deltaTokens_wf d hwf]
  · rw [replace_joinTabs d]
    unfold diffFromDelta
    cases d with
    | nil => rfl
    | cons x d'' =>
      have hfree : ∀ t ∈ (x :: d'').map wireToken, 9 ∉ t := by
        intro t ht
        obtain ⟨y, hy, rfl⟩ := List.mem_map.mp ht
        exact nine_not_mem_wireToken y
      rw [jsSplit_joinTabs _ (by simp) hfree]
      have hloop := fromDeltaLoop_wire (x :: d'') [] hwf
      simp only [List.nil_append, List.length_nil, Nat.zero_add] at hloop
      rw [hloop]
      simp

/-- **C4** (counterexample to the claim as stated): the single-entry
script whose INSERT payload is the non-empty string of one lone high
surrogate (unit `0xD800`) makes `diffToDelta` itself throw `URIError`
(from `encodeURI`), so the round-trip equation fails for it. -/
theorem diffToDelta_lone_surrogate :
    ((DiffOp.insert, ([55296] : JStr)) : Diff).2 ≠ [] ∧
      diffToDelta [(DiffOp.insert, ([55296] : JStr))]
        = Except.error "URI malformed" :=
  ⟨by simp, rfl⟩

/-- Witness: the amended C4 round-trip applied to the concrete script
`[EQUAL "a", DELETE "bc", INSERT "d %"]`. -/
theorem diffToDelta_fromDelta_roundtrip_witness :
    ∃ delta, diffToDelta [(DiffOp.equal, [97]), (DiffOp.delete, [98, 99]),
        (DiffOp.insert, [100, 32, 37])] = Except.ok delta ∧
      diffFromDelta (diffText1 [(DiffOp.equal, [97]), (DiffOp.delete, [98, 99]),
          (DiffOp.insert, [100, 32, 37])]) delta
        = Except.ok [(DiffOp.equal, [97]), (DiffOp.delete, [98, 99]),
          (DiffOp.insert, [100, 32, 37])] :=
  diffToDelta_fromDelta_roundtrip _ (by decide) (by decide)

theorem fromDeltaLoop_error_of_bad (text1 : JStr) (toks : List JStr) :
    ∀ pointer, (∃ tok ∈ toks, badDeltaToken tok) →
    ∃ e, fromDeltaLoop text1 toks pointer = Except.error e := by
  induction toks with
  | nil =>
    intro pointer h
    obtain ⟨tok, htok, _⟩ := h
    simp at htok
  | cons tok rest ih =>
    intro pointer h
    obtain ⟨tok', htok', hbad⟩ := h
    rcases List.mem_cons.mp htok' with rfl | hmem
    · -- the head token itself is bad
      rcases hbad with ⟨h43, e, hdec⟩ | ⟨hnum, hbadnum⟩ | ⟨hne, h43, h45, h61⟩
      · simp only [fromDeltaLoop]
        rw [if_pos h43]
        split
        · exact ⟨_, rfl⟩
        · rename_i s heq
          rw [hdec] at heq
          simp at heq
      · have h43 : ¬ tok'.headD 0 = 43 := by
          rcases hnum with h | h <;> omega
        simp only [fromDeltaLoop]
        rw [if_neg h43, if_pos hnum]
        rcases hbadnum with hp | ⟨n, hp, hneg⟩
        · split
          · exact ⟨_, rfl⟩
          · rename_i n heq
            rw [hp] at heq
            simp at heq
        · split
          · rename_i heq
            rw [hp] at heq
            simp at heq
          · rename_i n' heq
            rw [hp] at heq
            cases heq
            rw [if_pos hneg]
            exact ⟨_, rfl⟩
      · simp only [fromDeltaLoop]
        rw [if_neg h43, if_neg (fun hc => by rcases hc with h | h; exact h45 h; exact h61 h),
          if_pos hne]
        exact ⟨_, rfl⟩
    · -- a bad token sits in the tail: the head either throws or recurses
      by_cases h43 : tok.headD 0 = 43
      · simp only [fromDeltaLoop]
        rw [if_pos h43]
        split
        · exact ⟨_, rfl⟩
        · obtain ⟨e', he'⟩ := ih pointer ⟨tok', hmem, hbad⟩
          rw [he']
          exact ⟨e', rfl⟩
      · by_cases hnum : tok.headD 0 = 45 ∨ tok.headD 0 = 61
        · simp only [fromDeltaLoop]
          rw [if_neg h43, if_pos hnum]
          split
          · exact ⟨_, rfl⟩
          · rename_i n heq
            by_cases hneg : n < 0
            · rw [if_pos hneg]
              exact ⟨_, rfl⟩
            · rw [if_neg hneg]
              obtain ⟨e', he'⟩ := ih (pointer + n.toNat) ⟨tok', hmem, hbad⟩
              rw [he']
              exact ⟨e', rfl⟩
        · by_cases hne : tok = []
          · subst hne
            rw [fromDeltaLoop_blank]
            exact ih pointer ⟨tok', hmem, hbad⟩
          · simp only [fromDeltaLoop]
            rw [if_neg h43, if_neg hnum, if_pos hne]
            exact ⟨_, rfl⟩

theorem fromDeltaLoop_ok_of_good (text1 : JStr) (toks : List JStr) :
    ∀ pointer, (∀ tok ∈ toks, ¬ badDeltaToken tok) →
    ∃ ds, fromDeltaLoop text1 toks pointer
      = Except.ok (ds, pointer + deltaConsumed toks) := by
  induction toks with
  | nil =>
    intro pointer _
    exact ⟨[], by simp [fromDeltaLoop, deltaConsumed]⟩
  | cons tok rest ih =>
    intro pointer hgood
    have hgtok := hgood tok (List.mem_cons_self tok rest)
    have hgtail : ∀ t ∈ rest, ¬ badDeltaToken t :=
      fun t ht => hgood t (List.mem_cons_of_mem _ ht)
    by_cases h43 : tok.headD 0 = 43
    · have hdec : ∃ s, decodeURI (jsSubstringFrom tok 1) = Except.ok s := by
        rcases hd : decodeURI (jsSubstringFrom tok 1) with e | s
        · exact absurd (Or.inl ⟨h43, e, hd⟩) hgtok
        · exact ⟨s, rfl⟩
      obtain ⟨s, hs⟩ := hdec
      obtain ⟨ds, hds⟩ := ih pointer hgtail
      refine ⟨(DiffOp.insert, s) :: ds, ?_⟩
      simp only [fromDeltaLoop]
      rw [if_pos h43]
      split
      · rename_i heq
        rw [hs] at heq
        simp at heq
      · rename_i s' heq
        rw [hs] at heq
        cases heq
        rw [hds]
        have hcons : deltaConsumed (tok :: rest) = deltaConsumed rest := by
          simp only [deltaConsumed]
          rw [if_neg (fun hc => by rcases hc with h | h <;> omega)]
          omega
        rw [hcons]
    · by_cases hnum : tok.headD 0 = 45 ∨ tok.headD 0 = 61
      · rcases hp : jsParseInt (jsSubstringFrom tok 1) with _ | n
        · exact absurd (Or.inr (Or.inl ⟨hnum, Or.inl hp⟩)) hgtok
        · have hn0 : ¬ n < 0 :=
            fun hneg => hgtok (Or.inr (Or.inl ⟨hnum, Or.inr ⟨n, hp, hneg⟩⟩))
          obtain ⟨ds, hds⟩ := ih (pointer + n.toNat) hgtail
          refine ⟨((if tok.headD 0 = 61 then DiffOp.equal else DiffOp.delete),
            jsSubstring text1 (pointer : Int) ((pointer : Int) + n)) :: ds, ?_⟩
          simp only [fromDeltaLoop]
          rw [if_neg h43, if_pos hnum]
          split
          · rename_i heq
            rw [hp] at heq
            simp at heq
          · rename_i n' heq
            rw [hp] at heq
            cases heq
            rw [if_neg hn0, hds]
            have hcons : deltaConsumed (tok :: rest) = n.toNat + deltaConsumed rest := by
              simp only [deltaConsumed]
              rw [if_pos hnum, hp]
            rw [hcons, ← Nat.add_assoc]
      · have hemp : tok = [] := by
          by_contra hne
          exact hgtok (Or.inr (Or.inr ⟨hne, h43,
            fun h => hnum (Or.inl h), fun h => hnum (Or.inr h)⟩))
        subst hemp
        obtain ⟨ds, hds⟩ := ih pointer hgtail
        refine ⟨ds, ?_⟩
        rw [fromDeltaLoop_blank, hds]
        have hcons : deltaConsumed ([] :: rest) = deltaConsumed rest := by
          simp [deltaConsumed]
        rw [hcons]

/-- **C6**: `diffFromDelta text1 delta` throws exactly when one of the
listed conditions holds: some tab-separated token is bad (a `+` token
whose percent-escapes `decodeURI` rejects, a `-`/`=` token whose number
is missing or negative, or a non-empty token starting with any other
character), or the cursor after consuming all tokens (the sum of the
numbers of the well-formed `-`/`=` tokens) differs from `|text1|`.
Otherwise it returns a script without error. -/
theorem diffFromDelta_error_iff (text1 delta : JStr) :
    (∃ e, diffFromDelta text1 delta = Except.error e) ↔
    ((∃ tok ∈ jsSplit 9 delta, badDeltaToken tok) ∨
      deltaConsumed (jsSplit 9 delta) ≠ text1.length) := by
  constructor
  · rintro ⟨e, he⟩
    by_contra hnot
    push_neg at hnot
    obtain ⟨hgood, hlen⟩ := hnot
    obtain ⟨ds, hds⟩ := fromDeltaLoop_ok_of_good text1 (jsSplit 9 delta) 0 hgood
    unfold diffFromDelta at he
    rw [hds] at he
    simp [hlen] at he
  · intro h
    rcases Classical.em (∃ tok ∈ jsSplit 9 delta, badDeltaToken tok) with hbad | hgood
    · obtain ⟨e, he⟩ := fromDeltaLoop_error_of_bad text1 (jsSplit 9 delta) 0 hbad
      refine ⟨e, ?_⟩
      unfold diffFromDelta
      rw [he]
    · have hlen : deltaConsumed (jsSplit 9 delta) ≠ text1.length :=
        h.resolve_left hgood
      have hgood' : ∀ tok ∈ jsSplit 9 delta, ¬ badDeltaToken tok := by
        push_neg at hgood
        exact hgood
      obtain ⟨ds, hds⟩ := fromDeltaLoop_ok_of_good text1 _ 0 hgood'
      refine ⟨"Delta length does not equal source text length", ?_⟩
      unfold diffFromDelta
      rw [hds]
      simp [hlen]

/-! ## Round-trip of the diff engine -/

theorem clampIdx_le (n : Nat) (i : Int) : clampIdx n i ≤ n := by
  unfold clampIdx
  omega

theorem jsSubstring_zero_take (t : JStr) (x : Int) :
    jsSubstring t 0 x = t.take (clampIdx t.length x) := by
  unfold jsSubstring
  have h0 : clampIdx t.length 0 = 0 := by unfold clampIdx; omega
  rw [h0, if_pos (Nat.zero_le _)]
  simp

theorem jsSubstringFrom_drop_clamp (t : JStr) (x : Int) :
    jsSubstringFrom t x = t.drop (clampIdx t.length x) := by
  unfold jsSubstringFrom jsSubstring
  have hl : clampIdx t.length (t.length : Int) = t.length := by unfold clampIdx; omega
  rw [hl, if_pos (clampIdx_le _ _)]
  exact List.take_of_length_le (by simp)

theorem jsSubstring_split_at (t : JStr) (x : Int) :
    jsSubstring t 0 x ++ jsSubstringFrom t x = t := by
  rw [jsSubstring_zero_take, jsSubstringFrom_drop_clamp, List.take_append_drop]

theorem diffBisectSplitF_texts (rec : Nat → JStr → JStr → Bool → List Diff × Nat)
    (hrec : ∀ k a b c, diffText1 (rec k a b c).1 = a ∧ diffText2 (rec k a b c).1 = b)
    (k : Nat) (t1 t2 : JStr) (x y : Int) :
    diffText1 (diffBisectSplitF rec k t1 t2 x y).1 = t1 ∧
    diffText2 (diffBisectSplitF rec k t1 t2 x y).1 = t2 := by
  unfold diffBisectSplitF
  constructor
  · simp only [diffText1_append]
    rw [(hrec _ _ _ _).1, (hrec _ _ _ _).1, jsSubstring_split_at]
  · simp only [diffText2_append]
    rw [(hrec _ _ _ _).2, (hrec _ _ _ _).2, jsSubstring_split_at]

theorem bisectDLoop_texts (rec : Nat → JStr → JStr → Bool → List Diff × Nat)
    (hrec : ∀ k a b c, diffText1 (rec k a b c).1 = a ∧ diffText2 (rec k a b c).1 = b)
    (oracle : Nat → Bool) (t1 t2 : JStr) (voffset vlength : Nat) (delta : Int)
    (front : Bool) (maxD : Nat) :
    ∀ f d k v1 v2 a b c e,
    diffText1 (bisectDLoop rec oracle t1 t2 voffset vlength delta front maxD
      f d k v1 v2 a b c e).1 = t1 ∧
    diffText2 (bisectDLoop rec oracle t1 t2 voffset vlength delta front maxD
      f d k v1 v2 a b c e).1 = t2 := by
  intro f
  induction f with
  | zero =>
    intros
    constructor <;> simp [bisectDLoop, diffText1, diffText2]
  | succ f ih =>
    intro d k v1 v2 a b c e
    simp only [bisectDLoop]
    split
    · split
      · constructor <;> simp [diffText1, diffText2]
      · split
        · exact diffBisectSplitF_texts rec hrec _ _ _ _ _
        · split
          · exact diffBisectSplitF_texts rec hrec _ _ _ _ _
          · exact ih _ _ _ _ _ _ _ _
    · constructor <;> simp [diffText1, diffText2]

theorem diffBisectF_texts (rec : Nat → JStr → JStr → Bool → List Diff × Nat)
    (hrec : ∀ k a b c, diffText1 (rec k a b c).1 = a ∧ diffText2 (rec k a b c).1 = b)
    (oracle : Nat → Bool) (k : Nat) (t1 t2 : JStr) :
    diffText1 (diffBisectF rec oracle k t1 t2).1 = t1 ∧
    diffText2 (diffBisectF rec oracle k t1 t2).1 = t2 := by
  unfold diffBisectF
  exact bisectDLoop_texts rec hrec _ _ _ _ _ _ _ _ _ _ _ _ _ _ _ _ _

theorem linesJoin_acc (chars : JStr) (la : List JStr) (b : JStr) :
    chars.foldr (fun c acc => la.getD c [] ++ acc) b = linesJoin chars la ++ b := by
  induction chars with
  | nil => simp [linesJoin]
  | cons c rest ih =>
    simp only [List.foldr_cons, ih, linesJoin]
    rw [List.append_assoc]

theorem linesJoin_append_unit (chars : JStr) (u : Nat) (la : List JStr) :
    linesJoin (chars ++ [u]) la = linesJoin chars la ++ la.getD u [] := by
  unfold linesJoin
  rw [List.foldr_append]
  simp only [List.foldr_cons, List.foldr_nil]
  rw [linesJoin_acc]
  simp [linesJoin]

theorem linesJoin_congr (chars : JStr) (la la' : List JStr)
    (hm : ∀ u ∈ chars, u < la.length)
    (hext : ∀ i < la.length, la'.getD i [] = la.getD i []) :
    linesJoin chars la' = linesJoin chars la := by
  induction chars with
  | nil => rfl
  | cons c rest ih =>
    show la'.getD c [] ++ linesJoin rest la' = la.getD c [] ++ linesJoin rest la
    rw [hext c (hm c (List.mem_cons_self c rest)),
      ih (fun u hu => hm u (List.mem_cons_of_mem _ hu))]

theorem lineAssocFind_mem (lh : List (JStr × Nat)) (s : JStr) (v : Nat)
    (h : lineAssocFind lh s = some v) : ∃ p ∈ lh, p.1 = s ∧ p.2 = v := by
  induction lh with
  | nil => simp [lineAssocFind] at h
  | cons p rest ih =>
    rcases p with ⟨key, val⟩
    simp only [lineAssocFind] at h
    split at h
    · rename_i hkey
      injection h with h2
      exact ⟨(key, val), List.mem_cons_self _ _, hkey, h2⟩
    · obtain ⟨q, hq, h1, h2⟩ := ih h
      exact ⟨q, List.mem_cons_of_mem _ hq, h1, h2⟩

theorem jsIndexOf_ge_start (s sub : JStr) (i : Nat) (hi : i ≤ s.length)
    (h : 0 ≤ jsIndexOf s sub (i : Int)) : i ≤ (jsIndexOf s sub (i : Int)).toNat := by
  have hj : jsIndexOf s sub (i : Int)
      = indexOfFrom s sub (clampIdx s.length (i : Int))
          (s.length + 1 - clampIdx s.length (i : Int)) := rfl
  have hc : clampIdx s.length (i : Int) = i := by
    rw [clampIdx_ofNat]
    omega
  rw [hj, hc] at h ⊢
  exact (indexOfFrom_range s sub _ _ h).1

theorem matchesAt_bound (s sub : JStr) (i : Nat) (h : matchesAt s sub i = true)
    (hne : sub ≠ []) : i + sub.length ≤ s.length := by
  rw [matchesAt_iff] at h
  have hl := congrArg List.length h
  simp only [List.length_take, List.length_drop] at hl
  have hz : sub.length ≠ 0 := fun hz => hne (List.eq_nil_of_length_eq_zero hz)
  omega

theorem mungeLoop_done (text : JStr) (maxLines f : Nat) (lineStart : Nat)
    (lineEnd : Int) (chars : JStr) (la : List JStr) (lh : List (JStr × Nat))
    (h : ¬ lineEnd < (text.length : Int) - 1) :
    mungeLoop text maxLines f lineStart lineEnd chars la lh = (chars, la, lh) := by
  cases f with
  | zero => rfl
  | succ f =>
    simp only [mungeLoop]
    rw [if_neg h]

theorem getD_snoc_lt (la : List JStr) (x : JStr) (i : Nat) (hi : i < la.length) :
    (la ++ [x]).getD i [] = la.getD i [] := by
  simp only [List.getD]
  rw [List.get?_append hi]

theorem getD_snoc_self (la : List JStr) (x : JStr) :
    (la ++ [x]).getD la.length [] = x := by
  simp only [List.getD]
  rw [List.get?_append_right (le_refl _)]
  simp

theorem decode_snoc (chars : JStr) (la : List JStr) (line t : JStr)
    (hchars : ∀ u ∈ chars, u < la.length)
    (hdec : linesJoin chars la = t) :
    linesJoin (chars ++ [la.length]) (la ++ [line]) = t ++ line := by
  rw [linesJoin_append_unit,
    linesJoin_congr chars la (la ++ [line]) hchars
      (fun i hi => getD_snoc_lt la line i hi),
    getD_snoc_self, hdec]

theorem snoc_hash_ok (la : List JStr) (lh : List (JStr × Nat)) (line : JStr)
    (hhash : ∀ p ∈ lh, p.2 < la.length ∧ la.getD p.2 [] = p.1) :
    ∀ p ∈ (line, la.length) :: lh,
      p.2 < (la ++ [line]).length ∧ (la ++ [line]).getD p.2 [] = p.1 := by
  intro q hq
  rcases List.mem_cons.mp hq with rfl | hq'
  · exact ⟨by simp, getD_snoc_self la _⟩
  · obtain ⟨h1, h2⟩ := hhash q hq'
    exact ⟨by simp; omega, by rw [getD_snoc_lt la _ _ h1]; exact h2⟩

theorem snoc_chars_ok (chars : JStr) (la : List JStr) (line : JStr)
    (hchars : ∀ u ∈ chars, u < la.length) :
    ∀ u ∈ chars ++ [la.length], u < (la ++ [line]).length := by
  intro u hu
  rcases List.mem_append.mp hu with h | h
  · have := hchars u h
    simp
    omega
  · simp at h ⊢
    omega

theorem mungeLoop_spec (text : JStr) (maxLines : Nat) (hml : maxLines ≤ 65535) :
    ∀ (f lineStart : Nat) (lineEnd : Int) (chars : JStr) (lineArray : List JStr)
      (lineHash : List (JStr × Nat)),
    lineEnd = (lineStart : Int) - 1 →
    text.length ≤ lineStart + f →
    lineArray.length ≤ maxLines →
    (∀ p ∈ lineHash, p.2 < lineArray.length ∧ lineArray.getD p.2 [] = p.1) →
    (∀ u ∈ chars, u < lineArray.length) →
    linesJoin chars lineArray = text.take lineStart →
    ∃ chars' la' lh',
      mungeLoop text maxLines f lineStart lineEnd chars lineArray lineHash
        = (chars', la', lh') ∧
      linesJoin chars' la' = text ∧
      lineArray.length ≤ la'.length ∧ la'.length ≤ maxLines + 1 ∧
      (∀ i < lineArray.length, la'.getD i [] = lineArray.getD i []) ∧
      (∀ p ∈ lh', p.2 < la'.length ∧ la'.getD p.2 [] = p.1) ∧
      (∀ u ∈ chars', u < la'.length) := by
  intro f
  induction f with
  | zero =>
    intro lineStart lineEnd chars la lh hE hlen hla hhash hchars hdec
    refine ⟨chars, la, lh, rfl, ?_, le_refl _, by omega, fun i _ => rfl,
      hhash, hchars⟩
    rw [hdec]
    exact List.take_of_length_le (by omega)
  | succ f ih =>
    intro lineStart lineEnd chars la lh hE hlen hla hhash hchars hdec
    subst hE
    by_cases hcont : lineStart < text.length
    · simp only [mungeLoop]
      rw [if_pos (by omega : (lineStart : Int) - 1 < (text.length : Int) - 1)]
      have hfrom : jsSubstringFrom text (lineStart : Int) = text.drop lineStart :=
        jsSubstringFrom_nat text lineStart
      have hdecfull : linesJoin chars la ++ text.drop lineStart = text := by
        rw [hdec, List.take_append_drop]
      by_cases hneg : jsIndexOf text [10] (lineStart : Int) = -1
      · rw [if_pos hneg, hfrom]
        have hline : jsSubstring text (lineStart : Int) ((text.length : Int) - 1 + 1)
            = text.drop lineStart := by
          have e : ((text.length : Int) - 1 + 1) = ((text.length : Nat) : Int) := by
            ring
          rw [e]
          exact jsSubstringFrom_nat text lineStart
        rw [hline]
        have e1 : (((text.length : Int) - 1) + 1).toNat = text.length := by omega
        rw [e1]
        split
        · rename_i idx hfind
          obtain ⟨p, hp, hp1, hp2⟩ := lineAssocFind_mem _ _ _ hfind
          obtain ⟨hplt, hpget⟩ := hhash p hp
          have hidx65 : idx % 65536 = idx := by omega
          rw [hidx65]
          have hdec2 : linesJoin (chars ++ [idx]) la = text.take text.length := by
            rw [linesJoin_append_unit, List.take_length, ← hp2, hpget, hp1]
            exact hdecfull
          have hch2 : ∀ u ∈ chars ++ [idx], u < la.length := by
            intro u hu
            rcases List.mem_append.mp hu with h | h
            · exact hchars u h
            · simp at h
              omega
          exact ih text.length ((text.length : Int) - 1) (chars ++ [idx]) la lh rfl
            (by omega) hla hhash hch2 hdec2
        · rename_i hfind
          split
          · rename_i hmax
            rw [mungeLoop_done text maxLines f (text.length + 1)
              (text.length : Int) _ _ _ (by omega)]
            have h65 : la.length % 65536 = la.length := by omega
            refine ⟨_, _, _, rfl, ?_, by simp, by simp; omega,
              fun i hi => getD_snoc_lt la _ i hi,
              snoc_hash_ok la lh _ hhash, ?_⟩
            · rw [h65, decode_snoc chars la (text.drop lineStart)
                (text.take lineStart) hchars hdec, List.take_append_drop]
            · rw [h65]
              exact snoc_chars_ok chars la _ hchars
          · rename_i hmax
            have h65 : la.length % 65536 = la.length := by omega
            rw [h65]
            have hdec2 : linesJoin (chars ++ [la.length])
                (la ++ [text.drop lineStart]) = text.take text.length := by
              rw [decode_snoc chars la (text.drop lineStart) (text.take lineStart)
                hchars hdec, List.take_append_drop, List.take_length]
            obtain ⟨c', a', h', hrun, hjoin, hlow, hup, hstab, hh, hc⟩ :=
              ih text.length ((text.length : Int) - 1) (chars ++ [la.length])
                (la ++ [text.drop lineStart]) ((text.drop lineStart, la.length) :: lh)
                rfl (by omega) (by simp; omega) (snoc_hash_ok la lh _ hhash)
                (snoc_chars_ok chars la _ hchars) hdec2
            refine ⟨c', a', h', hrun, hjoin, ?_, hup, ?_, hh, hc⟩
            · simp at hlow
              omega
            · intro i hi
              rw [hstab i (by simp; omega), getD_snoc_lt la _ i hi]
      · rw [if_neg hneg]
        rcases jsIndexOf_cases text [10] (lineStart : Int) with hc | ⟨hge, hmatch⟩
        · exact absurd hc hneg
        obtain ⟨j, hjj⟩ : ∃ j : Nat,
            jsIndexOf text [10] (lineStart : Int) = (j : Int) :=
          ⟨(jsIndexOf text [10] (lineStart : Int)).toNat,
            (Int.toNat_of_nonneg hge).symm⟩
        have hjge : lineStart ≤ j := by
          have h := jsIndexOf_ge_start text [10] lineStart (le_of_lt hcont) hge
          rw [hjj] at h
          simpa using h
        rw [hjj]
        rw [hjj] at hmatch
        simp only [Int.toNat_natCast] at hmatch
        have hjlt : j + 1 ≤ text.length := matchesAt_bound text [10] j hmatch (by simp)
        have e1 : ((j : Int) + 1).toNat = j + 1 := by omega
        rw [e1]
        have hline : jsSubstring text (lineStart : Int) ((j : Int) + 1)
            = (text.drop lineStart).take (j + 1 - lineStart) := by
          have e : ((j : Int) + 1) = ((j + 1 : Nat) : Int) := by push_cast; ring
          rw [e]
          exact jsSubstring_nat text lineStart (j + 1) (by omega)
        rw [hline]
        have htake : text.take lineStart ++ (text.drop lineStart).take (j + 1 - lineStart)
            = text.take (j + 1) := by
          have e : j + 1 = lineStart + (j + 1 - lineStart) := by omega
          conv_rhs => rw [e]
          rw [List.take_add]
        split
        · rename_i idx hfind
          obtain ⟨p, hp, hp1, hp2⟩ := lineAssocFind_mem _ _ _ hfind
          obtain ⟨hplt, hpget⟩ := hhash p hp
          have hidx65 : idx % 65536 = idx := by omega
          rw [hidx65]
          have hdec2 : linesJoin (chars ++ [idx]) la = text.take (j + 1) := by
            rw [linesJoin_append_unit, ← hp2, hpget, hp1, hdec]
            exact htake
          have hch2 : ∀ u ∈ chars ++ [idx], u < la.length := by
            intro u hu
            rcases List.mem_append.mp hu with h | h
            · exact hchars u h
            · simp at h
              omega
          exact ih (j + 1) (j : Int) (chars ++ [idx]) la lh (by push_cast; ring)
            (by omega) hla hhash hch2 hdec2
        · rename_i hfind
          split
          · rename_i hmax
            rw [hfrom, mungeLoop_done text maxLines f (text.length + 1)
              (text.length : Int) _ _ _ (by omega)]
            have h65 : la.length % 65536 = la.length := by omega
            refine ⟨_, _, _, rfl, ?_, by simp, by simp; omega,
              fun i hi => getD_snoc_lt la _ i hi,
              snoc_hash_ok la lh _ hhash, ?_⟩
            · rw [h65, decode_snoc chars la (text.drop lineStart)
                (text.take lineStart) hchars hdec, List.take_append_drop]
            · rw [h65]
              exact snoc_chars_ok chars la _ hchars
          · rename_i hmax
            have h65 : la.length % 65536 = la.length := by omega
            rw [h65]
            have hdec2 : linesJoin (chars ++ [la.length])
                (la ++ [(text.drop lineStart).take (j + 1 - lineStart)])
                = text.take (j + 1) := by
              rw [decode_snoc chars la ((text.drop lineStart).take (j + 1 - lineStart))
                (text.take lineStart) hchars hdec]
              exact htake
            obtain ⟨c', a', h', hrun, hjoin, hlow, hup, hstab, hh, hc⟩ :=
              ih (j + 1) (j : Int) (chars ++ [la.length])
                (la ++ [(text.drop lineStart).take (j + 1 - lineStart)])
                (((text.drop lineStart).take (j + 1 - lineStart), la.length) :: lh)
                (by push_cast; ring) (by omega) (by simp; omega)
                (snoc_hash_ok la lh _ hhash) (snoc_chars_ok chars la _ hchars) hdec2
            refine ⟨c', a', h', hrun, hjoin, ?_, hup, ?_, hh, hc⟩
            · simp at hlow
              omega
            · intro i hi
              rw [hstab i (by simp; omega), getD_snoc_lt la _ i hi]
    · rw [mungeLoop_done text maxLines (f + 1) lineStart _ chars la lh (by omega)]
      refine ⟨chars, la, lh, rfl, ?_, le_refl _, by omega, fun i _ => rfl,
        hhash, hchars⟩
      rw [hdec, List.take_of_length_le (by omega)]

theorem diffLinesToChars_spec (text1 text2 : JStr) :
    linesJoin (diffLinesToChars text1 text2).1 (diffLinesToChars text1 text2).2.2
      = text1 ∧
    linesJoin (diffLinesToChars text1 text2).2.1 (diffLinesToChars text1 text2).2.2
      = text2 := by
  obtain ⟨c1, a1, h1, hrun1, hjoin1, hlow1, hup1, hstab1, hh1, hc1⟩ :=
    mungeLoop_spec text1 40000 (by omega) (text1.length + 2) 0 (-1) [] [[]] []
      (by omega) (by omega) (by simp) (by simp) (by simp) rfl
  obtain ⟨c2, a2, h2, hrun2, hjoin2, hlow2, hup2, hstab2, hh2, hc2⟩ :=
    mungeLoop_spec text2 65535 (le_refl _) (text2.length + 2) 0 (-1) [] a1 h1
      (by omega) (by omega) (by omega) hh1 (by simp) rfl
  unfold diffLinesToChars
  rw [hrun1]
  simp only
  rw [hrun2]
  simp only
  constructor
  · rw [linesJoin_congr c1 a1 a2 hc1 hstab2, hjoin1]
  · exact hjoin2

theorem linesJoin_append (a b : JStr) (la : List JStr) :
    linesJoin (a ++ b) la = linesJoin a la ++ linesJoin b la := by
  unfold linesJoin
  rw [List.foldr_append, linesJoin_acc]
  simp [linesJoin]

theorem diffCharsToLines_texts (diffs : List Diff) (la : List JStr) :
    diffText1 (diffCharsToLines diffs la) = linesJoin (diffText1 diffs) la ∧
    diffText2 (diffCharsToLines diffs la) = linesJoin (diffText2 diffs) la := by
  induction diffs with
  | nil => exact ⟨rfl, rfl⟩
  | cons x rest ih =>
    rcases x with ⟨op, t⟩
    unfold diffCharsToLines at ih ⊢
    simp only [List.map_cons]
    cases op
    · constructor
      · show linesJoin t la ++ diffText1 (rest.map _) = linesJoin (t ++ diffText1 rest) la
        rw [linesJoin_append, ih.1]
      · show diffText2 (rest.map _) = linesJoin (diffText2 rest) la
        exact ih.2
    · constructor
      · show diffText1 (rest.map _) = linesJoin (diffText1 rest) la
        exact ih.1
      · show linesJoin t la ++ diffText2 (rest.map _) = linesJoin (t ++ diffText2 rest) la
        rw [linesJoin_append, ih.2]
    · constructor
      · show linesJoin t la ++ diffText1 (rest.map _) = linesJoin (t ++ diffText1 rest) la
        rw [linesJoin_append, ih.1]
      · show linesJoin t la ++ diffText2 (rest.map _) = linesJoin (t ++ diffText2 rest) la
        rw [linesJoin_append, ih.2]

theorem spliceAtInt_at (P W Q ins : List Diff) (cnt : Nat) (hW : W.length = cnt) :
    spliceAtInt (P ++ W ++ Q) ((P.length : Nat) : Int) cnt ins = P ++ ins ++ Q := by
  unfold spliceAtInt
  rw [if_neg (by omega)]
  have e : min ((P.length : Int)).toNat (P ++ W ++ Q).length = P.length := by
    simp only [Int.toNat_natCast, List.length_append]
    omega
  rw [e]
  exact splice_at P W Q ins cnt hW

theorem getLast_append_ne (P s : List Diff) (h : s ≠ []) :
    (P ++ s).getLast? = s.getLast? := by
  rw [← List.head?_reverse, ← List.head?_reverse, List.reverse_append]
  obtain ⟨b, s', hs⟩ : ∃ b s', s.reverse = b :: s' := by
    cases hr : s.reverse with
    | nil => exact absurd (by simpa using congrArg List.reverse hr) h
    | cons b s' => exact ⟨b, s', rfl⟩
  rw [hs]
  rfl

theorem lineModeRebuild_texts (rec : Nat → JStr → JStr → Bool → List Diff × Nat)
    (hrec : ∀ k a b c, diffText1 (rec k a b c).1 = a ∧ diffText2 (rec k a b c).1 = b) :
    ∀ (f : Nat) (A W rest : List Diff) (pointer : Int) (cd ci : Nat) (td ti : JStr)
      (k : Nat),
    pointer = ((A.length + W.length : Nat) : Int) →
    diffText1 W = td → diffText2 W = ti → W.length = cd + ci →
    diffText1 (lineModeRebuild rec f (A ++ W ++ rest) pointer cd ci td ti k).1
        = diffText1 (A ++ W ++ rest) ∧
    diffText2 (lineModeRebuild rec f (A ++ W ++ rest) pointer cd ci td ti k).1
        = diffText2 (A ++ W ++ rest) ∧
    (lineModeRebuild rec f (A ++ W ++ rest) pointer cd ci td ti k).1.getLast?
        = (A ++ W ++ rest).getLast? := by
  intro f
  induction f with
  | zero =>
    intros
    exact ⟨rfl, rfl, rfl⟩
  | succ f ih =>
    intro A W rest pointer cd ci td ti k hp htd hti hcnt
    subst hp
    simp only [lineModeRebuild]
    split
    · rename_i hlt
      have hrest : rest ≠ [] := by
        intro hr
        subst hr
        simp [List.length_append] at hlt
      obtain ⟨x, rest', rfl⟩ : ∃ x rest', rest = x :: rest' := by
        cases rest with
        | nil => exact absurd rfl hrest
        | cons x r => exact ⟨x, r, rfl⟩
      have etn : (((A.length + W.length : Nat) : Int)).toNat = A.length + W.length := by
        omega
      have hget : jsGetD (A ++ W ++ (x :: rest')) (A.length + W.length) = x := by
        have e : A ++ W ++ (x :: rest') = (A ++ W) ++ x :: rest' := by
          rw [List.append_assoc]
        rw [e, show A.length + W.length = (A ++ W).length by simp]
        exact jsGetD_at (A ++ W) rest' x
      rw [etn, hget]
      rcases x with ⟨op, t⟩
      split
      · rename_i heq
        have heq' : op = DiffOp.insert := heq
        subst heq'
        have hassoc : A ++ W ++ ((DiffOp.insert, t) :: rest')
            = A ++ (W ++ [(DiffOp.insert, t)]) ++ rest' := by simp
        rw [hassoc]
        have hptr : ((A.length + W.length : Nat) : Int) + 1
            = ((A.length + (W ++ [(DiffOp.insert, t)]).length : Nat) : Int) := by
          simp only [List.length_append, List.length_cons, List.length_nil]
          push_cast
          ring
        have ht1 : diffText1 (W ++ [(DiffOp.insert, t)])
            = td := by simp [diffText1_append, htd, diffText1]
        have ht2 : diffText2 (W ++ [(DiffOp.insert, t)])
            = ti ++ (DiffOp.insert, t).2 := by
          simp [diffText2_append, hti, diffText2]
        have hlen2 : (W ++ [(DiffOp.insert, t)]).length = cd + (ci + 1) := by
          simp
          omega
        exact ih A (W ++ [(DiffOp.insert, t)]) rest' _ cd (ci + 1) _ _ k hptr ht1
          ht2 hlen2
      · rename_i heq
        have heq' : op = DiffOp.delete := heq
        subst heq'
        have hassoc : A ++ W ++ ((DiffOp.delete, t) :: rest')
            = A ++ (W ++ [(DiffOp.delete, t)]) ++ rest' := by simp
        rw [hassoc]
        have hptr : ((A.length + W.length : Nat) : Int) + 1
            = ((A.length + (W ++ [(DiffOp.delete, t)]).length : Nat) : Int) := by
          simp only [List.length_append, List.length_cons, List.length_nil]
          push_cast
          ring
        have ht1 : diffText1 (W ++ [(DiffOp.delete, t)])
            = td ++ (DiffOp.delete, t).2 := by
          simp [diffText1_append, htd, diffText1]
        have ht2 : diffText2 (W ++ [(DiffOp.delete, t)]) = ti := by
          simp [diffText2_append, hti, diffText2]
        have hlen2 : (W ++ [(DiffOp.delete, t)]).length = (cd + 1) + ci := by
          simp
          omega
        exact ih A (W ++ [(DiffOp.delete, t)]) rest' _ (cd + 1) ci _ _ k hptr ht1
          ht2 hlen2
      · rename_i heq
        have heq' : op = DiffOp.equal := heq
        subst heq'
        split
        · rename_i hmerge
          have hstart : ((A.length + W.length : Nat) : Int) - (cd : Int) - (ci : Int)
              = ((A.length : Nat) : Int) := by push_cast; omega
          rw [hstart, spliceAtInt_at A W ((DiffOp.equal, t) :: rest') [] (cd + ci) hcnt]
          have hins : spliceAtInt (A ++ [] ++ ((DiffOp.equal, t) :: rest'))
              ((A.length : Nat) : Int) 0 (rec k td ti false).1
              = A ++ (rec k td ti false).1 ++ ((DiffOp.equal, t) :: rest') :=
            spliceAtInt_at A [] _ _ 0 rfl
          rw [hins]
          have hassoc : A ++ (rec k td ti false).1 ++ ((DiffOp.equal, t) :: rest')
              = (A ++ (rec k td ti false).1 ++ [(DiffOp.equal, t)]) ++ [] ++ rest' := by
            simp
          rw [hassoc]
          have hptr : ((A.length : Nat) : Int) + ((rec k td ti false).1.length : Int) + 1
              = (((A ++ (rec k td ti false).1 ++ [(DiffOp.equal, t)]).length
                  + (List.length ([] : List Diff)) : Nat) : Int) := by
            simp only [List.length_append, List.length_cons, List.length_nil]
            push_cast
            ring
          have hih := ih (A ++ (rec k td ti false).1 ++ [(DiffOp.equal, t)]) [] rest'
            _ 0 0 [] [] (rec k td ti false).2 hptr rfl rfl rfl
          refine ⟨?_, ?_, ?_⟩
          · rw [hih.1]
            simp only [diffText1_append]
            rw [(hrec k td ti false).1, htd]
            simp [diffText1]
          · rw [hih.2.1]
            simp only [diffText2_append]
            rw [(hrec k td ti false).2, hti]
            simp [diffText2]
          · rw [hih.2.2]
            have e1 : (A ++ (rec k td ti false).1 ++ [(DiffOp.equal, t)]) ++ [] ++ rest'
                = (A ++ (rec k td ti false).1) ++ ((DiffOp.equal, t) :: rest') := by
              simp
            have e2 : A ++ W ++ ((DiffOp.equal, t) :: rest')
                = (A ++ W) ++ ((DiffOp.equal, t) :: rest') := by simp
            rw [e1, e2, getLast_append_ne _ _ (by simp),
              getLast_append_ne _ _ (by simp)]
        · have hassoc : A ++ W ++ ((DiffOp.equal, t) :: rest')
              = (A ++ W ++ [(DiffOp.equal, t)]) ++ [] ++ rest' := by simp
          rw [hassoc]
          have hptr : ((A.length + W.length : Nat) : Int) + 1
              = (((A ++ W ++ [(DiffOp.equal, t)]).length
                  + (List.length ([] : List Diff)) : Nat) : Int) := by
            simp only [List.length_append, List.length_cons, List.length_nil]
            push_cast
            ring
          exact ih (A ++ W ++ [(DiffOp.equal, t)]) [] rest' _ 0 0 [] [] k hptr rfl
            rfl rfl
    · exact ⟨rfl, rfl, rfl⟩

theorem dropLast_texts (l : List Diff) (op : DiffOp)
    (h : l.getLast? = some (op, [])) :
    diffText1 l.dropLast = diffText1 l ∧ diffText2 l.dropLast = diffText2 l := by
  have hne : l ≠ [] := by
    intro hl
    rw [hl] at h
    simp at h
  have h2 := List.dropLast_append_getLast hne
  have h3 : l.getLast hne = (op, []) := by
    have h4 := List.getLast?_eq_getLast l hne
    rw [h4] at h
    exact Option.some.inj h
  rw [h3] at h2
  have hT1 : diffText1 [(op, [])] = [] := by cases op <;> rfl
  have hT2 : diffText2 [(op, [])] = [] := by cases op <;> rfl
  constructor
  · conv_rhs => rw [← h2]
    rw [diffText1_append, hT1, List.append_nil]
  · conv_rhs => rw [← h2]
    rw [diffText2_append, hT2, List.append_nil]

theorem diffLineModeF_texts (rec : Nat → JStr → JStr → Bool → List Diff × Nat)
    (hrec : ∀ k a b c, diffText1 (rec k a b c).1 = a ∧ diffText2 (rec k a b c).1 = b)
    (k : Nat) (t1 t2 : JStr) :
    diffText1 (diffLineModeF rec k t1 t2).1 = t1 ∧
    diffText2 (diffLineModeF rec k t1 t2).1 = t2 := by
  have main : ∀ (d2 : List Diff) (k' : Nat), diffText1 d2 = t1 → diffText2 d2 = t2 →
      diffText1 ((lineModeRebuild rec ((d2 ++ [(DiffOp.equal, [])]).length + 1)
          (d2 ++ [(DiffOp.equal, [])]) 0 0 0 [] [] k').1.dropLast) = t1 ∧
      diffText2 ((lineModeRebuild rec ((d2 ++ [(DiffOp.equal, [])]).length + 1)
          (d2 ++ [(DiffOp.equal, [])]) 0 0 0 [] [] k').1.dropLast) = t2 := by
    intro d2 k' h1 h2
    have hrb := lineModeRebuild_texts rec hrec ((d2 ++ [(DiffOp.equal, [])]).length + 1)
      [] [] (d2 ++ [(DiffOp.equal, [])]) 0 0 0 [] [] k' (by simp) rfl rfl rfl
    simp only [List.nil_append] at hrb
    have hlast : (lineModeRebuild rec ((d2 ++ [(DiffOp.equal, [])]).length + 1)
        (d2 ++ [(DiffOp.equal, [])]) 0 0 0 [] [] k').1.getLast?
        = some (DiffOp.equal, []) := by
      rw [hrb.2.2, getLast_append_ne d2 _ (by simp)]
      rfl
    obtain ⟨e1, e2⟩ := dropLast_texts _ _ hlast
    constructor
    · rw [e1, hrb.1, diffText1_append, h1]
      simp [diffText1]
    · rw [e2, hrb.2.1, diffText2_append, h2]
      simp [diffText2]
  obtain ⟨hj1, hj2⟩ := diffLinesToChars_spec t1 t2
  have hr := hrec k (diffLinesToChars t1 t2).1 (diffLinesToChars t1 t2).2.1 false
  have hcl := diffCharsToLines_texts
    (rec k (diffLinesToChars t1 t2).1 (diffLinesToChars t1 t2).2.1 false).1
    (diffLinesToChars t1 t2).2.2
  have hT1d1 : diffText1 (diffCharsToLines
      (rec k (diffLinesToChars t1 t2).1 (diffLinesToChars t1 t2).2.1 false).1
      (diffLinesToChars t1 t2).2.2) = t1 := by
    rw [hcl.1, hr.1, hj1]
  have hT2d1 : diffText2 (diffCharsToLines
      (rec k (diffLinesToChars t1 t2).1 (diffLinesToChars t1 t2).2.1 false).1
      (diffLinesToChars t1 t2).2.2) = t2 := by
    rw [hcl.2, hr.2, hj2]
  have hsem := diffCleanupSemantic_preserves
    ((diffCharsToLines
        (rec k (diffLinesToChars t1 t2).1 (diffLinesToChars t1 t2).2.1 false).1
        (diffLinesToChars t1 t2).2.2).length
      + (diffText1 (diffCharsToLines
          (rec k (diffLinesToChars t1 t2).1 (diffLinesToChars t1 t2).2.1 false).1
          (diffLinesToChars t1 t2).2.2)).length
      + (diffText2 (diffCharsToLines
          (rec k (diffLinesToChars t1 t2).1 (diffLinesToChars t1 t2).2.1 false).1
          (diffLinesToChars t1 t2).2.2)).length + 10)
    (diffCharsToLines
      (rec k (diffLinesToChars t1 t2).1 (diffLinesToChars t1 t2).2.1 false).1
      (diffLinesToChars t1 t2).2.2)
  exact main _ _ (by rw [hsem.1]; exact hT1d1) (by rw [hsem.2]; exact hT2d1)

theorem sub_match_decomp (long short : JStr) (i : Int) (h0 : 0 ≤ i)
    (hlen : i.toNat ≤ long.length)
    (hm : matchesAt long short i.toNat = true) (hne : short ≠ []) :
    jsSubstring long 0 i ++ short ++ jsSubstringFrom long (i + (short.length : Int))
      = long := by
  have hbound := matchesAt_bound long short i.toNat hm hne
  have h1 : jsSubstring long 0 i = long.take i.toNat := by
    rw [jsSubstring_zero_take]
    congr 1
    unfold clampIdx
    omega
  have h2 : jsSubstringFrom long (i + (short.length : Int))
      = long.drop (i.toNat + short.length) := by
    rw [jsSubstringFrom_drop_clamp]
    congr 1
    unfold clampIdx
    omega
  rw [h1, h2]
  rw [matchesAt_iff] at hm
  conv_lhs => lhs; rhs; rw [← hm]
  rw [← List.take_add, List.take_append_drop]

theorem diffComputeF_texts (rec : Nat → JStr → JStr → Bool → List Diff × Nat)
    (hrec : ∀ k a b c, diffText1 (rec k a b c).1 = a ∧ diffText2 (rec k a b c).1 = b)
    (oracle : Nat → Bool) (options : DMPOptions) (checklines : Bool) (k : Nat)
    (text1 text2 : JStr) :
    diffText1 (diffComputeF rec oracle options checklines k text1 text2).1 = text1 ∧
    diffText2 (diffComputeF rec oracle options checklines k text1 text2).1 = text2 := by
  unfold diffComputeF
  split
  · rename_i h1
    subst h1
    constructor <;> simp [diffText1, diffText2]
  · rename_i h1
    split
    · rename_i h2
      subst h2
      constructor <;> simp [diffText1, diffText2]
    · rename_i h2
      by_cases hl : text1.length > text2.length
      · simp only [if_pos hl]
        split
        · rename_i hi
          rcases jsIndexOf_cases text1 text2 0 with hc | ⟨hge, hm⟩
          · exact absurd hc hi
          have hlenB := jsIndexOf_le_length text1 text2 0 hge
          have hdec := sub_match_decomp text1 text2 _ hge hlenB hm h2
          constructor
          · show jsSubstring text1 0 _ ++ (text2 ++ (jsSubstringFrom text1 _ ++ [])) = text1
            simpa [List.append_assoc] using hdec
          · show text2 ++ ([] : JStr) = text2
            simp
        · split
          · constructor <;> simp [diffText1, diffText2]
          · split
            · rename_i hm heqhm
              obtain ⟨hh1, hh2⟩ := diffHalfMatch_valid text1 text2 options hm heqhm
              constructor
              · simp only [diffText1_append]
                rw [(hrec k hm.a1 hm.a2 checklines).1,
                  (hrec (rec k hm.a1 hm.a2 checklines).2 hm.b1 hm.b2 checklines).1]
                simp only [diffText1, List.append_assoc] at hh1 ⊢
                simpa using hh1
              · simp only [diffText2_append]
                rw [(hrec k hm.a1 hm.a2 checklines).2,
                  (hrec (rec k hm.a1 hm.a2 checklines).2 hm.b1 hm.b2 checklines).2]
                simp only [diffText2, List.append_assoc] at hh2 ⊢
                simpa using hh2
            · split
              · exact diffLineModeF_texts rec hrec k text1 text2
              · exact diffBisectF_texts rec hrec oracle k text1 text2
      · simp only [if_neg hl]
        split
        · rename_i hi
          rcases jsIndexOf_cases text2 text1 0 with hc | ⟨hge, hm⟩
          · exact absurd hc hi
          have hlenB := jsIndexOf_le_length text2 text1 0 hge
          have hdec := sub_match_decomp text2 text1 _ hge hlenB hm h1
          constructor
          · show text1 ++ ([] : JStr) = text1
            simp
          · show jsSubstring text2 0 _ ++ (text1 ++ (jsSubstringFrom text2 _ ++ [])) = text2
            simpa [List.append_assoc] using hdec
        · split
          · constructor <;> simp [diffText1, diffText2]
          · split
            · rename_i hm heqhm
              obtain ⟨hh1, hh2⟩ := diffHalfMatch_valid text1 text2 options hm heqhm
              constructor
              · simp only [diffText1_append]
                rw [(hrec k hm.a1 hm.a2 checklines).1,
                  (hrec (rec k hm.a1 hm.a2 checklines).2 hm.b1 hm.b2 checklines).1]
                simp only [diffText1, List.append_assoc] at hh1 ⊢
                simpa using hh1
              · simp only [diffText2_append]
                rw [(hrec k hm.a1 hm.a2 checklines).2,
                  (hrec (rec k hm.a1 hm.a2 checklines).2 hm.b1 hm.b2 checklines).2]
                simp only [diffText2, List.append_assoc] at hh2 ⊢
                simpa using hh2
            · split
              · exact diffLineModeF_texts rec hrec k text1 text2
              · exact diffBisectF_texts rec hrec oracle k text1 text2

theorem suffix_cut_eq (a b : JStr) (sl : Nat) (hsl1 : sl ≤ a.length)
    (hsl2 : sl ≤ b.length) (hse : SuffixEq a b sl) :
    jsSubstringFrom a ((a.length : Int) - (sl : Int))
      = jsSubstringFrom b ((b.length : Int) - (sl : Int)) := by
  rw [jsSubstringFrom_drop_clamp, jsSubstringFrom_drop_clamp]
  have e1 : clampIdx a.length ((a.length : Int) - (sl : Int)) = a.length - sl := by
    unfold clampIdx
    omega
  have e2 : clampIdx b.length ((b.length : Int) - (sl : Int)) = b.length - sl := by
    unfold clampIdx
    omega
  rw [e1, e2]
  exact hse

theorem diffMainF_texts :
    ∀ (fuel : Nat) (oracle : Nat → Bool) (options : DMPOptions) (k : Nat)
      (text1 text2 : JStr) (checklines : Bool),
    diffText1 (diffMainF fuel oracle options k text1 text2 checklines).1 = text1 ∧
    diffText2 (diffMainF fuel oracle options k text1 text2 checklines).1 = text2 := by
  intro fuel
  induction fuel with
  | zero =>
    intros
    constructor <;> simp [diffMainF, diffText1, diffText2]
  | succ fuel ih =>
    intro oracle options k text1 text2 checklines
    simp only [diffMainF]
    split
    · rename_i he
      split
      · constructor <;> simp [diffText1, diffText2, he]
      · rename_i hni
        have h0 : text1 = [] := by
          by_contra hx
          exact hni hx
        constructor <;> simp [diffText1, diffText2, ← he, h0]
    · rename_i hne
      have hopt1 : ∀ c : JStr,
          diffText1 (if c ≠ [] then [(DiffOp.equal, c)] else []) = c := by
        intro c
        split
        · simp [diffText1]
        · rename_i hx
          have : c = [] := by
            by_contra hy
            exact hx hy
          simp [this, diffText1]
      have hopt2 : ∀ c : JStr,
          diffText2 (if c ≠ [] then [(DiffOp.equal, c)] else []) = c := by
        intro c
        split
        · simp [diffText2]
        · rename_i hx
          have : c = [] := by
            by_contra hy
            exact hx hy
          simp [this, diffText2]
      have hcomp := diffComputeF_texts
        (fun k a b c => diffMainF fuel oracle options k a b c)
        (fun k a b c => ih oracle options k a b c) oracle options checklines k
        (jsSubstring (jsSubstringFrom text1 ((diffCommonPrefixLen text1 text2 : Nat) : Int)) 0
          (((jsSubstringFrom text1 ((diffCommonPrefixLen text1 text2 : Nat) : Int)).length : Int)
            - ((diffCommonSuffixLen
                (jsSubstringFrom text1 ((diffCommonPrefixLen text1 text2 : Nat) : Int))
                (jsSubstringFrom text2 ((diffCommonPrefixLen text1 text2 : Nat) : Int)) : Nat) : Int)))
        (jsSubstring (jsSubstringFrom text2 ((diffCommonPrefixLen text1 text2 : Nat) : Int)) 0
          (((jsSubstringFrom text2 ((diffCommonPrefixLen text1 text2 : Nat) : Int)).length : Int)
            - ((diffCommonSuffixLen
                (jsSubstringFrom text1 ((diffCommonPrefixLen text1 text2 : Nat) : Int))
                (jsSubstringFrom text2 ((diffCommonPrefixLen text1 text2 : Nat) : Int)) : Nat) : Int)))
      obtain ⟨hmergeT1, hmergeT2⟩ := diffCleanupMerge_preserves
        (((if jsSubstring text1 0 ((diffCommonPrefixLen text1 text2 : Nat) : Int) ≠ [] then
            [(DiffOp.equal, jsSubstring text1 0 ((diffCommonPrefixLen text1 text2 : Nat) : Int))]
          else []) ++
          (diffComputeF (fun k a b c => diffMainF fuel oracle options k a b c) oracle options
            checklines k
            (jsSubstring (jsSubstringFrom text1 ((diffCommonPrefixLen text1 text2 : Nat) : Int)) 0
              (((jsSubstringFrom text1 ((diffCommonPrefixLen text1 text2 : Nat) : Int)).length : Int)
                - ((diffCommonSuffixLen
                    (jsSubstringFrom text1 ((diffCommonPrefixLen text1 text2 : Nat) : Int))
                    (jsSubstringFrom text2 ((diffCommonPrefixLen text1 text2 : Nat) : Int)) : Nat) : Int)))
            (jsSubstring (jsSubstringFrom text2 ((diffCommonPrefixLen text1 text2 : Nat) : Int)) 0
              (((jsSubstringFrom text2 ((diffCommonPrefixLen text1 text2 : Nat) : Int)).length : Int)
                - ((diffCommonSuffixLen
                    (jsSubstringFrom text1 ((diffCommonPrefixLen text1 text2 : Nat) : Int))
                    (jsSubstringFrom text2 ((diffCommonPrefixLen text1 text2 : Nat) : Int)) : Nat) : Int)))).1 ++
          (if jsSubstringFrom (jsSubstringFrom text1 ((diffCommonPrefixLen text1 text2 : Nat) : Int))
              (((jsSubstringFrom text1 ((diffCommonPrefixLen text1 text2 : Nat) : Int)).length : Int)
                - ((diffCommonSuffixLen
                    (jsSubstringFrom text1 ((diffCommonPrefixLen text1 text2 : Nat) : Int))
                    (jsSubstringFrom text2 ((diffCommonPrefixLen text1 text2 : Nat) : Int)) : Nat) : Int)) ≠ [] then
            [(DiffOp.equal, jsSubstringFrom (jsSubstringFrom text1 ((diffCommonPrefixLen text1 text2 : Nat) : Int))
              (((jsSubstringFrom text1 ((diffCommonPrefixLen text1 text2 : Nat) : Int)).length : Int)
                - ((diffCommonSuffixLen
                    (jsSubstringFrom text1 ((diffCommonPrefixLen text1 text2 : Nat) : Int))
                    (jsSubstringFrom text2 ((diffCommonPrefixLen text1 text2 : Nat) : Int)) : Nat) : Int)))]
          else [])).length + 2)
        ((if jsSubstring text1 0 ((diffCommonPrefixLen text1 text2 : Nat) : Int) ≠ [] then
            [(DiffOp.equal, jsSubstring text1 0 ((diffCommonPrefixLen text1 text2 : Nat) : Int))]
          else []) ++
          (diffComputeF (fun k a b c => diffMainF fuel oracle options k a b c) oracle options
            checklines k
            (jsSubstring (jsSubstringFrom text1 ((diffCommonPrefixLen text1 text2 : Nat) : Int)) 0
              (((jsSubstringFrom text1 ((diffCommonPrefixLen text1 text2 : Nat) : Int)).length : Int)
                - ((diffCommonSuffixLen
                    (jsSubstringFrom text1 ((diffCommonPrefixLen text1 text2 : Nat) : Int))
                    (jsSubstringFrom text2 ((diffCommonPrefixLen text1 text2 : Nat) : Int)) : Nat) : Int)))
            (jsSubstring (jsSubstringFrom text2 ((diffCommonPrefixLen text1 text2 : Nat) : Int)) 0
              (((jsSubstringFrom text2 ((diffCommonPrefixLen text1 text2 : Nat) : Int)).length : Int)
                - ((diffCommonSuffixLen
                    (jsSubstringFrom text1 ((diffCommonPrefixLen text1 text2 : Nat) : Int))
                    (jsSubstringFrom text2 ((diffCommonPrefixLen text1 text2 : Nat) : Int)) : Nat) : Int)))).1 ++
          (if jsSubstringFrom (jsSubstringFrom text1 ((diffCommonPrefixLen text1 text2 : Nat) : Int))
              (((jsSubstringFrom text1 ((diffCommonPrefixLen text1 text2 : Nat) : Int)).length : Int)
                - ((diffCommonSuffixLen
                    (jsSubstringFrom text1 ((diffCommonPrefixLen text1 text2 : Nat) : Int))
                    (jsSubstringFrom text2 ((diffCommonPrefixLen text1 text2 : Nat) : Int)) : Nat) : Int)) ≠ [] then
            [(DiffOp.equal, jsSubstringFrom (jsSubstringFrom text1 ((diffCommonPrefixLen text1 text2 : Nat) : Int))
              (((jsSubstringFrom text1 ((diffCommonPrefixLen text1 text2 : Nat) : Int)).length : Int)
                - ((diffCommonSuffixLen
                    (jsSubstringFrom text1 ((diffCommonPrefixLen text1 text2 : Nat) : Int))
                    (jsSubstringFrom text2 ((diffCommonPrefixLen text1 text2 : Nat) : Int)) : Nat) : Int)))]
          else []))
      constructor
      · rw [hmergeT1]
        simp only [diffText1_append]
        rw [hopt1, hopt1, hcomp.1, List.append_assoc, jsSubstring_split_at,
          jsSubstring_split_at]
      · rw [hmergeT2]
        simp only [diffText2_append]
        rw [hopt2, hopt2, hcomp.2]
        -- the common prefix and suffix were cut from text1 but equal those of text2
        have hpre := diffCommonPrefixLen_valid text1 text2
        have hpfx : jsSubstring text1 0 ((diffCommonPrefixLen text1 text2 : Nat) : Int)
            = jsSubstring text2 0 ((diffCommonPrefixLen text1 text2 : Nat) : Int) := by
          rw [jsSubstring_zero_take, jsSubstring_zero_take, clampIdx_ofNat, clampIdx_ofNat]
          rw [min_eq_left (by omega), min_eq_left (by omega)]
          exact hpre.2
        have hsuf := diffCommonSuffixLen_valid
          (jsSubstringFrom text1 ((diffCommonPrefixLen text1 text2 : Nat) : Int))
          (jsSubstringFrom text2 ((diffCommonPrefixLen text1 text2 : Nat) : Int))
        have hsfx := suffix_cut_eq
          (jsSubstringFrom text1 ((diffCommonPrefixLen text1 text2 : Nat) : Int))
          (jsSubstringFrom text2 ((diffCommonPrefixLen text1 text2 : Nat) : Int))
          (diffCommonSuffixLen
            (jsSubstringFrom text1 ((diffCommonPrefixLen text1 text2 : Nat) : Int))
            (jsSubstringFrom text2 ((diffCommonPrefixLen text1 text2 : Nat) : Int)))
          (by have := hsuf.1; omega) (by have := hsuf.1; omega) hsuf.2
        rw [hpfx, hsfx, List.append_assoc, jsSubstring_split_at, jsSubstring_split_at]

theorem diffLevenshteinLoop_le :
    ∀ (d : List Diff) (i del : Nat), diffLevenshteinLoop d i del ≤
      (diffText1 d).length + (diffText2 d).length + max i del := by
  intro d
  induction d with
  | nil =>
    intro i del
    simp [diffLevenshteinLoop, diffText1, diffText2]
  | cons hd rest ih =>
    intro i del
    obtain ⟨op, t⟩ := hd
    cases op
    · have h := ih i (del + t.length)
      simp only [diffLevenshteinLoop, diffText1, diffText2, List.length_append,
        reduceCtorEq, if_neg, if_pos, reduceIte] at h ⊢
      omega
    · have h := ih (i + t.length) del
      simp only [diffLevenshteinLoop, diffText1, diffText2, List.length_append,
        reduceCtorEq, if_neg, if_pos, reduceIte] at h ⊢
      omega
    · have h := ih 0 0
      simp only [diffLevenshteinLoop, diffText1, diffText2, List.length_append,
        reduceCtorEq, if_neg, if_pos, reduceIte] at h ⊢
      omega

/-- **C5** counterexample: for `a = "xdd"` and `b = "iix"` (as UTF-16 unit
lists) the bisect path yields the script `[insert "ii", equal "x",
delete "dd"]`, whose Levenshtein count is `4`, strictly above
`max |a| |b| = 3`. -/
theorem diffLevenshtein_exceeds_max :
    diffLevenshtein (diffMain [120, 100, 100] [105, 105, 120] defaultOptions)
        = 4 ∧
    ¬ diffLevenshtein (diffMain [120, 100, 100] [105, 105, 120] defaultOptions)
        ≤ max (([120, 100, 100] : JStr)).length (([105, 105, 120] : JStr)).length := by
  have h4 : diffLevenshtein
      (diffMain [120, 100, 100] [105, 105, 120] defaultOptions) = 4 := by rfl
  exact ⟨h4, by rw [h4]; decide⟩

/-- **C5** amended: the Levenshtein count of the script returned by
`diffMain` is bounded by the SUM of the two input lengths (the claimed
`max` bound is refuted by the counterexample); this follows from the
round-trip property, since each run contributes at most its deleted plus
inserted unit counts. -/
theorem diffLevenshtein_diffMain_le (a b : JStr) (options : DMPOptions) :
    diffLevenshtein (diffMain a b options) ≤ a.length + b.length := by
  have h := diffMainF_texts (a.length + b.length + 1) (fun _ => false) options 0
    a b true
  have hl := diffLevenshteinLoop_le
    ((diffMainF (a.length + b.length + 1) (fun _ => false) options 0
      a b true).1) 0 0
  rw [h.1, h.2] at hl
  simpa [diffLevenshtein, diffMain] using hl

theorem matchMain_isOk (text pattern : JStr) (loc : Int) (options : DMPOptions)
    (h : pattern.length ≤ options.matchMaxBits) :
    ∃ v, matchMain text pattern loc options = Except.ok v := by
  unfold matchMain matchBitap
  split
  · exact ⟨0, rfl⟩
  · split
    · exact ⟨-1, rfl⟩
    · split
      · exact ⟨_, rfl⟩
      · rw [if_neg (by omega)]
        exact ⟨_, rfl⟩

theorem patchFindLoc_isOk (options : DMPOptions) (text text1 : JStr) (el : Int) :
    ∃ lv, patchFindLoc options text text1 el = Except.ok lv := by
  unfold patchFindLoc
  by_cases hl : text1.length > options.matchMaxBits
  · rw [if_pos hl]
    obtain ⟨v1, hv1⟩ := matchMain_isOk text (text1.take options.matchMaxBits)
      el options (by rw [List.length_take]; omega)
    rw [hv1]
    have hlen2 : (jsSubstringFrom text1
        ((text1.length : Int) - (options.matchMaxBits : Int))).length ≤
        options.matchMaxBits := by
      rw [jsSubstringFrom_drop_clamp, List.length_drop]
      have hc : clampIdx text1.length
          ((text1.length : Int) - (options.matchMaxBits : Int)) =
          text1.length - options.matchMaxBits := by
        unfold clampIdx
        omega
      omega
    obtain ⟨v2, hv2⟩ := matchMain_isOk text
      (jsSubstringFrom text1 ((text1.length : Int) - (options.matchMaxBits : Int)))
      (el + (text1.length : Int) - (options.matchMaxBits : Int)) options hlen2
    dsimp only
    by_cases hs1 : v1 ≠ -1
    · rw [if_pos hs1, hv2]
      dsimp only
      by_cases he : v2 = -1 ∨ v1 ≥ v2
      · rw [if_pos he]
        exact ⟨_, rfl⟩
      · rw [if_neg he]
        exact ⟨_, rfl⟩
    · rw [if_neg hs1]
      exact ⟨_, rfl⟩
  · rw [if_neg hl]
    obtain ⟨v1, hv1⟩ := matchMain_isOk text text1 el options (by omega)
    rw [hv1]
    exact ⟨_, rfl⟩

theorem patchApplyLoop_length (options : DMPOptions) :
    ∀ (ps : List Patch) (text : JStr) (delta : Int),
    ∃ r, patchApplyLoop options ps text delta = Except.ok r ∧
      r.2.length = ps.length := by
  intro ps
  induction ps with
  | nil => exact fun text delta => ⟨(text, []), rfl, rfl⟩
  | cons p rest ih =>
    intro text delta
    obtain ⟨⟨sl, el⟩, hlv⟩ := patchFindLoc_isOk options text (diffText1 p.diffs)
      (p.start2 + delta)
    simp only [patchApplyLoop]
    rw [hlv]
    dsimp only
    by_cases h1 : sl = -1
    · rw [if_pos h1]
      obtain ⟨⟨t', res⟩, hr', hlen⟩ := ih text
        (delta - ((p.length2 : Int) - (p.length1 : Int)))
      rw [hr']
      exact ⟨(t', false :: res), rfl, by simp [hlen]⟩
    · rw [if_neg h1]
      split
      all_goals split
      · obtain ⟨⟨t', res⟩, hr', hlen⟩ := ih _ _
        rw [hr']
        exact ⟨(t', true :: res), rfl, by simp [hlen]⟩
      · split
        · obtain ⟨⟨t', res⟩, hr', hlen⟩ := ih _ _
          rw [hr']
          exact ⟨(t', false :: res), rfl, by simp [hlen]⟩
        · obtain ⟨⟨t', res⟩, hr', hlen⟩ := ih _ _
          rw [hr']
          exact ⟨(t', true :: res), rfl, by simp [hlen]⟩
      · obtain ⟨⟨t', res⟩, hr', hlen⟩ := ih _ _
        rw [hr']
        exact ⟨(t', true :: res), rfl, by simp [hlen]⟩
      · split
        · obtain ⟨⟨t', res⟩, hr', hlen⟩ := ih _ _
          rw [hr']
          exact ⟨(t', false :: res), rfl, by simp [hlen]⟩
        · obtain ⟨⟨t', res⟩, hr', hlen⟩ := ih _ _
          rw [hr']
          exact ⟨(t', true :: res), rfl, by simp [hlen]⟩

/-- **C2** amended: the results vector of `patchApply` has one Boolean
per patch of the list obtained AFTER the deep copy, padding and
`patchSplitMax` steps, not per input patch (the counterexample splits
one oversized input patch into two, yielding two Booleans). -/
theorem patchApply_results_per_split (ps : List Patch) (t : JStr) (o : DMPOptions)
    (h : ps ≠ []) :
    ∃ r, patchApply ps t o = Except.ok r ∧
      r.2.length = (patchSplitMax (patchAddPadding (patchDeepCopy ps) o).1 o).length := by
  simp only [patchApply]
  rw [if_neg h]
  obtain ⟨⟨t2, results⟩, hr, hlen⟩ := patchApplyLoop_length o
    (patchSplitMax (patchAddPadding (patchDeepCopy ps) o).1 o)
    ((patchAddPadding (patchDeepCopy ps) o).2 ++ t ++
      (patchAddPadding (patchDeepCopy ps) o).2) 0
  rw [hr]
  exact ⟨_, rfl, hlen⟩

/-- Closed instance of the amended C2 statement: a singleton patch list
is nonempty and the results vector counts the post-split patches. -/
theorem patchApply_results_per_split_witness :
    ([(⟨[], 0, 0, 0, 0⟩ : Patch)]) ≠ [] ∧
    ∃ r, patchApply [⟨[], 0, 0, 0, 0⟩] [] defaultOptions = Except.ok r ∧
      r.2.length = (patchSplitMax
        (patchAddPadding (patchDeepCopy [⟨[], 0, 0, 0, 0⟩]) defaultOptions).1
        defaultOptions).length :=
  ⟨by decide, patchApply_results_per_split _ _ _ (by decide)⟩

/-- **C2** counterexample: one input patch holding a 33-unit deletion
(`length1 = 33 > matchMaxBits = 32`) is broken in two by
`patchSplitMax`, so `patchApply` returns a results vector of length two
for a one-patch input list. -/
theorem patchApply_results_not_per_input :
    (patchApply
      [⟨[(DiffOp.delete, [65, 66, 67, 68, 69, 70, 71, 72, 73, 74, 75, 76, 77,
        78, 79, 80, 81, 82, 83, 84, 85, 86, 87, 88, 89, 90, 91, 92, 93, 94,
        95, 96, 97])], 0, 0, 33, 0⟩]
      [65, 66, 67, 68, 69, 70, 71, 72, 73, 74, 75, 76, 77, 78, 79, 80, 81,
        82, 83, 84, 85, 86, 87, 88, 89, 90, 91, 92, 93, 94, 95, 96, 97]
      defaultOptions).map (fun r => r.2.length) = Except.ok 2 ∧
    ([(⟨[(DiffOp.delete, [65, 66, 67, 68, 69, 70, 71, 72, 73, 74, 75, 76, 77,
        78, 79, 80, 81, 82, 83, 84, 85, 86, 87, 88, 89, 90, 91, 92, 93, 94,
        95, 96, 97])], 0, 0, 33, 0⟩ : Patch)]).length = 1 :=
  ⟨rfl, rfl⟩

/-- **C8**: `patchApply` does not mutate its input: the deep copy it
takes at entry rebuilds every patch and every diff tuple yet is
value-identical to the input, so the call works on fresh structures;
applying to the copy is the same call, and `patchToText` of the list is
unchanged across the call. -/
theorem patchApply_no_mutation (ps : List Patch) (t : JStr) (o : DMPOptions) :
    patchDeepCopy ps = ps ∧
    patchApply (patchDeepCopy ps) t o = patchApply ps t o ∧
    patchToText (patchDeepCopy ps) = patchToText ps := by
  have h : patchDeepCopy ps = ps := by
    unfold patchDeepCopy createDiff
    conv_rhs => rw [← List.map_id ps]
    refine List.map_congr_left (fun p _ => ?_)
    simp
  exact ⟨h, by rw [h], by rw [h]⟩

theorem decodeURILoop_no_pct : ∀ (f : Nat) (s : JStr), s.length < f → 37 ∉ s →
    decodeURILoop f s = Except.ok s := by
  intro f
  induction f with
  | zero =>
    intro s hlen hnp
    exact absurd hlen (by omega)
  | succ f ih =>
    intro s hlen hnp
    cases s with
    | nil => rfl
    | cons c t =>
      have hc : c ≠ 37 := fun e => hnp (by rw [e]; exact List.mem_cons_self 37 t)
      rw [decodeURILoop_plain c hc t f,
        ih t (by simp at hlen; omega) (fun m => hnp (List.mem_cons_of_mem _ m))]

theorem decodeURI_no_pct (s : JStr) (h : 37 ∉ s) : decodeURI s = Except.ok s :=
  decodeURILoop_no_pct (s.length + 1) s (by omega) h

theorem digits_split (t u : JStr) (ht : ∀ c ∈ t, isDigit c = true)
    (hu : ∀ c, u.head? = some c → isDigit c = false) :
    (t ++ u).takeWhile (fun c => isDigit c) = t ∧ (t ++ u).drop t.length = u := by
  constructor
  · induction t with
    | nil =>
      cases u with
      | nil => rfl
      | cons c u' =>
        have := hu c rfl
        simp [List.takeWhile_cons, this]
    | cons c t' ih =>
      have hc := ht c (List.mem_cons_self c t')
      have ih' := ih (fun x hx => ht x (List.mem_cons_of_mem _ hx))
      simp [List.takeWhile_cons, hc, ih']
  · exact List.drop_left t u

theorem patchHeader_eq (p : Patch) : patchHeader p = headerLine p ++ [10] := by
  unfold patchHeader headerLine
  simp

theorem intToDigits_mem (n : Int) (c : Nat) (hc : c ∈ intToDigits n) :
    (48 ≤ c ∧ c ≤ 57) ∨ c = 45 := by
  unfold intToDigits at hc
  split at hc
  · rcases List.mem_cons.1 hc with h | h
    · exact Or.inr h
    · exact Or.inl (natToDigits_digits _ c h)
  · exact Or.inl (natToDigits_digits _ c hc)

theorem patchCoords_mem (start : Int) (len : Nat) (c : Nat)
    (hc : c ∈ patchCoords start len) : (48 ≤ c ∧ c ≤ 57) ∨ c = 44 ∨ c = 45 := by
  unfold patchCoords at hc
  split at hc
  · rcases List.mem_append.1 hc with h | h
    · rcases intToDigits_mem _ _ h with h | h
      · exact Or.inl h
      · exact Or.inr (Or.inr h)
    · rcases List.mem_cons.1 h with h | h
      · exact Or.inr (Or.inl h)
      · simp at h
        omega
  · split at hc
    · rcases intToDigits_mem _ _ hc with h | h
      · exact Or.inl h
      · exact Or.inr (Or.inr h)
    · rcases List.mem_append.1 hc with h | h
      · rcases intToDigits_mem _ _ h with h | h
        · exact Or.inl h
        · exact Or.inr (Or.inr h)
      · rcases List.mem_cons.1 h with h | h
        · exact Or.inr (Or.inl h)
        · exact Or.inl (natToDigits_digits _ c h)

theorem headerLine_mem (p : Patch) (c : Nat) (hc : c ∈ headerLine p) :
    32 ≤ c ∧ c ≠ 37 := by
  unfold headerLine at hc
  have h5 : c ∈ ([64, 64, 32, 45] : JStr) ∨ c ∈ patchCoords p.start1 p.length1 ∨
      c ∈ ([32, 43] : JStr) ∨ c ∈ patchCoords p.start2 p.length2 ∨
      c ∈ ([32, 64, 64] : JStr) := by
    simpa [List.mem_append, or_assoc] using hc
  rcases h5 with h | h | h | h | h
  · simp at h
    omega
  · have := patchCoords_mem _ _ _ h
    omega
  · simp at h
    omega
  · have := patchCoords_mem _ _ _ h
    omega
  · simp at h
    omega

theorem bodyLines_mem : ∀ (ds : List Diff) (l : JStr), l ∈ bodyLines ds →
    ∀ c ∈ l, 32 ≤ c := by
  intro ds
  induction ds with
  | nil =>
    intro l hl
    simp [bodyLines] at hl
  | cons d rest ih =>
    intro l hl c hc
    rcases List.mem_cons.1 hl with h | h
    · subst h
      rcases List.mem_cons.1 hc with h | h
      · cases hop : d.1 <;> subst h <;> simp [patchSign, hop]
      · exact wireCps_mem_ge _ c h
    · exact ih l h c hc

theorem coords_parse (start : Int) (len : Nat) (hs : 0 ≤ start) (u : JStr)
    (hu : ∀ c, u.head? = some c → isDigit c = false ∧ c ≠ 44) :
    (patchCoords start len ++ u).takeWhile (fun c => isDigit c) ≠ [] ∧
    headerStartLen ((patchCoords start len ++ u).takeWhile (fun c => isDigit c))
      (headerOptNum ((patchCoords start len ++ u).drop
        ((patchCoords start len ++ u).takeWhile (fun c => isDigit c)).length)).1
      = (start, len) ∧
    (headerOptNum ((patchCoords start len ++ u).drop
      ((patchCoords start len ++ u).takeWhile (fun c => isDigit c)).length)).2 = u := by
  have hdig : ∀ m : Nat, ∀ c ∈ natToDigits m, isDigit c = true := fun m c hc =>
    isDigit_of_bounds c (natToDigits_digits m c hc).1 (natToDigits_digits m c hc).2
  have hud : ∀ c, u.head? = some c → isDigit c = false := fun c hc => (hu c hc).1
  have htwu : u.takeWhile (fun c => isDigit c) = [] := by
    cases u with
    | nil => rfl
    | cons c u' => simp [List.takeWhile_cons, hud c rfl]
  by_cases h0 : len = 0
  · subst h0
    have hr0 : patchCoords start 0 ++ u = natToDigits start.toNat ++ (44 :: 48 :: u) := by
      unfold patchCoords intToDigits
      rw [if_pos rfl, if_neg (by omega)]
      simp
    have hds := digits_split (natToDigits start.toNat) (44 :: 48 :: u) (hdig _)
      (fun c hc => by simp at hc; subst hc; rfl)
    rw [hr0, hds.1, hds.2]
    have htw : (48 :: u).takeWhile (fun c => isDigit c) = [48] := by
      simp [List.takeWhile_cons, show isDigit 48 = true from rfl, htwu]
    have hopt : headerOptNum (44 :: 48 :: u) = ([48], u) := by
      show ((48 :: u).takeWhile (fun c => isDigit c),
        (48 :: u).drop ((48 :: u).takeWhile (fun c => isDigit c)).length) = ([48], u)
      rw [htw]
      rfl
    rw [hopt]
    refine ⟨natToDigits_ne_nil _, ?_, rfl⟩
    unfold headerStartLen
    rw [if_neg (by simp), if_pos rfl, digitsVal_natToDigits]
    simp [Int.toNat_of_nonneg hs]
  · by_cases h1 : len = 1
    · subst h1
      have hr0 : patchCoords start 1 ++ u = natToDigits (start + 1).toNat ++ u := by
        unfold patchCoords intToDigits
        rw [if_neg (by omega), if_pos rfl, if_neg (by omega)]
      have hds := digits_split (natToDigits (start + 1).toNat) u (hdig _) hud
      rw [hr0, hds.1, hds.2]
      have hopt : headerOptNum u = ([], u) := by
        cases u with
        | nil => rfl
        | cons c u' =>
          have h44 := (hu c rfl).2
          unfold headerOptNum
          split
          · rename_i rest heq
            injection heq with hc _
            exact absurd hc h44
          · rfl
      rw [hopt]
      refine ⟨natToDigits_ne_nil _, ?_, rfl⟩
      unfold headerStartLen
      rw [if_pos rfl, digitsVal_natToDigits]
      have hcast : ((start + 1).toNat : Int) = start + 1 := Int.toNat_of_nonneg (by omega)
      rw [hcast]
      simp
    · have hr0 : patchCoords start len ++ u =
          natToDigits (start + 1).toNat ++ (44 :: (natToDigits len ++ u)) := by
        unfold patchCoords intToDigits
        rw [if_neg h0, if_neg h1, if_neg (by omega)]
        simp
      have hds := digits_split (natToDigits (start + 1).toNat)
        (44 :: (natToDigits len ++ u)) (hdig _)
        (fun c hc => by simp at hc; subst hc; rfl)
      rw [hr0, hds.1, hds.2]
      have hds2 := digits_split (natToDigits len) u (hdig _) hud
      have hopt : headerOptNum (44 :: (natToDigits len ++ u)) = (natToDigits len, u) := by
        show ((natToDigits len ++ u).takeWhile (fun c => isDigit c),
          (natToDigits len ++ u).drop
            ((natToDigits len ++ u).takeWhile (fun c => isDigit c)).length)
          = (natToDigits len, u)
        rw [hds2.1, hds2.2]
      rw [hopt]
      refine ⟨natToDigits_ne_nil _, ?_, rfl⟩
      unfold headerStartLen
      have hv : digitsVal (natToDigits len) = len := digitsVal_natToDigits len
      have h48 : natToDigits len ≠ [48] := by
        intro e
        rw [e] at hv
        have h0' : digitsVal [48] = 0 := rfl
        omega
      rw [if_neg (natToDigits_ne_nil len), if_neg h48, digitsVal_natToDigits,
        digitsVal_natToDigits]
      have hcast : ((start + 1).toNat : Int) = start + 1 := Int.toNat_of_nonneg (by omega)
      rw [hcast]
      simp

theorem parseHeader_headerLine (p : Patch) (h1 : 0 ≤ p.start1) (h2 : 0 ≤ p.start2) :
    parseHeader (headerLine p) = some (p.start1, p.length1, p.start2, p.length2) := by
  have hu2 : ∀ c : Nat, (([32, 64, 64] : JStr)).head? = some c →
      isDigit c = false ∧ c ≠ 44 := by
    intro c hc
    simp at hc
    subst hc
    exact ⟨rfl, by decide⟩
  have hcp2 := coords_parse p.start2 p.length2 h2 [32, 64, 64] hu2
  have hu1 : ∀ c : Nat,
      ((32 :: 43 :: (patchCoords p.start2 p.length2 ++ [32, 64, 64]) : JStr)).head?
        = some c → isDigit c = false ∧ c ≠ 44 := by
    intro c hc
    simp at hc
    subst hc
    exact ⟨rfl, by decide⟩
  have hcp1 := coords_parse p.start1 p.length1 h1
    (32 :: 43 :: (patchCoords p.start2 p.length2 ++ [32, 64, 64])) hu1
  unfold headerLine
  simp only [List.append_assoc, List.cons_append, List.nil_append]
  simp only [parseHeader]
  rw [if_neg hcp1.1, hcp1.2.2]
  dsimp only
  rw [if_neg hcp2.1, hcp2.2.2]
  rw [hcp1.2.1, hcp2.2.1]

theorem parseBody_at_header (b : JStr) (rest : List JStr) (acc : List Diff)
    (hb : 37 ∉ b) :
    parseBody ((64 :: b) :: rest) acc = Except.ok (acc, (64 :: b) :: rest) := by
  simp only [parseBody]
  rw [decodeURI_no_pct b hb]
  simp

theorem parseBody_wire : ∀ (ds : List Diff) (acc : List Diff) (trail : List JStr),
    (∀ d ∈ ds, wellFormedUtf16 d.2) →
    parseBody (bodyLines ds ++ trail) acc = parseBody trail (acc ++ ds) := by
  intro ds
  induction ds with
  | nil =>
    intro acc trail h
    simp [bodyLines]
  | cons d rest ih =>
    intro acc trail h
    obtain ⟨op, t⟩ := d
    obtain ⟨hb, hsome⟩ := h (op, t) (List.mem_cons_self _ _)
    obtain ⟨cps, hcps⟩ := Option.isSome_iff_exists.1 hsome
    have hrt := utf16_roundtrip t.length t (le_refl _) hb cps hcps
    have hcps' : utf16ToCodePoints t = some cps := hcps
    have hbl : bodyLines ((op, t) :: rest) =
        (patchSign op :: wireCps cps) :: bodyLines rest := by
      show (patchSign op :: wireCps ((utf16ToCodePoints t).getD [])) ::
        bodyLines rest = _
      rw [hcps']
      rfl
    rw [hbl]
    show parseBody ((patchSign op :: wireCps cps) :: (bodyLines rest ++ trail)) acc = _
    simp only [parseBody]
    rw [decodeURI_wireCps cps hrt.2, hrt.1]
    have ih' := ih (acc ++ [(op, t)]) trail
      (fun x hx => h x (List.mem_cons_of_mem _ hx))
    cases op
    · show parseBody (bodyLines rest ++ trail) (acc ++ [(DiffOp.delete, t)]) = _
      rw [ih']
      simp
    · show parseBody (bodyLines rest ++ trail) (acc ++ [(DiffOp.insert, t)]) = _
      rw [ih']
      simp
    · show parseBody (bodyLines rest ++ trail) (acc ++ [(DiffOp.equal, t)]) = _
      rw [ih']
      simp

theorem patchBody_wire : ∀ (ds : List Diff), (∀ d ∈ ds, wellFormedUtf16 d.2) →
    ∃ B, patchBody ds = Except.ok B ∧ replacePct20 B = joinNl (bodyLines ds) := by
  intro ds
  induction ds with
  | nil => exact fun h => ⟨[], rfl, rfl⟩
  | cons d rest ih =>
    intro h
    obtain ⟨op, t⟩ := d
    obtain ⟨hb, hsome⟩ := h (op, t) (List.mem_cons_self _ _)
    obtain ⟨cps, hcps⟩ := Option.isSome_iff_exists.1 hsome
    have hrt := utf16_roundtrip t.length t (le_refl _) hb cps hcps
    obtain ⟨B', hB', hrep'⟩ := ih (fun x hx => h x (List.mem_cons_of_mem _ hx))
    have henc : encodeURI t = Except.ok (encodeCps cps) := by
      unfold encodeURI
      rw [hcps]
    have hcps' : utf16ToCodePoints t = some cps := hcps
    refine ⟨patchSign op :: encodeCps cps ++ [10] ++ B', ?_, ?_⟩
    · cases op <;>
        simp only [patchBody] <;>
        rw [henc, hB'] <;>
        rfl
    · have hs37 : patchSign op ≠ 37 := by cases op <;> decide
      simp only [List.append_assoc, List.cons_append, List.nil_append]
      rw [replacePct20_cons _ hs37, replacePct20_wireCps cps (10 :: B'),
        replacePct20_cons 10 (by decide), hrep']
      show _ = joinNl ((patchSign op :: wireCps ((utf16ToCodePoints t).getD [])) ::
        bodyLines rest)
      rw [hcps']
      show _ = (patchSign op :: wireCps cps) ++ 10 :: joinNl (bodyLines rest)
      simp

theorem patchToString_wire (p : Patch) (hw : ∀ d ∈ p.diffs, wellFormedUtf16 d.2) :
    patchToString p = Except.ok (headerLine p ++ 10 :: joinNl (bodyLines p.diffs)) := by
  obtain ⟨B, hB, hrep⟩ := patchBody_wire p.diffs hw
  unfold patchToString
  rw [hB]
  dsimp only
  rw [patchHeader_eq]
  simp only [List.append_assoc, List.cons_append, List.nil_append]
  rw [replacePct20_nopct (headerLine p) (10 :: B)
    (fun hmem => (headerLine_mem p 37 hmem).2 rfl),
    replacePct20_cons 10 (by decide), hrep]

theorem joinNl_append : ∀ (a b : List JStr), joinNl (a ++ b) = joinNl a ++ joinNl b := by
  intro a b
  induction a with
  | nil => rfl
  | cons l a' ih => simp [joinNl, ih]

theorem patchToText_wire : ∀ (ps : List Patch),
    (∀ p ∈ ps, ∀ d ∈ p.diffs, wellFormedUtf16 d.2) →
    patchToText ps = Except.ok (joinNl (allLines ps)) := by
  intro ps
  induction ps with
  | nil => exact fun h => rfl
  | cons p rest ih =>
    intro h
    simp only [patchToText]
    rw [patchToString_wire p (h p (List.mem_cons_self _ _)),
      ih (fun q hq => h q (List.mem_cons_of_mem _ hq))]
    show _ = Except.ok (joinNl (headerLine p :: (bodyLines p.diffs ++ allLines rest)))
    show _ = Except.ok (headerLine p ++ 10 :: joinNl (bodyLines p.diffs ++ allLines rest))
    rw [joinNl_append]
    simp

theorem joinNl_split : ∀ (L : List JStr), (∀ l ∈ L, 10 ∉ l) →
    jsSplit 10 (joinNl L) = L ++ [[]] := by
  intro L
  induction L with
  | nil =>
    intro h
    exact jsSplit_nosep 10 [] (by simp)
  | cons l L' ih =>
    intro h
    show jsSplit 10 (l ++ 10 :: joinNl L') = _
    rw [jsSplit_sep 10 l (joinNl L') (h l (List.mem_cons_self _ _)),
      ih (fun x hx => h x (List.mem_cons_of_mem _ hx))]
    rfl

theorem allLines_no_nl : ∀ (ps : List Patch) (l : JStr), l ∈ allLines ps → 10 ∉ l := by
  intro ps
  induction ps with
  | nil =>
    intro l hl
    simp [allLines] at hl
  | cons p rest ih =>
    intro l hl
    rcases List.mem_cons.1 hl with h | h
    · subst h
      intro hmem
      have := headerLine_mem p 10 hmem
      omega
    · rcases List.mem_append.1 h with h2 | h2
      · intro hmem
        have := bodyLines_mem p.diffs l h2 10 hmem
        omega
      · exact ih l h2

theorem allLines_fuel : ∀ ps : List Patch, ps.length ≤ (joinNl (allLines ps)).length := by
  intro ps
  induction ps with
  | nil => simp [allLines, joinNl]
  | cons p rest ih =>
    show rest.length + 1 ≤
      (joinNl (headerLine p :: (bodyLines p.diffs ++ allLines rest))).length
    show rest.length + 1 ≤
      (headerLine p ++ 10 :: joinNl (bodyLines p.diffs ++ allLines rest)).length
    rw [joinNl_append]
    simp only [List.length_append, List.length_cons]
    omega

theorem fromTextLoop_wire : ∀ (ps : List Patch) (fuel : Nat),
    (∀ p ∈ ps, 0 ≤ p.start1 ∧ 0 ≤ p.start2) →
    (∀ p ∈ ps, ∀ d ∈ p.diffs, wellFormedUtf16 d.2) →
    ps.length ≤ fuel →
    patchFromTextLoop fuel (if ps = [] then [] else allLines ps ++ [[]])
      = Except.ok ps := by
  intro ps
  induction ps with
  | nil =>
    intro fuel hs hw hf
    rw [if_pos rfl]
    cases fuel <;> rfl
  | cons p rest ih =>
    intro fuel hs hw hf
    cases fuel with
    | zero => simp at hf
    | succ fuel =>
      rw [if_neg (by simp)]
      show patchFromTextLoop (fuel + 1)
        ((headerLine p :: (bodyLines p.diffs ++ allLines rest)) ++ [[]]) = _
      show patchFromTextLoop (fuel + 1)
        (headerLine p :: (bodyLines p.diffs ++ allLines rest ++ [[]])) = _
      simp only [patchFromTextLoop]
      rw [parseHeader_headerLine p (hs p (List.mem_cons_self _ _)).1
        (hs p (List.mem_cons_self _ _)).2]
      rw [List.append_assoc, parseBody_wire p.diffs [] (allLines rest ++ [[]])
        (hw p (List.mem_cons_self _ _))]
      have hrest : parseBody (allLines rest ++ [[]]) ([] ++ p.diffs)
          = Except.ok (p.diffs,
            if rest = [] then ([] : List JStr) else allLines rest ++ [[]]) := by
        cases rest with
        | nil =>
          rw [if_pos rfl]
          rfl
        | cons q rest' =>
          rw [if_neg (by simp)]
          have hhd : headerLine q = 64 :: (64 :: 32 :: 45 ::
              (patchCoords q.start1 q.length1 ++
                ([32, 43] ++ (patchCoords q.start2 q.length2 ++ [32, 64, 64])))) := by
            simp [headerLine, List.append_assoc]
          have hb37 : (37 : Nat) ∉ (64 :: 32 :: 45 ::
              (patchCoords q.start1 q.length1 ++
                ([32, 43] ++ (patchCoords q.start2 q.length2 ++ [32, 64, 64])))) := by
            intro hmem
            have := headerLine_mem q 37 (by rw [hhd]; exact List.mem_cons_of_mem 64 hmem)
            omega
          show parseBody ((headerLine q :: (bodyLines q.diffs ++ allLines rest')) ++ [[]])
            p.diffs = _
          rw [List.cons_append, hhd, parseBody_at_header _ _ _ hb37, ← hhd]
          rfl
      rw [hrest]
      dsimp only
      rw [ih fuel (fun q hq => hs q (List.mem_cons_of_mem _ hq))
        (fun q hq => hw q (List.mem_cons_of_mem _ hq)) (by simp at hf; omega)]

theorem patchFromText_wire (ps : List Patch)
    (hs : ∀ p ∈ ps, 0 ≤ p.start1 ∧ 0 ≤ p.start2)
    (hw : ∀ p ∈ ps, ∀ d ∈ p.diffs, wellFormedUtf16 d.2) :
    patchFromText (joinNl (allLines ps)) = Except.ok ps := by
  cases ps with
  | nil => rfl
  | cons p rest =>
    have hne : joinNl (allLines (p :: rest)) ≠ [] := by
      show headerLine p ++ 10 :: joinNl (bodyLines p.diffs ++ allLines rest) ≠ []
      simp
    unfold patchFromText
    rw [if_neg hne, joinNl_split (allLines (p :: rest)) (allLines_no_nl _)]
    have hfw := fromTextLoop_wire (p :: rest) ((joinNl (allLines (p :: rest))).length + 1)
      hs hw (by have := allLines_fuel (p :: rest); omega)
    rw [if_neg (by simp)] at hfw
    exact hfw

/-- **C7**: any string produced by `patchToText` on a patch list with
nonnegative starts and well-formed UTF-16 payloads parses back
(`patchFromText`) to a patch list that re-serializes to the same
string.  The nonnegativity is necessary: a negative `start1` prints a
header the parser's pattern rejects (counterexample). -/
theorem patchText_roundtrip (ps : List Patch) (s : JStr)
    (hs : ∀ p ∈ ps, 0 ≤ p.start1 ∧ 0 ≤ p.start2)
    (hw : ∀ p ∈ ps, ∀ d ∈ p.diffs, wellFormedUtf16 d.2)
    (hok : patchToText ps = Except.ok s) :
    ∃ ps', patchFromText s = Except.ok ps' ∧ patchToText ps' = Except.ok s := by
  have hA := patchToText_wire ps hw
  rw [hok] at hA
  have hse : s = joinNl (allLines ps) := Except.ok.inj hA
  subst hse
  exact ⟨ps, patchFromText_wire ps hs hw, hok⟩

/-- **C7** counterexample: `patchToText` of a patch with `start1 = -1`
is a string (the header prints the negative coordinate) on which
`patchFromText` throws, so serialize-parse-serialize is not the
identity on all `patchToText` outputs. -/
theorem patchText_roundtrip_neg_start :
    patchToText [⟨[], -1, 0, 0, 0⟩] =
      Except.ok [64, 64, 32, 45, 45, 49, 44, 48, 32, 43, 48, 44, 48, 32, 64, 64, 10] ∧
    patchFromText [64, 64, 32, 45, 45, 49, 44, 48, 32, 43, 48, 44, 48, 32, 64, 64, 10]
      = Except.error "Invalid patch string" :=
  ⟨rfl, rfl⟩

/-- Closed instance of the C7 round-trip on the one-patch list
`@@ -1 +1 @@` with body ` a`. -/
theorem patchText_roundtrip_witness :
    (∀ p ∈ [(⟨[(DiffOp.equal, [97])], 0, 0, 1, 1⟩ : Patch)],
      0 ≤ p.start1 ∧ 0 ≤ p.start2) ∧
    (∀ p ∈ [(⟨[(DiffOp.equal, [97])], 0, 0, 1, 1⟩ : Patch)],
      ∀ d ∈ p.diffs, wellFormedUtf16 d.2) ∧
    ∃ ps', patchFromText
        [64, 64, 32, 45, 49, 32, 43, 49, 32, 64, 64, 10, 32, 97, 10]
        = Except.ok ps' ∧
      patchToText ps' = Except.ok
        [64, 64, 32, 45, 49, 32, 43, 49, 32, 64, 64, 10, 32, 97, 10] :=
  ⟨by decide, by decide,
    patchText_roundtrip [⟨[(DiffOp.equal, [97])], 0, 0, 1, 1⟩]
      [64, 64, 32, 45, 49, 32, 43, 49, 32, 64, 64, 10, 32, 97, 10]
      (by decide) (by decide) rfl⟩

/-- **C1**: for every pair of strings and every options record, the edit
script returned by `diffMain` reconstructs both inputs: concatenating the
payloads of its non-insert entries (`diffText1`) yields the first input and
concatenating the payloads of its non-delete entries (`diffText2`) yields the
second.  The second conjunct states this for every fuel bound and every
deadline oracle, so the property holds regardless of which path (equality
shortcut, affix stripping, half match, line mode, bisect, or deadline
fallback) produced the script. -/
theorem diffMain_roundtrip :
    ∀ (a b : JStr) (options : DMPOptions),
      (diffText1 (diffMain a b options) = a ∧
        diffText2 (diffMain a b options) = b) ∧
      ∀ (fuel k : Nat) (oracle : Nat → Bool) (checklines : Bool),
        diffText1 (diffMainF fuel oracle options k a b checklines).1 = a ∧
        diffText2 (diffMainF fuel oracle options k a b checklines).1 = b := by
  intro a b options
  exact ⟨diffMainF_texts (a.length + b.length + 1) (fun _ => false) options 0
      a b true,
    fun fuel k oracle checklines => diffMainF_texts fuel oracle options k
      a b checklines⟩

end DMP
